import Mathlib

/-!
# whatsapp-notifier-bot: mention chunker, target resolver, participant provider,
dispatch strategies and schedulers

A shallow embedding of
* `src/utils/chunk.js` (`chunkMentions`, `buildMentionText`),
* `src/services/groupResolver.js` (`resolveTargetGroup` and its store helpers),
* `src/services/participants.js` (`getParticipants`),
* `src/notifiers/groupNotifier.js` (`notifyGroup`) and
  `src/notifiers/dmNotifier.js` (`notifyDM`),
* `src/utils/cronTime.js` (`fillMessageTemplate`),
* `src/scheduler.js` (`runNotification`, `startScheduler`, `stopScheduler`),
* `src/services/schedulerService.js` (the `SchedulerService` instance),
followed by the properties proved about them.

Conventions of the embedding:
* a JavaScript array is a `List`, a JavaScript string is a `String`;
* `null`/`undefined` is `none`;
* a counter or a size is a `Nat`;
* a call that may throw (or a promise that may reject) returns an `Outcome`;
* module-level `let` variables and the external store are fields of an
  explicit state record that every operation takes and returns;
* an awaited call returns before the next statement runs, and the calls made
  are recorded, in order, in a trace.
-/

namespace WaNotifier

/-! ## `src/utils/chunk.js` -/

/-- `Array.prototype.slice(start, end)` for integral `0 ≤ start ≤ end`:
the elements at the positions `start ≤ k < min end length`. -/
def slice {α : Type} (xs : List α) (start stop : Nat) : List α :=
  (xs.drop start).take (stop - start)

/-- The `for` loop of `chunkMentions` (chunk.js lines 7-9), one iteration per
unit of fuel: `i` is the loop counter and `chunks` the array built so far.
`none` means that the fuel ran out before the loop condition became false. -/
def chunkLoop {α : Type} (mentions : List α) (maxPerChunk : Nat) :
    Nat → Nat → List (List α) → Option (List (List α))
  | 0, _, _ => none
  | fuel + 1, i, chunks =>
    if i < mentions.length then
      chunkLoop mentions maxPerChunk fuel (i + maxPerChunk)
        (chunks ++ [slice mentions i (i + maxPerChunk)])
    else
      some chunks

/-- The default value of the parameter `maxPerChunk` (chunk.js line 5). -/
def defaultMaxPerChunk : Nat := 50

/-- `chunkMentions(mentions, maxPerChunk)` (chunk.js lines 5-11), for an
integral `maxPerChunk`.  The loop gets `mentions.length + 1` iterations, which
is enough exactly when the JavaScript loop terminates (`chunkMentions_eq_none_iff`);
`none` stands for the loop that never ends. -/
def chunkMentions {α : Type} (mentions : List α) (maxPerChunk : Nat) :
    Option (List (List α)) :=
  chunkLoop mentions maxPerChunk (mentions.length + 1) 0 []

/-- `String(jid).split('@')[0]`: the part of `jid` before its first `'@'`
(all of `jid` when it has none). -/
def beforeAt (jid : String) : String :=
  String.mk (jid.data.takeWhile (fun c => c != '@'))

/-- The template literal of chunk.js line 18: `'@'` followed by `beforeAt jid`. -/
def mentionToken (jid : String) : String :=
  "@" ++ beforeAt jid

/-- `Array.prototype.join(sep)` on an array of strings. -/
def joinWith (sep : String) : List String → String
  | [] => ""
  | [s] => s
  | s :: t :: rest => s ++ sep ++ joinWith sep (t :: rest)

/-- `buildMentionText(jids)` (chunk.js lines 16-20). -/
def buildMentionText (jids : List String) : String :=
  joinWith " " (jids.map mentionToken)

/-! ## Values shared by the services -/

/-- The result of a call that may throw, or of an awaited promise that may
reject: the value, or the error raised. -/
inductive Outcome (α : Type) where
  | value (a : α)
  | raised (error : String)
  deriving DecidableEq, Repr

/-- A member of a group chat as `getParticipants` reads it: `id` is
`p.id._serialized`, `none` when reading it throws. -/
structure Participant where
  id : Option String
  deriving DecidableEq, Repr

/-- The fields that the services read of a conversation object of the
messaging client: `id` is `chat.id._serialized`, `participants` is
`chat.participants` (`none` when the property is undefined). -/
structure Chat where
  id : String
  name : String
  isGroup : Bool
  participants : Option (List Participant)
  deriving DecidableEq, Repr

/-- JavaScript truthiness of a value that is a string or `null`/`undefined`:
the value itself when it is a non-empty string, `none` otherwise.  It decides
`if (x)` and computes `x || null`. -/
def truthy : Option String → Option String
  | some s => if s = "" then none else some s
  | none => none

/-! ## `src/services/groupResolver.js` -/

/-- The two fields of `config` that the resolver reads (config.js lines 10-11). -/
structure Config where
  GROUP_ID : Option String
  GROUP_NAME : Option String
  deriving DecidableEq, Repr

/-- The messaging client as the resolver uses it.  The answers are a function
of the request: the directory does not change while one call runs. -/
structure Client where
  getChatById : String → Outcome (Option Chat)
  getChats : Outcome (List Chat)

/-- How the MongoDB driver behaves: whether `new MongoClient(uri)`,
`connect()`, `findOne` and `updateOne` succeed (`false`: the call throws). -/
structure Mongo where
  constructOk : Bool
  connectOk : Bool
  findOneOk : Bool
  updateOneOk : Bool
  deriving DecidableEq, Repr

/-- Everything outside the resolver that a call depends on. -/
structure World where
  client : Client
  mongo : Mongo

/-- The mutable state behind the resolver: the module variables
`cachedGroupId` and `mongoClient` (groupResolver.js lines 5-6; `mongoClient`
only as assigned or not) and the `value` of the document
`{ key: 'target_group_id' }` of the collection `bot_meta` (`none`: no such
document). -/
structure ResolverState where
  cachedGroupId : Option String
  mongoClient : Bool
  stored : Option String
  deriving DecidableEq, Repr

/-- The tier of `resolveTargetGroup` that fetches a conversation by id. -/
inductive Tier where
  | memory
  | configured
  | persisted
  | byName
  deriving DecidableEq, Repr

/-- The calls that `resolveTargetGroup` makes to its collaborators, in the
order it makes them: `client.getChatById(id)` (with the tier that makes it),
`client.getChats()`, `getGroupIdFromCache()` and `saveGroupIdToCache(id)`. -/
inductive Event where
  | getChatById (tier : Tier) (id : String)
  | getChats
  | getGroupIdFromCache
  | saveGroupIdToCache (id : String)
  deriving DecidableEq, Repr

/-- `getMongoClient()` (groupResolver.js lines 11-17).  The assignment to
`mongoClient` precedes `connect()`, so a failed connection leaves the variable
assigned. -/
def getMongoClient (m : Mongo) (st : ResolverState) : Outcome Unit × ResolverState :=
  if !st.mongoClient then
    if !m.constructOk then
      (.raised "MongoClient", st)
    else
      let st1 := { st with mongoClient := true }
      if m.connectOk then (.value (), st1) else (.raised "connect", st1)
  else
    (.value (), st)

/-- `saveGroupIdToCache(groupId)` (groupResolver.js lines 22-38): the upsert
of the document, every error caught and logged. -/
def saveGroupIdToCache (m : Mongo) (st : ResolverState) (groupId : String) : ResolverState :=
  match getMongoClient m st with
  | (.value _, st1) =>
    if m.updateOneOk then { st1 with stored := some groupId } else st1
  | (.raised _, st1) => st1

/-- `getGroupIdFromCache()` (groupResolver.js lines 43-55): `doc?.value || null`,
and `null` when anything throws. -/
def getGroupIdFromCache (m : Mongo) (st : ResolverState) : Option String × ResolverState :=
  match getMongoClient m st with
  | (.value _, st1) =>
    if m.findOneOk then (truthy st1.stored, st1) else (none, st1)
  | (.raised _, st1) => (none, st1)

/-- `chat && chat.isGroup` as a condition. -/
def isGroupChat : Option Chat → Bool
  | some chat => chat.isGroup
  | none => false

/-- What one call of `resolveTargetGroup` does: the promise's result (`value
none` is `null`), the state it leaves and the calls it made. -/
structure Resolution where
  ret : Outcome (Option Chat)
  st : ResolverState
  trace : List Event

/-- Step 4 of `resolveTargetGroup` and its final `return null`
(groupResolver.js lines 99-116), entered in state `st` after the calls `tr`.
The call `client.getChats()` is not inside a `try`. -/
def resolveByName (cfg : Config) (w : World) (st : ResolverState) (tr : List Event) :
    Resolution :=
  match truthy cfg.GROUP_NAME with
  | some groupName =>
    match w.client.getChats with
    | .raised e => ⟨.raised e, st, tr ++ [.getChats]⟩
    | .value chats =>
      match chats.find? (fun chat => chat.isGroup && chat.name == groupName) with
      | some targetChat =>
        let st1 := { st with cachedGroupId := some targetChat.id }
        ⟨.value (some targetChat), saveGroupIdToCache w.mongo st1 targetChat.id,
          tr ++ [.getChats, .saveGroupIdToCache targetChat.id]⟩
      | none => ⟨.value none, st, tr ++ [.getChats]⟩
  | none => ⟨.value none, st, tr⟩

/-- Step 3 of `resolveTargetGroup` (groupResolver.js lines 84-97) and what
follows it. -/
def resolveFromStore (cfg : Config) (w : World) (st : ResolverState) (tr : List Event) :
    Resolution :=
  let read := getGroupIdFromCache w.mongo st
  let tr1 := tr ++ [.getGroupIdFromCache]
  match truthy read.1 with
  | some cachedId =>
    let tr2 := tr1 ++ [.getChatById .persisted cachedId]
    match w.client.getChatById cachedId with
    | .value chat =>
      if isGroupChat chat then
        ⟨.value chat, { read.2 with cachedGroupId := some cachedId }, tr2⟩
      else
        resolveByName cfg w read.2 tr2
    | .raised _ => resolveByName cfg w read.2 tr2
  | none => resolveByName cfg w read.2 tr1

/-- Step 2 of `resolveTargetGroup` (groupResolver.js lines 69-82) and what
follows it. -/
def resolveFromConfig (cfg : Config) (w : World) (st : ResolverState) (tr : List Event) :
    Resolution :=
  match truthy cfg.GROUP_ID with
  | some groupId =>
    let tr1 := tr ++ [.getChatById .configured groupId]
    match w.client.getChatById groupId with
    | .value chat =>
      if isGroupChat chat then
        let st1 := { st with cachedGroupId := some groupId }
        ⟨.value chat, saveGroupIdToCache w.mongo st1 groupId,
          tr1 ++ [.saveGroupIdToCache groupId]⟩
      else
        resolveFromStore cfg w st tr1
    | .raised _ => resolveFromStore cfg w st tr1
  | none => resolveFromStore cfg w st tr

/-- `resolveTargetGroup(client)` (groupResolver.js lines 60-116): step 1,
then the later steps.  The call `client.getChatById(cachedGroupId)` of step 1
is not inside a `try`.  The calls of `logger` are left out: they change
neither the state nor the control flow. -/
def resolveTargetGroup (cfg : Config) (w : World) (st : ResolverState) : Resolution :=
  match truthy st.cachedGroupId with
  | some cachedGroupId =>
    let tr := [Event.getChatById .memory cachedGroupId]
    match w.client.getChatById cachedGroupId with
    | .value chat =>
      if isGroupChat chat then ⟨.value chat, st, tr⟩ else resolveFromConfig cfg w st tr
    | .raised e => ⟨.raised e, st, tr⟩
  | none => resolveFromConfig cfg w st []

/-- `getCachedGroupId()` (groupResolver.js lines 121-123). -/
def getCachedGroupId (st : ResolverState) : Option String :=
  st.cachedGroupId

/-- The tiers beyond the in-memory check whose round trip to the messaging
client (a fetch by id or the enumeration of all conversations) a trace
contains, in the order of the trace. -/
def roundTripTiers : List Event → List Tier
  | [] => []
  | .getChatById .memory _ :: rest => roundTripTiers rest
  | .getChatById tier _ :: rest => tier :: roundTripTiers rest
  | .getChats :: rest => .byName :: roundTripTiers rest
  | _ :: rest => roundTripTiers rest

/-- The ids that a trace fetches with `client.getChatById`, in order. -/
def fetchedIds : List Event → List String
  | [] => []
  | .getChatById _ id :: rest => id :: fetchedIds rest
  | _ :: rest => fetchedIds rest

/-- The ids that a trace hands to `saveGroupIdToCache`, in order. -/
def savedIds : List Event → List String
  | [] => []
  | .saveGroupIdToCache id :: rest => id :: savedIds rest
  | _ :: rest => savedIds rest

/-- Whether `client.getChatById(id)` yields a group: it returns a
conversation whose `isGroup` is true. -/
def yieldsGroup (w : World) (id : String) : Bool :=
  match w.client.getChatById id with
  | .value chat => isGroupChat chat
  | .raised _ => false

/-- Whether a trace stops its round trips at the first fetch that yields a
group: after such a fetch the trace has no further round trip. -/
def stopsAtGroup (w : World) : List Event → Bool
  | [] => true
  | .getChatById _ id :: rest =>
    (!yieldsGroup w id || (roundTripTiers rest).isEmpty) && stopsAtGroup w rest
  | _ :: rest => stopsAtGroup w rest

/-! ## `src/services/participants.js` -/

/-- One entry of `participantsCache`: `{ data, timestamp }`. -/
structure CacheEntry where
  data : List String
  timestamp : Int
  deriving DecidableEq, Repr

/-- The module's `participantsCache` (participants.js line 3): a `Map` from
the conversation id to its entry, as the lookup function of the map. -/
abbrev ParticipantsCache := String → Option CacheEntry

/-- `new Map()`: the cache when the module is loaded. -/
def emptyCache : ParticipantsCache := fun _ => none

/-- `participantsCache.set(chatId, entry)`. -/
def cacheSet (cache : ParticipantsCache) (chatId : String) (entry : CacheEntry) :
    ParticipantsCache :=
  fun k => if k = chatId then some entry else cache k

/-- `CACHE_TTL` (participants.js line 4), in milliseconds. -/
def CACHE_TTL : Int := 30 * 60 * 1000

/-- What a call of `getParticipants` reads of its surroundings: the two
values of `Date.now()` (lines 15 and 36) and the bot's own address
`(chat.client || global.waClient).info.wid._serialized` (`none` when reading it
throws). -/
structure ParticipantsEnv where
  nowCheck : Int
  nowStore : Int
  botNumber : Option String
  deriving DecidableEq, Repr

/-- `jid.endsWith(suffix)`. -/
def endsWith (jid suffix : String) : Bool :=
  suffix.data.isSuffixOf jid.data

/-- `participants.map(p => p.id._serialized)`: the ids, or `none` when one of
them cannot be read. -/
def participantIds : List Participant → Option (List String)
  | [] => some []
  | p :: rest =>
    match p.id, participantIds rest with
    | some jid, some jids => some (jid :: jids)
    | _, _ => none

/-- The body of the `try` of `getParticipants` up to the filter
(participants.js lines 22-31). -/
def readRoster (env : ParticipantsEnv) (chat : Chat) : Outcome (List String) :=
  let participants := chat.participants.getD []
  match env.botNumber with
  | none => .raised "client.info"
  | some botNumber =>
    match participantIds participants with
    | none => .raised "participant.id"
    | some jids =>
      .value (jids.filter (fun jid => jid != botNumber && endsWith jid "@c.us"))

/-- The fresh fetch of `getParticipants` (participants.js lines 21-44): the
`try` with its `catch`. -/
def fetchParticipants (env : ParticipantsEnv) (cache : ParticipantsCache) (chat : Chat) :
    List String × ParticipantsCache :=
  match readRoster env chat with
  | .value filtered =>
    (filtered, cacheSet cache chat.id { data := filtered, timestamp := env.nowStore })
  | .raised _ => ([], cache)

/-- `getParticipants(chat, forceRefresh)` (participants.js lines 9-45): the
roster returned and the cache afterwards. -/
def getParticipants (env : ParticipantsEnv) (cache : ParticipantsCache) (chat : Chat)
    (forceRefresh : Bool) : List String × ParticipantsCache :=
  let chatId := chat.id
  if !forceRefresh && (cache chatId).isSome then
    match cache chatId with
    | some cached =>
      if env.nowCheck - cached.timestamp < CACHE_TTL then
        (cached.data, cache)
      else
        fetchParticipants env cache chat
    | none => fetchParticipants env cache chat
  else
    fetchParticipants env cache chat

/-- `clearParticipantsCache()` (participants.js lines 50-53). -/
def clearParticipantsCache (_cache : ParticipantsCache) : ParticipantsCache :=
  emptyCache

/-- One call of `getParticipants` in a run of the process. -/
structure ParticipantsCall where
  env : ParticipantsEnv
  chat : Chat
  forceRefresh : Bool

/-- The two exported operations that touch `participantsCache`: a call of
`getParticipants` and `clearParticipantsCache()`. -/
inductive ParticipantsOp where
  | get (c : ParticipantsCall)
  | clear

/-- The cache after a run of operations, made one after the other from the
cache `cache`. -/
def cacheAfter (cache : ParticipantsCache) : List ParticipantsOp → ParticipantsCache
  | [] => cache
  | .get c :: rest => cacheAfter (getParticipants c.env cache c.chat c.forceRefresh).2 rest
  | .clear :: rest => cacheAfter (clearParticipantsCache cache) rest

/-- What the cache entries owe to the calls made so far: every cached roster
holds only addresses ending in `@c.us`, and for one of those calls on the same
conversation it lacks the bot's address of that call. -/
def CacheFromCalls (ops : List ParticipantsOp) (cache : ParticipantsCache) : Prop :=
  ∀ (id : String) (e : CacheEntry), cache id = some e →
    (∀ jid ∈ e.data, endsWith jid "@c.us" = true)
      ∧ ∃ c, ParticipantsOp.get c ∈ ops ∧ c.chat.id = id
        ∧ ∃ bot, c.env.botNumber = some bot ∧ bot ∉ e.data

/-! ## Concrete inputs -/

/-- A group conversation named `Standup Team`. -/
def standupTeam : Chat :=
  { id := "120363@g.us", name := "Standup Team", isGroup := true, participants := none }

/-- A direct conversation that carries the same name. -/
def standupContact : Chat :=
  { id := "6281@c.us", name := "Standup Team", isGroup := false, participants := none }

/-- A MongoDB driver whose every call succeeds. -/
def mongoUp : Mongo :=
  { constructOk := true, connectOk := true, findOneOk := true, updateOneOk := true }

/-- A client that knows the group `standupTeam` and nothing else by id, and
lists the contact before the group. -/
def standupClient : Client :=
  { getChatById := fun id => if id = "120363@g.us" then .value (some standupTeam) else .value none,
    getChats := .value [standupContact, standupTeam] }

/-- A client that finds no conversation at all. -/
def emptyClient : Client :=
  { getChatById := fun _ => .value none, getChats := .value [] }

/-- A client whose every request is rejected. -/
def failingClient : Client :=
  { getChatById := fun _ => .raised "Evaluation failed", getChats := .raised "Evaluation failed" }

/-- The resolver's state when the module is loaded, the store holding no document. -/
def initialState : ResolverState :=
  { cachedGroupId := none, mongoClient := false, stored := none }

/-- A group whose live membership is two contacts, the bot itself and a
broadcast pseudo-address. -/
def rosterChat : Chat :=
  { id := "120363@g.us", name := "Standup Team", isGroup := true,
    participants := some [⟨some "6281@c.us"⟩, ⟨some "6299@c.us"⟩,
      ⟨some "status@broadcast"⟩, ⟨some "6282@c.us"⟩] }

/-- A call environment in which the bot's address is `6299@c.us`. -/
def rosterEnv : ParticipantsEnv :=
  { nowCheck := 1000, nowStore := 1001, botNumber := some "6299@c.us" }

/-! ## `src/notifiers/groupNotifier.js` and `src/notifiers/dmNotifier.js` -/

/-- The calls that a notifier makes on the messaging client and the timer, in
the order it makes them: `chat.sendMessage(text, options)` (with
`options.mentions`, `none` when the call has no options),
`setTimeout(resolve, ms)`, `chat.client.getContactById(jid)` and
`contact.sendMessage(text)` on the contact of `jid`. -/
inductive DispatchEvent where
  | sendMessage (text : String) (mentions : Option (List String))
  | delay (ms : Nat)
  | getContactById (jid : String)
  | contactSendMessage (jid : String) (text : String)
  deriving DecidableEq, Repr

/-- The sending side of the messaging client during one call of a notifier on
its target chat.  `sendMessage k text mentions` is the result of the call of
`chat.sendMessage` made after `k` earlier ones; `getContactById k jid` and
`contactSendMessage k jid text` are the results of the two calls of the task
number `k` of `notifyDM`. -/
structure Messenger where
  sendMessage : Nat → String → Option (List String) → Outcome Unit
  getContactById : Nat → String → Outcome Unit
  contactSendMessage : Nat → String → String → Outcome Unit

/-- What one call of a notifier does: the promise's result, the participants
cache it leaves and the calls it made. -/
structure Dispatch where
  ret : Outcome Unit
  cache : ParticipantsCache
  trace : List DispatchEvent

/-- The text of the message for the chunk number `i` of `total`
(groupNotifier.js lines 25-29). -/
def fullMessage (messageText : String) (total i : Nat) (chunk : List String) : String :=
  if total > 1 then
    messageText ++ "\n\n👥 Batch " ++ toString (i + 1) ++ "/" ++ toString total ++ ":\n"
      ++ buildMentionText chunk
  else
    messageText ++ "\n\n" ++ buildMentionText chunk

/-- The `for` loop of `notifyGroup` (groupNotifier.js lines 23-41) from the
counter `i` on: the chunks still to send, `total` being `chunks.length`, after
the calls `tr`.  A send that fails ends the loop with its error. -/
def sendChunks (m : Messenger) (messageText : String) (total : Nat) :
    Nat → List (List String) → List DispatchEvent → Outcome Unit × List DispatchEvent
  | _, [], tr => (.value (), tr)
  | i, chunk :: rest, tr =>
    let text := fullMessage messageText total i chunk
    let tr1 := tr ++ [.sendMessage text (some chunk)]
    match m.sendMessage i text (some chunk) with
    | .value _ =>
      if i < total - 1 then
        sendChunks m messageText total (i + 1) rest (tr1 ++ [.delay 2000])
      else
        sendChunks m messageText total (i + 1) rest tr1
    | .raised e => (.raised e, tr1)

/-- `notifyGroup(chat, messageText)` (groupNotifier.js lines 8-48).  The
`catch` logs and throws the same error again, so the result of the body is the
result of the call.  `none` only if `chunkMentions` does not return. -/
def notifyGroup (env : ParticipantsEnv) (m : Messenger) (cache : ParticipantsCache)
    (chat : Chat) (messageText : String) : Option Dispatch :=
  let got := getParticipants env cache chat false
  let participants := got.1
  if participants.length = 0 then
    some ⟨.value (), got.2, []⟩
  else
    match chunkMentions participants 50 with
    | none => none
    | some chunks =>
      let sent := sendChunks m messageText chunks.length 0 chunks []
      some ⟨sent.1, got.2, sent.2⟩

/-- The options of the queue of `notifyDM` (dmNotifier.js lines 18-22). -/
structure QueueOptions where
  interval : Nat
  intervalCap : Nat
  concurrency : Nat
  deriving DecidableEq, Repr

/-- The queue options that `notifyDM` passes to `new PQueue`. -/
def dmQueueOptions : QueueOptions :=
  { interval := 400, intervalCap := 1, concurrency := 1 }

/-- The task that `notifyDM` adds for the member `jid`, number `k` of the
roster (dmNotifier.js lines 30-40), run with the counters `counts =
(successCount, failCount)` after the calls `tr`. -/
def dmTask (m : Messenger) (messageText : String) (k : Nat) (jid : String)
    (counts : Nat × Nat) (tr : List DispatchEvent) : (Nat × Nat) × List DispatchEvent :=
  match m.getContactById k jid with
  | .value _ =>
    let tr1 := tr ++ [.getContactById jid, .contactSendMessage jid messageText]
    match m.contactSendMessage k jid messageText with
    | .value _ => ((counts.1 + 1, counts.2), tr1)
    | .raised _ => ((counts.1, counts.2 + 1), tr1)
  | .raised _ => ((counts.1, counts.2 + 1), tr ++ [.getContactById jid])

/-- The tasks of `notifyDM` for the members from number `k` on.  The queue has
concurrency 1, so it runs the tasks one after the other in the order in which
they were added; the waiting between them is not part of the trace. -/
def dmTasks (m : Messenger) (messageText : String) :
    Nat → List String → Nat × Nat → List DispatchEvent → (Nat × Nat) × List DispatchEvent
  | _, [], counts, tr => (counts, tr)
  | k, jid :: rest, counts, tr =>
    let done := dmTask m messageText k jid counts tr
    dmTasks m messageText (k + 1) rest done.1 done.2

/-- The text of the confirmation of `notifyDM` (dmNotifier.js lines 47-48). -/
def dmSummary (successCount failCount : Nat) : String :=
  "✅ Pengingat telah dikirim via DM ke " ++ toString successCount ++ " anggota.\n"
    ++ (if failCount > 0 then "⚠️ " ++ toString failCount ++ " gagal terkirim." else "")

/-- `notifyDM(chat, messageText)` (dmNotifier.js lines 8-56).  The `catch`
logs and throws the same error again. -/
def notifyDM (env : ParticipantsEnv) (m : Messenger) (cache : ParticipantsCache)
    (chat : Chat) (messageText : String) : Dispatch :=
  let got := getParticipants env cache chat false
  let participants := got.1
  if participants.length = 0 then
    ⟨.value (), got.2, []⟩
  else
    let done := dmTasks m messageText 0 participants (0, 0) []
    let summary := dmSummary done.1.1 done.1.2
    ⟨m.sendMessage 0 summary none, got.2, done.2 ++ [.sendMessage summary none]⟩

/-- The `chat.sendMessage` calls of a trace, in order: text and mentions. -/
def groupSends : List DispatchEvent → List (String × Option (List String))
  | [] => []
  | .sendMessage text mentions :: rest => (text, mentions) :: groupSends rest
  | _ :: rest => groupSends rest

/-- The ids whose contact a trace looks up, in order. -/
def contactLookups : List DispatchEvent → List String
  | [] => []
  | .getContactById jid :: rest => jid :: contactLookups rest
  | _ :: rest => contactLookups rest

/-- The ids to whose contact a trace sends, in order. -/
def contactSends : List DispatchEvent → List String
  | [] => []
  | .contactSendMessage jid _ :: rest => jid :: contactSends rest
  | _ :: rest => contactSends rest

/-- Whether the task number `k`, for the member `jid`, fails: its contact
lookup raises or its send raises. -/
def dmFails (m : Messenger) (messageText : String) (k : Nat) (jid : String) : Bool :=
  match m.getContactById k jid with
  | .value _ =>
    match m.contactSendMessage k jid messageText with
    | .value _ => false
    | .raised _ => true
  | .raised _ => true

/-- The number of members of a roster, counted from number `k`, whose task
fails. -/
def failingCount (m : Messenger) (messageText : String) : Nat → List String → Nat
  | _, [] => 0
  | k, jid :: rest =>
    (if dmFails m messageText k jid then 1 else 0) + failingCount m messageText (k + 1) rest

/-- Whether the contact lookup of the task number `k`, for the member `jid`,
returns a contact. -/
def contactFound (m : Messenger) (k : Nat) (jid : String) : Bool :=
  match m.getContactById k jid with
  | .value _ => true
  | .raised _ => false

/-- The members of a roster, counted from number `k`, whose contact lookup
returns a contact, in roster order. -/
def foundContacts (m : Messenger) : Nat → List String → List String
  | _, [] => []
  | k, jid :: rest =>
    (if contactFound m k jid then [jid] else []) ++ foundContacts m (k + 1) rest

/-! ## `src/utils/cronTime.js` -/

/-- What `getTimeVariables()` returns (cronTime.js lines 8-19): the date, the
time and the weekday name, as formatted for the present moment. -/
structure TimeVariables where
  date : String
  time : String
  weekday_id : String
  deriving DecidableEq, Repr

/-- `String.prototype.replace` with a global regular expression that matches
the literal `pattern`, on the characters still to read: `skip` counts the
characters of a match already replaced that are still to be passed over.
Matches are found from left to right and do not overlap. -/
def replaceAllFrom (pattern replacement : List Char) : Nat → List Char → List Char
  | _, [] => []
  | skip + 1, _ :: rest => replaceAllFrom pattern replacement skip rest
  | 0, c :: rest =>
    if pattern.isPrefixOf (c :: rest) then
      replacement ++ replaceAllFrom pattern replacement (pattern.length - 1) rest
    else
      c :: replaceAllFrom pattern replacement 0 rest

/-- `s.replace(/pattern/g, replacement)` for a literal, non-empty `pattern`
and a `replacement` without `$`. -/
def replaceAll (s pattern replacement : String) : String :=
  String.mk (replaceAllFrom pattern.data replacement.data 0 s.data)

/-- `fillMessageTemplate(template)` (cronTime.js lines 25-31), given the
result `vars` of `getTimeVariables()`. -/
def fillMessageTemplate (vars : TimeVariables) (template : String) : String :=
  replaceAll
    (replaceAll (replaceAll template "\x7b\x7bdate\x7d\x7d" vars.date)
      "\x7b\x7btime\x7d\x7d" vars.time)
    "\x7b\x7bweekday_id\x7d\x7d" vars.weekday_id

/-! ## `src/scheduler.js` -/

/-- A task of the library `node-cron`: the cadence expression it was created
with and whether it is running (created and not stopped). -/
structure CronTask where
  expression : String
  running : Bool
  deriving DecidableEq, Repr

/-- The library `node-cron` as the schedulers use it: `validate` tells which
cadence expressions the library accepts. -/
structure Cron where
  validate : String → Bool

/-- `cron.schedule(expression, callback, options)` with `scheduled` true (the
default): the library throws on an expression that it does not accept;
otherwise it creates a running task, appended to the tasks created so far, and
returns its handle, the task's position among them. -/
def cronSchedule (cron : Cron) (expression : String) (tasks : List CronTask) :
    Outcome (Nat × List CronTask) :=
  if cron.validate expression then
    .value (tasks.length, tasks ++ [{ expression := expression, running := true }])
  else
    .raised "invalid expression"

/-- `task.stop()` on the task with the given handle. -/
def stopTask : Nat → List CronTask → List CronTask
  | _, [] => []
  | 0, task :: rest => { task with running := false } :: rest
  | handle + 1, task :: rest => task :: stopTask handle rest

/-- The number of tasks that have been created and not stopped. -/
def activeCount (tasks : List CronTask) : Nat :=
  tasks.countP (fun task => task.running)

/-- The fields of `config` that scheduler.js reads (config.js lines 12-14);
`MENTION_MODE` and `MESSAGE_TEXT` can be reassigned while the process runs. -/
structure DispatchConfig where
  CRON_EXPRESSION : String
  MENTION_MODE : String
  MESSAGE_TEXT : String
  deriving DecidableEq, Repr

/-- The state of scheduler.js: the module variable `scheduledTask` (line 10),
as the handle of the task or `none` for `null`, and the tasks that the module
has created with `cron.schedule`. -/
structure SchedulerState where
  scheduledTask : Option Nat
  cronTasks : List CronTask
  deriving DecidableEq, Repr

/-- The scheduler when the module is loaded. -/
def initialScheduler : SchedulerState :=
  { scheduledTask := none, cronTasks := [] }

/-- `startScheduler()` (scheduler.js lines 49-71). -/
def startScheduler (cron : Cron) (dcfg : DispatchConfig) (st : SchedulerState) :
    Outcome Unit × SchedulerState :=
  if st.scheduledTask.isSome then
    (.value (), st)
  else if !cron.validate dcfg.CRON_EXPRESSION then
    (.value (), st)
  else
    match cronSchedule cron dcfg.CRON_EXPRESSION st.cronTasks with
    | .value (handle, tasks) =>
      (.value (), { scheduledTask := some handle, cronTasks := tasks })
    | .raised e => (.raised e, st)

/-- `stopScheduler()` (scheduler.js lines 76-82). -/
def stopScheduler (st : SchedulerState) : SchedulerState :=
  match st.scheduledTask with
  | some handle => { scheduledTask := none, cronTasks := stopTask handle st.cronTasks }
  | none => st

/-- A call of one of the two exported functions of scheduler.js, `start` with
the configuration in effect at the call. -/
inductive SchedulerOp where
  | start (dcfg : DispatchConfig)
  | stop

/-- The state after one call. -/
def schedulerStep (cron : Cron) (st : SchedulerState) : SchedulerOp → SchedulerState
  | .start dcfg => (startScheduler cron dcfg st).2
  | .stop => stopScheduler st

/-- The state after a run of calls, made one after the other. -/
def schedulerRun (cron : Cron) (st : SchedulerState) (ops : List SchedulerOp) :
    SchedulerState :=
  ops.foldl (schedulerStep cron) st

/-- What a run of `runNotification` reads of its surroundings: the module
variables `isReady` and `client` of waClient.js, the MongoDB driver, the
result of `getTimeVariables()` (`raised` when the formatting throws), what
`getParticipants` reads, and the sending side of the client. -/
structure RunEnv where
  isReady : Bool
  client : Option Client
  mongo : Mongo
  timeVariables : Outcome TimeVariables
  participants : ParticipantsEnv
  messenger : Messenger

/-- The mutable state of the modules that a run can reach: the resolver's,
the participants cache and the scheduler's. -/
structure AppState where
  resolver : ResolverState
  participantsCache : ParticipantsCache
  scheduler : SchedulerState

/-- What one run does: the result, the state it leaves and the calls it made
to the resolver's collaborators and to the sending side. -/
structure Run where
  ret : Outcome Unit
  st : AppState
  resolverTrace : List Event
  dispatchTrace : List DispatchEvent

/-- The part of the `try` of `runNotification` after the target is resolved
(scheduler.js lines 30-40), with the configuration `dcfg` as read at that
point. -/
def dispatchResolved (dcfg : DispatchConfig) (env : RunEnv) (st : AppState)
    (resolverTrace : List Event) (targetChat : Chat) : Option Run :=
  match env.timeVariables with
  | .raised e => some ⟨.raised e, st, resolverTrace, []⟩
  | .value vars =>
    let messageText := fillMessageTemplate vars dcfg.MESSAGE_TEXT
    if dcfg.MENTION_MODE = "visible" then
      match notifyGroup env.participants env.messenger st.participantsCache targetChat
          messageText with
      | none => none
      | some d => some ⟨d.ret, { st with participantsCache := d.cache }, resolverTrace, d.trace⟩
    else if dcfg.MENTION_MODE = "dm" then
      let d := notifyDM env.participants env.messenger st.participantsCache targetChat
        messageText
      some ⟨d.ret, { st with participantsCache := d.cache }, resolverTrace, d.trace⟩
    else
      some ⟨.value (), st, resolverTrace, []⟩

/-- The body of the `try` of `runNotification` (scheduler.js lines 17-40). -/
def runNotificationBody (cfg : Config) (dcfg : DispatchConfig) (env : RunEnv)
    (st : AppState) : Option Run :=
  if !env.isReady then
    some ⟨.value (), st, [], []⟩
  else
    match env.client with
    | none => some ⟨.raised "Client belum diinisialisasi", st, [], []⟩
    | some client =>
      let res := resolveTargetGroup cfg { client := client, mongo := env.mongo } st.resolver
      let st1 := { st with resolver := res.st }
      match res.ret with
      | .raised e => some ⟨.raised e, st1, res.trace, []⟩
      | .value none => some ⟨.value (), st1, res.trace, []⟩
      | .value (some targetChat) => dispatchResolved dcfg env st1 res.trace targetChat

/-- `runNotification()` (scheduler.js lines 15-44): the body, and the `catch`
that logs whatever the body raised.  `none` only if the body does not return. -/
def runNotification (cfg : Config) (dcfg : DispatchConfig) (env : RunEnv) (st : AppState) :
    Option Run :=
  match runNotificationBody cfg dcfg env st with
  | none => none
  | some run =>
    match run.ret with
    | .value _ => some run
    | .raised _ => some { run with ret := .value () }

/-! ## `src/services/schedulerService.js` -/

/-- The field `config` of the service (schedulerService.js lines 7-12). -/
structure ServiceConfig where
  groupJid : String
  message : String
  schedule : String
  enabled : Bool
  deriving DecidableEq, Repr

/-- The state of the `SchedulerService` instance: `config`, the map `tasks`
from a task name to the handle of its task, whether `whatsappService` has been
assigned, and the tasks that the service has created with `cron.schedule`. -/
structure SchedulerService where
  config : ServiceConfig
  tasks : List (String × Nat)
  whatsappService : Bool
  cronTasks : List CronTask
  deriving DecidableEq, Repr

/-- The instance that the constructor builds (schedulerService.js lines 5-13)
from the configuration read from the process environment. -/
def newSchedulerService (config : ServiceConfig) : SchedulerService :=
  { config := config, tasks := [], whatsappService := false, cronTasks := [] }

/-- `Map.prototype.set(key, value)` on the entries of a map. -/
def mapSet (entries : List (String × Nat)) (key : String) (value : Nat) :
    List (String × Nat) :=
  if entries.any (fun e => e.1 == key) then
    entries.map (fun e => if e.1 == key then (key, value) else e)
  else
    entries ++ [(key, value)]

/-- `startWeeklyNotification()` (schedulerService.js lines 28-58). -/
def startWeeklyNotification (cron : Cron) (s : SchedulerService) :
    Outcome Unit × SchedulerService :=
  let taskName := "weekly-notification"
  let stopped :=
    match s.tasks.lookup taskName with
    | some handle => stopTask handle s.cronTasks
    | none => s.cronTasks
  match cronSchedule cron s.config.schedule stopped with
  | .value (handle, tasks) =>
    (.value (), { s with tasks := mapSet s.tasks taskName handle, cronTasks := tasks })
  | .raised e => (.raised e, { s with cronTasks := stopped })

/-- `initialize(whatsappService)` (schedulerService.js lines 15-26). -/
def serviceInitialize (cron : Cron) (s : SchedulerService) : Outcome Unit × SchedulerService :=
  let s1 := { s with whatsappService := true }
  if s1.config.enabled && s1.config.groupJid != "" then
    startWeeklyNotification cron s1
  else
    (.value (), s1)

/-- `updateSchedule(cronExpression, message, groupJid)` (schedulerService.js
lines 60-68). -/
def updateSchedule (cron : Cron) (s : SchedulerService)
    (cronExpression message groupJid : String) : Outcome Unit × SchedulerService :=
  let s1 := { s with config :=
    { s.config with schedule := cronExpression, message := message, groupJid := groupJid } }
  startWeeklyNotification cron s1

/-- `getConfig()` (schedulerService.js lines 70-72). -/
def getConfig (s : SchedulerService) : ServiceConfig :=
  s.config

/-- `stop()` (schedulerService.js lines 74-78). -/
def serviceStop (s : SchedulerService) : SchedulerService :=
  { s with
    tasks := [],
    cronTasks := s.tasks.foldl (fun tasks e => stopTask e.2 tasks) s.cronTasks }

/-- A call of `initialize` (here `init`), `updateSchedule` or `stop` on the
service. -/
inductive ServiceOp where
  | init
  | updateSchedule (cronExpression message groupJid : String)
  | stop

/-- The state of the service after one call, whether it returned or threw. -/
def serviceStep (cron : Cron) (s : SchedulerService) : ServiceOp → SchedulerService
  | .init => (serviceInitialize cron s).2
  | .updateSchedule c m g => (updateSchedule cron s c m g).2
  | .stop => serviceStop s

/-- The state of the service after a run of calls, made one after the other. -/
def serviceRun (cron : Cron) (s : SchedulerService) (ops : List ServiceOp) :
    SchedulerService :=
  ops.foldl (serviceStep cron) s

/-- The addresses of `n` distinct contacts. -/
def memberIds (n : Nat) : List String :=
  (List.range n).map (fun i => "62810" ++ toString i ++ "@c.us")

/-- A group whose live membership is the `n` contacts of `memberIds n`. -/
def groupOf (n : Nat) : Chat :=
  { id := "120363@g.us", name := "Standup Team", isGroup := true,
    participants := some ((memberIds n).map (fun jid => ⟨some jid⟩)) }

/-- A sending side on which every call succeeds. -/
def delivering : Messenger :=
  { sendMessage := fun _ _ _ => .value (),
    getContactById := fun _ _ => .value (),
    contactSendMessage := fun _ _ _ => .value () }

/-- A sending side on which the `chat.sendMessage` call number `i` and the
contact lookup of the task number `i` fail, and every other call succeeds. -/
def failingAt (i : Nat) : Messenger :=
  { sendMessage := fun k _ _ => if k = i then .raised "send failed" else .value (),
    getContactById := fun k _ => if k = i then .raised "no contact" else .value (),
    contactSendMessage := fun _ _ _ => .value () }

/-- A `node-cron` that accepts two cadence expressions and nothing else. -/
def twoCadences : Cron :=
  { validate := fun e => e == "0 8 * * 1-5" || e == "0 9 * * 1" }

/-- The scheduler of scheduler.js with its trigger active. -/
def activeScheduler : SchedulerState :=
  { scheduledTask := some 0, cronTasks := [{ expression := "0 8 * * 1-5", running := true }] }

/-- A valid configuration of scheduler.js. -/
def weekdayConfig : DispatchConfig :=
  { CRON_EXPRESSION := "0 8 * * 1-5", MENTION_MODE := "visible", MESSAGE_TEXT := "Standup" }

/-- What holds of the service in every state it reaches: the map `tasks` is
empty and no task runs, or it holds the one entry `weekly-notification` and no
task but that entry's can be running. -/
def ServiceInv (s : SchedulerService) : Prop :=
  (s.tasks = [] ∧ activeCount s.cronTasks = 0)
    ∨ ∃ handle, s.tasks = [("weekly-notification", handle)]
        ∧ activeCount (stopTask handle s.cronTasks) = 0

/-- The configuration that the constructor reads when the process environment
sets nothing but the target group and the enabling flag. -/
def defaultServiceConfig : ServiceConfig :=
  { groupJid := "120363@g.us",
    message := "🔔 *Pengingat Mingguan*\n\nHello everyone!",
    schedule := "0 9 * * 1",
    enabled := true }

/-- A ready client whose every request is rejected, with a healthy store and
a working date formatting. -/
def failingRunEnv : RunEnv :=
  { isReady := true,
    client := some failingClient,
    mongo := mongoUp,
    timeVariables := .value { date := "06 November 2026", time := "08.00", weekday_id := "Jumat" },
    participants := rosterEnv,
    messenger := delivering }

/-- The state of the modules with nothing resolved or cached and the trigger
of scheduler.js active. -/
def scheduledApp : AppState :=
  { resolver := initialState, participantsCache := emptyCache, scheduler := activeScheduler }

/-! ## What the substitution of a template is to give -/

/-- The substitution in the words of its description, on the characters still
to read: one pass from left to right over the template; at an occurrence of
one of the three placeholders its value is written and the pass goes on
behind the occurrence (`skip` counts its characters still to pass over); every
other character is copied. -/
def substituteFrom (vars : TimeVariables) : Nat → List Char → List Char
  | _, [] => []
  | skip + 1, _ :: rest => substituteFrom vars skip rest
  | 0, c :: rest =>
    if "\x7b\x7bdate\x7d\x7d".data.isPrefixOf (c :: rest) then
      vars.date.data ++ substituteFrom vars 7 rest
    else if "\x7b\x7btime\x7d\x7d".data.isPrefixOf (c :: rest) then
      vars.time.data ++ substituteFrom vars 7 rest
    else if "\x7b\x7bweekday_id\x7d\x7d".data.isPrefixOf (c :: rest) then
      vars.weekday_id.data ++ substituteFrom vars 13 rest
    else
      c :: substituteFrom vars 0 rest

/-- The template with every occurrence of a placeholder replaced by its value
and all other text as it is. -/
def substitutePlaceholders (vars : TimeVariables) (template : String) : String :=
  String.mk (substituteFrom vars 0 template.data)

/-- Whether a formatted value begins with a digit, as the date with a 2-digit
day and the time with a 2-digit hour do. -/
def startsWithDigit (value : String) : Bool :=
  match value.data with
  | c :: _ => c.isDigit
  | [] => false

/-- Whether a formatted value has neither an opening brace nor a `$` (which
`String.prototype.replace` reads as the start of a replacement pattern). -/
def plainValue (value : String) : Bool :=
  !value.data.contains '\x7b' && !value.data.contains '$'

/-- The values that the formatting gives on a Friday morning. -/
def fridayMorning : TimeVariables :=
  { date := "06 November 2026", time := "08.00", weekday_id := "Jumat" }

/-! ## Text operations of the command handlers -/

/-- The characters that `String.prototype.trim()` removes: white space and
line terminators. -/
def isJsWhiteSpace (c : Char) : Bool :=
  c = ' ' || c = '\t' || c = '\n' || c = '\r' || c = '\x0b' || c = '\x0c'
    || c = '\u00a0' || c = '\ufeff' || c = '\u2028' || c = '\u2029' || c = '\u1680'
    || (0x2000 ≤ c.toNat && c.toNat ≤ 0x200a) || c = '\u202f' || c = '\u205f' || c = '\u3000'

/-- `s.trim()`. -/
def jsTrim (s : String) : String :=
  String.mk ((s.data.dropWhile isJsWhiteSpace).reverse.dropWhile isJsWhiteSpace).reverse

/-- `s.toLowerCase()`, on the letters `A`-`Z`; other characters are left as
they are.  The handlers compare the result with command words in lower-case
ASCII only, and no character outside ASCII lower-cases to a letter of one of
those words. -/
def toLowerCase (s : String) : String :=
  String.mk (s.data.map Char.toLower)

/-- `s.startsWith(start)`. -/
def startsWith (s start : String) : Bool :=
  start.data.isPrefixOf s.data

/-- `s.substring(n)`. -/
def substring (s : String) (n : Nat) : String :=
  String.mk (s.data.drop n)

/-- `s.replace(/^\+/, '')`: `s` without one leading `+`. -/
def stripPlus (s : String) : String :=
  match s.data with
  | '+' :: rest => String.mk rest
  | _ => s

/-- `s.split(':')[0]`: the part of `s` before its first `':'`. -/
def beforeColon (s : String) : String :=
  String.mk (s.data.takeWhile (fun c => c != ':'))

/-! ## `src/services/baileysService.js` -/

/-- What `handleCommand` can read of the message it handles: `msg.key.remoteJid`,
the id of the conversation the message arrived in, and `msg.key.participant`,
the author of a message that arrived in a group (the handler reads only the
first). -/
structure IncomingMessage where
  remoteJid : String
  participant : Option String
  deriving DecidableEq, Repr

/-- A call of `this.sock.sendMessage(jid, content)`: the conversation, the
text, and the mentions of the content (`none` when the content is the text
alone). -/
structure SockSend where
  jid : String
  text : String
  mentions : Option (List String)
  deriving DecidableEq, Repr

/-- What a call of `handleCommand` reads of its surroundings: the variable
`OWNER_NUMBER` of the process environment, the flag `this.isReady`, the
formatted present time, the member ids of `this.sock.groupMetadata(jid)`, the
result of the call of `this.sock.sendMessage` made after `k` earlier ones, and
the library `node-cron`. -/
structure BaileysEnv where
  OWNER_NUMBER : Option String
  isReady : Bool
  now : String
  groupMetadata : String → Outcome (List String)
  sendMessage : Nat → String → String → Option (List String) → Outcome Unit
  cron : Cron

/-- What one call of `handleCommand` does: the promise's result, the state of
the scheduler service it leaves and the sends it made. -/
structure Handled where
  ret : Outcome Unit
  service : SchedulerService
  sends : List SockSend

/-- A single `await this.sock.sendMessage(jid, { text })` as the whole effect
of a branch. -/
def replyText (env : BaileysEnv) (service : SchedulerService) (jid text : String) : Handled :=
  ⟨env.sendMessage 0 jid text none, service, [⟨jid, text, none⟩]⟩

/-- `sendGroupMessage(groupJid, message, mentionAll)` (baileysService.js lines
155-183); its `catch` logs and throws the same error again. -/
def sendGroupMessage (env : BaileysEnv) (service : SchedulerService)
    (groupJid message : String) (mentionAll : Bool) : Handled :=
  if !env.isReady then
    ⟨.raised "WhatsApp client is not ready", service, []⟩
  else
    match (if mentionAll then env.groupMetadata groupJid else .value []) with
    | .raised e => ⟨.raised e, service, []⟩
    | .value mentions =>
      ⟨env.sendMessage 0 groupJid message (some mentions), service,
        [⟨groupJid, message, some mentions⟩]⟩

/-- The text of the reply to `!help` (baileysService.js lines 203-219). -/
def helpText (isOwner : Bool) : String :=
  "📋 *WhatsApp Notifier Bot*\n\n"
    ++ "Available commands:\n"
    ++ "!ping - Check bot status\n"
    ++ "!help - Show this help message\n"
    ++ "!info - Show bot information\n"
    ++ "!groupid - Get this group ID\n"
    ++ "!notify - Mention all members (ghost mention)\n"
    ++ "!test <message> - Test notification\n\n"
    ++ (if isOwner then
          "*Admin Commands:*\n"
            ++ "!schedule - Show schedule config\n"
            ++ "!setmsg <message> - Set notification message\n"
            ++ "!settime <cron> - Set schedule (cron format)\n"
            ++ "!setgroup - Set this group as target\n\n"
            ++ "*Cron Examples:*\n"
            ++ "0 20 * * 0 = Minggu 20:00\n"
            ++ "0 9 * * 1 = Senin 09:00\n"
            ++ "0 14 * * 5 = Jumat 14:00"
        else "")

/-- The text of the reply to `!info` (baileysService.js lines 225-229). -/
def infoText : String :=
  "ℹ️ *Bot Information*\n\n"
    ++ "Name: WhatsApp Notifier Bot\n"
    ++ "Version: 1.0.0\n"
    ++ "Status: Active\n"
    ++ "Library: Baileys"

/-- The text of the reply to `!schedule` (baileysService.js lines 256-260). -/
def scheduleText (config : ServiceConfig) : String :=
  "📅 *Schedule Configuration*\n\n"
    ++ "Enabled: " ++ (if config.enabled then "✅" else "❌") ++ "\n"
    ++ "Schedule: " ++ config.schedule ++ "\n"
    ++ "Target Group: " ++ config.groupJid ++ "\n"
    ++ "Message:\n" ++ config.message

/-- A call of `schedulerService.updateSchedule` followed by the confirmation
(baileysService.js lines 270-274, 283-287 and 294-298): when `updateSchedule`
throws, the confirmation is not sent. -/
def updateThenConfirm (env : BaileysEnv) (service : SchedulerService)
    (cronExpression message groupJid : String) (jid confirmation : String) : Handled :=
  let updated := updateSchedule env.cron service cronExpression message groupJid
  match updated.1 with
  | .value _ => replyText env updated.2 jid confirmation
  | .raised e => ⟨.raised e, updated.2, []⟩

/-- The body of the `try` of `handleCommand(msg, text)` (baileysService.js
lines 187-300). -/
def handleCommandBody (env : BaileysEnv) (service : SchedulerService)
    (msg : IncomingMessage) (text : String) : Handled :=
  let command := toLowerCase (jsTrim text)
  let jid := msg.remoteJid
  let isGroup := endsWith jid "@g.us"
  let senderNumber := beforeAt jid
  let isOwner :=
    match truthy env.OWNER_NUMBER with
    | some owner => senderNumber == stripPlus owner
    | none => false
  if command = "!ping" then
    replyText env service jid ("🏓 Pong!\n⏰ " ++ env.now)
  else if command = "!help" then
    replyText env service jid (helpText isOwner)
  else if command = "!info" then
    replyText env service jid infoText
  else if command = "!groupid" && isGroup then
    replyText env service jid
      ("📋 *Group ID*\n\n`" ++ jid ++ "`\n\nCopy this ID for scheduler config.")
  else if command = "!notify" && isGroup then
    sendGroupMessage env service jid
      "🔔 *Notification*\n\nHello everyone! This is a test notification." true
  else if startsWith command "!test " && isGroup then
    let customMessage := jsTrim (substring text 6)
    if customMessage != "" then
      sendGroupMessage env service jid customMessage true
    else
      ⟨.value (), service, []⟩
  else if command = "!schedule" && isOwner then
    replyText env service jid (scheduleText (getConfig service))
  else if startsWith command "!setmsg " && isOwner then
    let newMessage := jsTrim (substring text 8)
    if newMessage != "" then
      let config := getConfig service
      updateThenConfirm env service config.schedule newMessage config.groupJid jid
        ("✅ Message updated:\n\n" ++ newMessage)
    else
      ⟨.value (), service, []⟩
  else if startsWith command "!settime " && isOwner then
    let cronExpr := jsTrim (substring text 9)
    if cronExpr != "" then
      let config := getConfig service
      updateThenConfirm env service cronExpr config.message config.groupJid jid
        ("✅ Schedule updated: " ++ cronExpr)
    else
      ⟨.value (), service, []⟩
  else if command = "!setgroup" && isOwner && isGroup then
    let config := getConfig service
    updateThenConfirm env service config.schedule config.message jid jid
      ("✅ This group set as target:\n" ++ jid)
  else
    ⟨.value (), service, []⟩

/-- `handleCommand(msg, text)` (baileysService.js lines 185-304): the body,
and the `catch` that logs whatever the body raised. -/
def handleCommand (env : BaileysEnv) (service : SchedulerService)
    (msg : IncomingMessage) (text : String) : Handled :=
  let done := handleCommandBody env service msg text
  match done.ret with
  | .value _ => done
  | .raised _ => { done with ret := .value () }

/-- The surroundings of `handleCommand` with an owner number configured and
every call of the socket succeeding. -/
def ownerEnv : BaileysEnv :=
  { OWNER_NUMBER := some "+6281234567890",
    isReady := true,
    now := "6/11/2026, 08.00.00",
    groupMetadata := fun _ => .value ["6281234567890@s.whatsapp.net", "6289876543210@s.whatsapp.net"],
    sendMessage := fun _ _ _ _ => .value (),
    cron := twoCadences }

/-- The scheduler service after the application's start (`initialize`) with
the default configuration: one task running at the cadence `0 9 * * 1`. -/
def runningService : SchedulerService :=
  (serviceInitialize twoCadences (newSchedulerService defaultServiceConfig)).2

/-- A direct message of the owner to the bot. -/
def ownerDirect : IncomingMessage :=
  { remoteJid := "6281234567890@s.whatsapp.net", participant := none }

/-- A message of the owner inside a group. -/
def ownerInGroup : IncomingMessage :=
  { remoteJid := "120363025246125708@g.us",
    participant := some "6281234567890@s.whatsapp.net" }

/-- The configuration of a process whose environment leaves the scheduler
disabled and names no target group. -/
def disabledServiceConfig : ServiceConfig :=
  { groupJid := "",
    message := "🔔 *Pengingat Mingguan*\n\nHello everyone!",
    schedule := "0 9 * * 1",
    enabled := false }

/-! ## `src/services/waClient.js`: the admin commands -/

/-- What `handleAdminCommands` reads of a message: `msg.body`, `msg.from`
(here `fromJid`) and `msg.author` (`none` when it is undefined). -/
structure AdminMessage where
  body : String
  fromJid : String
  author : Option String
  deriving DecidableEq, Repr

/-- What a call of `handleAdminCommands` reads of its surroundings:
`config.OWNER_NUMBER`, the formatted present time, the result of
`getTimeVariables()`, the module's client and the MongoDB driver (for `!who`),
what `getParticipants` reads, and the result of the call of `msg.reply` made
after `k` earlier ones. -/
structure AdminEnv where
  OWNER_NUMBER : String
  now : String
  timeVariables : Outcome TimeVariables
  client : Client
  mongo : Mongo
  participants : ParticipantsEnv
  reply : Nat → String → Outcome Unit

/-- What one call of `handleAdminCommands` does: the promise's result, the
configuration and the state it leaves, and the replies it made. -/
structure AdminHandled where
  ret : Outcome Unit
  dcfg : DispatchConfig
  st : AppState
  replies : List String

/-- The body of the `try` of `handleAdminCommands` (waClient.js lines 147-182)
for the command `command` of the message `msg`.  An assignment to `config`
precedes the awaited reply, so it stands whatever becomes of the reply. -/
def adminCommandBody (cfg : Config) (env : AdminEnv) (dcfg : DispatchConfig) (st : AppState)
    (msg : AdminMessage) (command : String) : AdminHandled :=
  if command = "!ping" then
    let text := "🏓 Pong!\n⏰ " ++ env.now
    ⟨env.reply 0 text, dcfg, st, [text]⟩
  else if command = "!preview" then
    match env.timeVariables with
    | .raised e => ⟨.raised e, dcfg, st, []⟩
    | .value vars =>
      let previewText := fillMessageTemplate vars dcfg.MESSAGE_TEXT
      let text := "📝 Preview pesan:\n\n" ++ previewText ++ "\n\n📌 Mode: " ++ dcfg.MENTION_MODE
      ⟨env.reply 0 text, dcfg, st, [text]⟩
  else if startsWith command "!setmsg " then
    let newMsg := jsTrim (substring msg.body 8)
    if newMsg != "" then
      let text := "✅ Pesan berhasil diubah:\n" ++ newMsg
      ⟨env.reply 0 text, { dcfg with MESSAGE_TEXT := newMsg }, st, [text]⟩
    else
      ⟨.value (), dcfg, st, []⟩
  else if startsWith command "!setmode " then
    let mode := jsTrim (substring msg.body 9)
    if mode = "visible" || mode = "dm" then
      let text := "✅ Mode diubah ke: " ++ mode
      ⟨env.reply 0 text, { dcfg with MENTION_MODE := mode }, st, [text]⟩
    else
      let text := "❌ Mode tidak valid. Gunakan: visible atau dm"
      ⟨env.reply 0 text, dcfg, st, [text]⟩
  else if command = "!who" then
    let res := resolveTargetGroup cfg { client := env.client, mongo := env.mongo } st.resolver
    let st1 := { st with resolver := res.st }
    match res.ret with
    | .raised e => ⟨.raised e, dcfg, st1, []⟩
    | .value none => ⟨.value (), dcfg, st1, []⟩
    | .value (some targetChat) =>
      let got := getParticipants env.participants st1.participantsCache targetChat false
      let text := "👥 Total peserta: " ++ toString got.1.length ++ "\n📊 Max per batch: 50"
      ⟨env.reply 0 text, dcfg, { st1 with participantsCache := got.2 }, [text]⟩
  else
    ⟨.value (), dcfg, st, []⟩

/-- `handleAdminCommands(msg)` (waClient.js lines 136-186): the owner check,
the body of the `try`, and the `catch` that logs whatever the body raised. -/
def handleAdminCommands (cfg : Config) (env : AdminEnv) (dcfg : DispatchConfig) (st : AppState)
    (msg : AdminMessage) : AdminHandled :=
  let sender := (truthy msg.author).getD msg.fromJid
  let senderNumber := stripPlus (beforeColon (beforeAt sender))
  if senderNumber != stripPlus env.OWNER_NUMBER then
    ⟨.value (), dcfg, st, []⟩
  else
    let command := toLowerCase (jsTrim msg.body)
    let done := adminCommandBody cfg env dcfg st msg command
    match done.ret with
    | .value _ => done
    | .raised _ => { done with ret := .value () }

/-! ## A tick and the admin messages that arrive while it runs -/

/-- The configuration after the admin messages `msgs` have been handled, one
after the other, from the configuration `dcfg`.  Of each handler only the
configuration it leaves is kept: `!who`, the one command that touches the
resolver and the roster cache, assigns neither the template nor the mode. -/
def reconfigured (cfg : Config) (aenv : AdminEnv) (st : AppState) (dcfg : DispatchConfig)
    (msgs : List AdminMessage) : DispatchConfig :=
  msgs.foldl (fun c msg => (handleAdminCommands cfg aenv c st msg).dcfg) dcfg

/-- One tick of the scheduler, a run of `runNotification()`, together with
the admin messages that are handled while it is suspended.  A message handler
runs only while the run waits at an `await`: `duringResolution` are the
messages handled while it awaits `resolveTargetGroup` (scheduler.js line 23),
so the run reads `config.MESSAGE_TEXT` and `config.MENTION_MODE` (lines 30 and
34, with no `await` between them) as those handlers left them;
`duringDispatch` are the messages handled while it awaits the notifier (lines
35-37), after it has read both.  A run that returns before line 23 (client
not ready) has no such wait and dispatches nothing.  The result is the run and
the configuration after the tick. -/
def tick (cfg : Config) (env : RunEnv) (aenv : AdminEnv) (dcfg : DispatchConfig)
    (st : AppState) (duringResolution duringDispatch : List AdminMessage) :
    Option Run × DispatchConfig :=
  let atRead := reconfigured cfg aenv st dcfg duringResolution
  (runNotification cfg atRead env st, reconfigured cfg aenv st atRead duringDispatch)

/-- Whether a call of a notifier carries the message text `messageText`: a
send to the target with mentions has the text that `notifyGroup` builds from
it for a chunk, a send to a contact has it as its text, and a send to the
target without mentions is the summary of `notifyDM`. -/
def carries (messageText : String) : DispatchEvent → Prop
  | .sendMessage text (some chunk) => ∃ total i, text = fullMessage messageText total i chunk
  | .sendMessage text none => ∃ successCount failCount, text = dmSummary successCount failCount
  | .contactSendMessage _ text => text = messageText
  | _ => True

/-- A client that resolves the group of three members, by id and by name. -/
def teamClient : Client :=
  { getChatById := fun id => if id = "120363@g.us" then .value (some (groupOf 3)) else .value none,
    getChats := .value [groupOf 3] }

/-- A ready client that resolves the group of three members, with a healthy
store, a working date formatting and sends that succeed. -/
def teamRunEnv : RunEnv :=
  { isReady := true,
    client := some teamClient,
    mongo := mongoUp,
    timeVariables := .value fridayMorning,
    participants := rosterEnv,
    messenger := delivering }

/-- The surroundings of the admin handler of the same process. -/
def teamAdminEnv : AdminEnv :=
  { OWNER_NUMBER := "+6281234567890",
    now := "6/11/2026, 08.00.00",
    timeVariables := .value fridayMorning,
    client := teamClient,
    mongo := mongoUp,
    participants := rosterEnv,
    reply := fun _ _ => .value () }

/-- The owner's command that sets a new message template. -/
def setMessageCommand : AdminMessage :=
  { body := "!setmsg Rapat \x7b\x7bdate\x7d\x7d",
    fromJid := "6281234567890@c.us",
    author := none }

/-- The target configured by name only. -/
def teamByName : Config :=
  { GROUP_ID := none, GROUP_NAME := some "Standup Team" }

/-! ## Properties -/

/-! ### The loop of `chunkMentions` -/

theorem length_slice {α : Type} (xs : List α) (i m : Nat) :
    (slice xs i (i + m)).length = min m (xs.length - i) := by
  simp [slice]

theorem slice_append_drop {α : Type} (xs : List α) (i m : Nat) :
    slice xs i (i + m) ++ xs.drop (i + m) = xs.drop i := by
  have h : xs.drop (i + m) = (xs.drop i).drop m := by
    rw [List.drop_drop]
  simp only [slice, Nat.add_sub_cancel_left, h]
  exact List.take_append_drop m (xs.drop i)

/-- What the loop computes from any intermediate state, given enough fuel:
it appends to `chunks` a list `rest` of chunks that together are the part of
the input from position `i` on, each of them non-empty and at most
`maxPerChunk` long, all but the last exactly `maxPerChunk` long. -/
theorem chunkLoop_spec {α : Type} (mentions : List α) (maxPerChunk : Nat)
    (hmax : 1 ≤ maxPerChunk) :
    ∀ (fuel i : Nat) (chunks : List (List α)),
      0 < fuel → mentions.length < i + fuel →
      ∃ rest, chunkLoop mentions maxPerChunk fuel i chunks = some (chunks ++ rest)
        ∧ rest.flatten = mentions.drop i
        ∧ (∀ c ∈ rest, 1 ≤ c.length ∧ c.length ≤ maxPerChunk)
        ∧ (∀ c ∈ rest.dropLast, c.length = maxPerChunk) := by
  intro fuel
  induction fuel with
  | zero => intro i chunks h; omega
  | succ fuel ih =>
    intro i chunks _ hlen
    unfold chunkLoop
    by_cases hi : i < mentions.length
    · rw [if_pos hi]
      have hfuel : 0 < fuel := by omega
      obtain ⟨rest, hrun, hflat, hsize, hfull⟩ :=
        ih (i + maxPerChunk) (chunks ++ [slice mentions i (i + maxPerChunk)]) hfuel (by omega)
      have hclen := length_slice mentions i maxPerChunk
      refine ⟨slice mentions i (i + maxPerChunk) :: rest, ?_, ?_, ?_, ?_⟩
      · rw [hrun]; simp
      · rw [List.flatten_cons, hflat]; exact slice_append_drop mentions i maxPerChunk
      · intro c hc
        rcases List.mem_cons.1 hc with rfl | hc
        · rw [hclen]; omega
        · exact hsize c hc
      · intro c hc
        by_cases hrest : rest = []
        · subst hrest; simp at hc
        · rw [List.dropLast_cons_of_ne_nil hrest] at hc
          rcases List.mem_cons.1 hc with rfl | hc
          · have hne : mentions.drop (i + maxPerChunk) ≠ [] := by
              rw [← hflat]
              obtain ⟨c0, rest0, rfl⟩ := List.exists_cons_of_ne_nil hrest
              have h0 := (hsize c0 (List.mem_cons_self _ _)).1
              intro hnil
              rw [List.flatten_cons, List.append_eq_nil] at hnil
              rw [hnil.1] at h0
              simp at h0
            have hlt : i + maxPerChunk < mentions.length := by
              by_contra hge
              exact hne (List.drop_eq_nil_iff.2 (by omega))
            rw [hclen]; omega
          · exact hfull c hc
    · rw [if_neg hi]
      refine ⟨[], by simp, ?_, by simp, by simp⟩
      rw [List.flatten_nil, eq_comm, List.drop_eq_nil_iff]
      omega

/-- With an integral `maxPerChunk ≥ 1` the loop of `chunkMentions` ends: the
function returns chunks with the properties of `chunkLoop_spec`. -/
theorem chunkMentions_spec {α : Type} (mentions : List α) (maxPerChunk : Nat)
    (hmax : 1 ≤ maxPerChunk) :
    ∃ chunks, chunkMentions mentions maxPerChunk = some chunks
      ∧ chunks.flatten = mentions
      ∧ (∀ c ∈ chunks, 1 ≤ c.length ∧ c.length ≤ maxPerChunk)
      ∧ (∀ c ∈ chunks.dropLast, c.length = maxPerChunk) := by
  obtain ⟨rest, hrun, hflat, hsize, hfull⟩ :=
    chunkLoop_spec mentions maxPerChunk hmax (mentions.length + 1) 0 []
      (Nat.succ_pos _) (by omega)
  exact ⟨rest, by simpa [chunkMentions] using hrun, by simpa using hflat, hsize, hfull⟩

theorem chunkLoop_zero_diverges {α : Type} (mentions : List α) (hne : mentions ≠ []) :
    ∀ (fuel : Nat) (chunks : List (List α)), chunkLoop mentions 0 fuel 0 chunks = none := by
  intro fuel
  induction fuel with
  | zero => intro chunks; rfl
  | succ fuel ih =>
    intro chunks
    have hpos : 0 < mentions.length := List.length_pos.2 hne
    unfold chunkLoop
    rw [if_pos hpos]
    exact ih _

/-- The fuel of `chunkMentions` runs out exactly where the JavaScript loop
never ends: `maxPerChunk` is `0` and the input is not empty. -/
theorem chunkMentions_eq_none_iff {α : Type} (mentions : List α) (maxPerChunk : Nat) :
    chunkMentions mentions maxPerChunk = none ↔ maxPerChunk = 0 ∧ mentions ≠ [] := by
  constructor
  · intro hnone
    by_cases hmax : 1 ≤ maxPerChunk
    · obtain ⟨chunks, hsome, _⟩ := chunkMentions_spec mentions maxPerChunk hmax
      rw [hsome] at hnone; cases hnone
    · have h0 : maxPerChunk = 0 := by omega
      refine ⟨h0, ?_⟩
      rintro rfl
      simp [chunkMentions, chunkLoop] at hnone
  · rintro ⟨rfl, hne⟩
    exact chunkLoop_zero_diverges mentions hne _ _

/-! ### `buildMentionText` over chunks -/

theorem joinWith_append (sep : String) :
    ∀ (xs ys : List String), xs ≠ [] → ys ≠ [] →
      joinWith sep (xs ++ ys) = joinWith sep xs ++ sep ++ joinWith sep ys
  | [], _, hx, _ => absurd rfl hx
  | _, [], _, hy => absurd rfl hy
  | [x], y :: ys, _, _ => by simp [joinWith]
  | x :: x2 :: xs, y :: ys, _, hy => by
    have ih := joinWith_append sep (x2 :: xs) (y :: ys) (by simp) hy
    simp only [List.cons_append] at ih
    simp only [List.cons_append, joinWith, String.append_assoc, List.append_eq]
    rw [ih]
    simp only [String.append_assoc]

/-- Joining the joined chunks is joining the whole list, when no chunk is
empty. -/
theorem joinWith_chunks (sep : String) (f : String → String) :
    ∀ (chunks : List (List String)), (∀ c ∈ chunks, c ≠ []) →
      joinWith sep (chunks.map (fun c => joinWith sep (c.map f)))
        = joinWith sep (chunks.flatten.map f)
  | [], _ => by simp [joinWith]
  | [c], _ => by simp [joinWith]
  | c :: c2 :: rest, hne => by
    have ih := joinWith_chunks sep f (c2 :: rest)
      (fun d hd => hne d (List.mem_cons_of_mem _ hd))
    have hc : c.map f ≠ [] := by
      simpa using hne c (List.mem_cons_self _ _)
    have hc2 : c2 ≠ [] := hne c2 (by simp)
    have hrest : (c2 :: rest).flatten.map f ≠ [] := by
      cases c2 with
      | nil => exact absurd rfl hc2
      | cons a t => simp
    rw [List.flatten_cons, List.map_append, joinWith_append sep _ _ hc hrest, ← ih]
    simp only [List.map_cons, joinWith]

/-- The characters of a joined list are the characters of its members with
the separator's between them. -/
theorem joinWith_data (sep : String) :
    ∀ (xs : List String),
      (joinWith sep xs).data = List.intercalate sep.data (xs.map String.data)
  | [] => rfl
  | [s] => by simp [joinWith, List.intercalate]
  | s :: t :: rest => by
    have ih := joinWith_data sep (t :: rest)
    simp only [joinWith, String.data_append, ih]
    simp [List.intercalate]

theorem intercalate_go_append (sep : String) :
    ∀ (xs : List String) (acc a : String),
      String.intercalate.go (acc ++ a) sep xs = acc ++ String.intercalate.go a sep xs
  | [], _, _ => rfl
  | x :: xs, acc, a => by
    simp only [String.intercalate.go]
    rw [← intercalate_go_append sep xs acc (a ++ sep ++ x)]
    simp only [String.append_assoc]

/-- The join of the model is the library's `String.intercalate`. -/
theorem joinWith_eq_intercalate (sep : String) :
    ∀ (xs : List String), joinWith sep xs = String.intercalate sep xs
  | [] => rfl
  | [s] => rfl
  | s :: t :: rest => by
    have ih := joinWith_eq_intercalate sep (t :: rest)
    simp only [joinWith, ih, String.intercalate, String.intercalate.go]
    rw [intercalate_go_append]

/-- The text of `buildMentionText`, character by character: for each id an
`'@'` and the characters of the id before its first `'@'`, with one space
between two ids. -/
theorem buildMentionText_data (jids : List String) :
    (buildMentionText jids).data
      = List.intercalate [' ']
          (jids.map (fun jid => '@' :: jid.data.takeWhile (fun c => c != '@'))) := by
  rw [buildMentionText, joinWith_data, List.map_map]
  rfl

/-! ### The claims on the mention chunker -/

/-- C1: for every list of member ids and every integral `maxPerChunk ≥ 1`,
`chunkMentions` returns, and the chunks it returns, concatenated in order,
are exactly the input list; so the chunk sizes sum to the input length. -/
theorem chunkMentions_concat {α : Type} (members : List α) (maxPerChunk : Nat)
    (hmax : 1 ≤ maxPerChunk) :
    ∃ chunks, chunkMentions members maxPerChunk = some chunks
      ∧ chunks.flatten = members
      ∧ (chunks.map List.length).sum = members.length := by
  obtain ⟨chunks, hsome, hflat, _, _⟩ := chunkMentions_spec members maxPerChunk hmax
  refine ⟨chunks, hsome, hflat, ?_⟩
  rw [← List.length_flatten, hflat]

theorem chunkMentions_concat_witness :
    1 ≤ 2 ∧ ∃ chunks, chunkMentions ["a@c.us", "b@c.us", "c@c.us"] 2 = some chunks
      ∧ chunks.flatten = ["a@c.us", "b@c.us", "c@c.us"]
      ∧ (chunks.map List.length).sum = ["a@c.us", "b@c.us", "c@c.us"].length :=
  ⟨by decide, chunkMentions_concat ["a@c.us", "b@c.us", "c@c.us"] 2 (by decide)⟩

/-- C2: for every non-empty list of member ids and every integral
`maxPerChunk ≥ 1`, `chunkMentions` returns at least one chunk, every chunk
before the last has exactly `maxPerChunk` elements, the last chunk has between
1 and `maxPerChunk` elements, and so no chunk is empty or longer than
`maxPerChunk`. -/
theorem chunkMentions_sizes {α : Type} (members : List α) (maxPerChunk : Nat)
    (hne : members ≠ []) (hmax : 1 ≤ maxPerChunk) :
    ∃ front last, chunkMentions members maxPerChunk = some (front ++ [last])
      ∧ (∀ c ∈ front, c.length = maxPerChunk)
      ∧ 1 ≤ last.length ∧ last.length ≤ maxPerChunk
      ∧ (∀ c ∈ front ++ [last], 1 ≤ c.length ∧ c.length ≤ maxPerChunk) := by
  obtain ⟨chunks, hsome, hflat, hsize, hfull⟩ := chunkMentions_spec members maxPerChunk hmax
  have hchunks : chunks ≠ [] := by
    rintro rfl
    exact hne (by simpa using hflat.symm)
  have hsplit := List.dropLast_append_getLast hchunks
  have hlast := hsize _ (List.getLast_mem hchunks)
  refine ⟨chunks.dropLast, chunks.getLast hchunks, ?_, hfull, hlast.1, hlast.2, ?_⟩
  · rw [hsplit]; exact hsome
  · rw [hsplit]; exact hsize

theorem chunkMentions_sizes_witness :
    ["a@c.us", "b@c.us", "c@c.us"] ≠ [] ∧ 1 ≤ 2 ∧
    ∃ front last, chunkMentions ["a@c.us", "b@c.us", "c@c.us"] 2 = some (front ++ [last])
      ∧ (∀ c ∈ front, c.length = 2)
      ∧ 1 ≤ last.length ∧ last.length ≤ 2
      ∧ (∀ c ∈ front ++ [last], 1 ≤ c.length ∧ c.length ≤ 2) :=
  ⟨by decide, by decide,
    chunkMentions_sizes ["a@c.us", "b@c.us", "c@c.us"] 2 (by decide) (by decide)⟩

/-- C3: for every list of member ids (non-empty or not) and every integral
`maxPerChunk ≥ 1`, `chunkMentions` returns, and the text of `buildMentionText`
is, character by character, one token per member in order, each token an `'@'`
followed by the characters of the id before its first `'@'`, with a single
space between two tokens: so it is for the whole list and for every chunk.
The tokens of the chunks, taken chunk by chunk, are the tokens of the original
list in the same order, and joining the `buildMentionText` of the chunks with
a single space gives `buildMentionText` of the whole list. -/
theorem buildMentionText_chunks (members : List String) (maxPerChunk : Nat)
    (hmax : 1 ≤ maxPerChunk) :
    ∃ chunks, chunkMentions members maxPerChunk = some chunks
      ∧ (chunks.map (fun c => c.map mentionToken)).flatten
          = members.map (fun jid => "@" ++ String.mk (jid.data.takeWhile (fun c => c != '@')))
      ∧ joinWith " " (chunks.map buildMentionText) = buildMentionText members
      ∧ String.intercalate " " (chunks.map buildMentionText) = buildMentionText members
      ∧ (buildMentionText members).data
          = List.intercalate [' ']
              (members.map (fun jid => '@' :: jid.data.takeWhile (fun c => c != '@')))
      ∧ (∀ chunk ∈ chunks, (buildMentionText chunk).data
          = List.intercalate [' ']
              (chunk.map (fun jid => '@' :: jid.data.takeWhile (fun c => c != '@'))))
      ∧ (chunks.map (fun chunk =>
            chunk.map (fun jid => '@' :: jid.data.takeWhile (fun c => c != '@')))).flatten
          = members.map (fun jid => '@' :: jid.data.takeWhile (fun c => c != '@'))
      ∧ (String.intercalate " " (chunks.map buildMentionText)).data
          = List.intercalate [' ']
              (members.map (fun jid => '@' :: jid.data.takeWhile (fun c => c != '@'))) := by
  obtain ⟨chunks, hsome, hflat, hsize, _⟩ := chunkMentions_spec members maxPerChunk hmax
  have hnonempty : ∀ c ∈ chunks, c ≠ [] := by
    intro c hc hnil
    have := (hsize c hc).1
    rw [hnil] at this
    simp at this
  have hjoin := joinWith_chunks " " mentionToken chunks hnonempty
  rw [hflat] at hjoin
  have hlib : String.intercalate " " (chunks.map buildMentionText)
      = buildMentionText members := by
    rw [← joinWith_eq_intercalate]
    exact hjoin
  refine ⟨chunks, hsome, ?_, hjoin, hlib, buildMentionText_data members,
    fun chunk _ => buildMentionText_data chunk, ?_, ?_⟩
  · rw [← List.map_flatten, hflat]
    rfl
  · rw [← List.map_flatten, hflat]
  · rw [hlib]
    exact buildMentionText_data members

theorem buildMentionText_chunks_witness :
    1 ≤ 2
    ∧ buildMentionText ["a@c.us", "b@c.us", "c@c.us"] = "@a @b @c"
    ∧ (chunkMentions ["a@c.us", "b@c.us", "c@c.us"] 2).map
        (fun chunks => chunks.map buildMentionText) = some ["@a @b", "@c"]
    ∧ ∃ chunks, chunkMentions ["a@c.us", "b@c.us", "c@c.us"] 2 = some chunks
      ∧ (chunks.map (fun c => c.map mentionToken)).flatten
          = ["a@c.us", "b@c.us", "c@c.us"].map
              (fun jid => "@" ++ String.mk (jid.data.takeWhile (fun c => c != '@')))
      ∧ joinWith " " (chunks.map buildMentionText)
          = buildMentionText ["a@c.us", "b@c.us", "c@c.us"]
      ∧ String.intercalate " " (chunks.map buildMentionText)
          = buildMentionText ["a@c.us", "b@c.us", "c@c.us"]
      ∧ (buildMentionText ["a@c.us", "b@c.us", "c@c.us"]).data
          = List.intercalate [' ']
              (["a@c.us", "b@c.us", "c@c.us"].map
                (fun jid => '@' :: jid.data.takeWhile (fun c => c != '@')))
      ∧ (∀ chunk ∈ chunks, (buildMentionText chunk).data
          = List.intercalate [' ']
              (chunk.map (fun jid => '@' :: jid.data.takeWhile (fun c => c != '@'))))
      ∧ (chunks.map (fun chunk =>
            chunk.map (fun jid => '@' :: jid.data.takeWhile (fun c => c != '@')))).flatten
          = ["a@c.us", "b@c.us", "c@c.us"].map
              (fun jid => '@' :: jid.data.takeWhile (fun c => c != '@'))
      ∧ (String.intercalate " " (chunks.map buildMentionText)).data
          = List.intercalate [' ']
              (["a@c.us", "b@c.us", "c@c.us"].map
                (fun jid => '@' :: jid.data.takeWhile (fun c => c != '@'))) :=
  ⟨by decide, by decide, by decide,
    buildMentionText_chunks ["a@c.us", "b@c.us", "c@c.us"] 2 (by decide)⟩


/-! ### The target resolver -/

theorem truthy_of_ne_empty (s : String) (h : s ≠ "") : truthy (some s) = some s := by
  simp [truthy, h]

theorem truthy_eq_some {v : Option String} {s : String} (h : truthy v = some s) :
    v = some s ∧ s ≠ "" := by
  cases v with
  | none => simp [truthy] at h
  | some t =>
    by_cases ht : t = ""
    · simp [truthy, ht] at h
    · simp [truthy, ht] at h
      subst h
      exact ⟨rfl, ht⟩

/-- `saveGroupIdToCache` does not touch the in-memory id. -/
theorem saveGroupIdToCache_cachedGroupId (m : Mongo) (st : ResolverState) (id : String) :
    (saveGroupIdToCache m st id).cachedGroupId = st.cachedGroupId := by
  obtain ⟨c, mc, s⟩ := st
  obtain ⟨a, b, f, u⟩ := m
  cases mc <;> cases a <;> cases b <;> cases u <;> rfl

/-- The store holds the id after `saveGroupIdToCache` exactly when the
connection and `updateOne` succeed; otherwise it keeps what it held. -/
theorem saveGroupIdToCache_stored (m : Mongo) (st : ResolverState) (id : String) :
    (saveGroupIdToCache m st id).stored
      = if (getMongoClient m st).1 = .value () ∧ m.updateOneOk = true then some id
        else st.stored := by
  obtain ⟨c, mc, s⟩ := st
  obtain ⟨a, b, f, u⟩ := m
  cases mc <;> cases a <;> cases b <;> cases u <;>
    simp [saveGroupIdToCache, getMongoClient]

/-- Whether the connection succeeds does not depend on the in-memory id. -/
theorem getMongoClient_cachedGroupId_irrelevant (m : Mongo) (st : ResolverState)
    (v : Option String) :
    (getMongoClient m { st with cachedGroupId := v }).1 = (getMongoClient m st).1 := by
  obtain ⟨c, mc, s⟩ := st
  obtain ⟨a, b, f, u⟩ := m
  cases mc <;> cases a <;> cases b <;> rfl

/-- Reading the store changes neither the in-memory id nor the stored value. -/
theorem getGroupIdFromCache_state (m : Mongo) (st : ResolverState) :
    (getGroupIdFromCache m st).2.cachedGroupId = st.cachedGroupId
      ∧ (getGroupIdFromCache m st).2.stored = st.stored := by
  obtain ⟨c, mc, s⟩ := st
  obtain ⟨a, b, f, u⟩ := m
  cases mc <;> cases a <;> cases b <;> cases f <;> exact ⟨rfl, rfl⟩

/-- Step 1 alone: an in-memory id that the client resolves to a group ends
the call at once. -/
theorem resolveTargetGroup_memory_hit (cfg : Config) (w : World) (st : ResolverState)
    (id : String) (chat : Chat)
    (hmem : st.cachedGroupId = some id) (hid : id ≠ "")
    (hfetch : w.client.getChatById id = .value (some chat)) (hgroup : chat.isGroup = true) :
    resolveTargetGroup cfg w st = ⟨.value (some chat), st, [.getChatById .memory id]⟩ := by
  simp [resolveTargetGroup, hmem, truthy_of_ne_empty id hid, hfetch, isGroupChat, hgroup]

theorem truthy_none : truthy none = none := rfl

theorem truthy_truthy (v : Option String) : truthy (truthy v) = truthy v := by
  cases v with
  | none => rfl
  | some s =>
    by_cases hs : s = ""
    · simp [truthy, hs]
    · simp [truthy, hs]

/-- What `getGroupIdFromCache` returns is already truthy or `null`. -/
theorem getGroupIdFromCache_truthy (m : Mongo) (st : ResolverState) :
    truthy (getGroupIdFromCache m st).1 = (getGroupIdFromCache m st).1 := by
  obtain ⟨c, mc, s⟩ := st
  obtain ⟨a, b, f, u⟩ := m
  cases mc <;> cases a <;> cases b <;> cases f <;>
    first
      | rfl
      | exact truthy_truthy _

/-- An empty store reads as `null`, whatever the driver does. -/
theorem getGroupIdFromCache_of_empty (m : Mongo) (st : ResolverState)
    (h : st.stored = none) : (getGroupIdFromCache m st).1 = none := by
  obtain ⟨c, mc, s⟩ := st
  obtain ⟨a, b, f, u⟩ := m
  simp only at h
  subst h
  cases mc <;> cases a <;> cases b <;> cases f <;> rfl

/-- The stored value after a read followed by a write of `id`. -/
theorem stored_after_read_then_save (m : Mongo) (st : ResolverState) (v : Option String)
    (id : String) :
    (saveGroupIdToCache m { (getGroupIdFromCache m st).2 with cachedGroupId := v } id).stored
      = if (st.mongoClient = true ∨ m.constructOk = true) ∧ m.updateOneOk = true then some id
        else st.stored := by
  obtain ⟨c, mc, s⟩ := st
  obtain ⟨a, b, f, u⟩ := m
  cases mc <;> cases a <;> cases b <;> cases f <;> cases u <;>
    simp [saveGroupIdToCache, getGroupIdFromCache, getMongoClient]

theorem fetchedIds_append (a b : List Event) :
    fetchedIds (a ++ b) = fetchedIds a ++ fetchedIds b := by
  induction a with
  | nil => rfl
  | cons e rest ih => cases e <;> simp [fetchedIds, ih]

/-- Step 4 fetches no conversation by id. -/
theorem fetchedIds_resolveByName (cfg : Config) (w : World) (st : ResolverState)
    (tr : List Event) :
    fetchedIds (resolveByName cfg w st tr).trace = fetchedIds tr := by
  simp only [resolveByName]
  repeat' split
  all_goals simp [fetchedIds_append, fetchedIds]

/-- A trace that stops at the first fetch yielding a group has no round trip
after any such fetch. -/
theorem stopsAtGroup_sound (w : World) :
    ∀ (tr : List Event), stopsAtGroup w tr = true →
      ∀ (before : List Event) (tier : Tier) (id : String) (after : List Event),
        tr = before ++ Event.getChatById tier id :: after → yieldsGroup w id = true →
        roundTripTiers after = [] := by
  intro tr
  induction tr with
  | nil =>
    intro _ before tier id after hsplit
    simp at hsplit
  | cons e rest ih =>
    intro hstop before tier id after hsplit hyield
    have hrest : stopsAtGroup w rest = true := by
      cases e <;> simp_all [stopsAtGroup]
    cases before with
    | nil =>
      simp only [List.nil_append, List.cons.injEq] at hsplit
      obtain ⟨rfl, rfl⟩ := hsplit
      simp only [stopsAtGroup, hyield, Bool.not_true, Bool.false_or, Bool.and_eq_true,
        List.isEmpty_iff] at hstop
      exact hstop.1
    | cons b before =>
      simp only [List.cons_append, List.cons.injEq] at hsplit
      exact ih hrest before tier id after hsplit.2 hyield

/-- C4: when an in-memory id is set and the client returns a group for it,
`resolveTargetGroup` returns that conversation, leaves the state (the in-memory
id and the store) unchanged and makes no call but the fetch of that id: no
persistence write, no persistence read, no enumeration.  A second call right
after it does the same, so the two calls return the same target with no
persistence write. -/
theorem resolveTargetGroup_idempotent (cfg : Config) (w : World) (st : ResolverState)
    (id : String) (chat : Chat)
    (hmem : st.cachedGroupId = some id) (hid : id ≠ "")
    (hfetch : w.client.getChatById id = .value (some chat)) (hgroup : chat.isGroup = true) :
    (resolveTargetGroup cfg w st).ret = .value (some chat)
      ∧ (resolveTargetGroup cfg w st).st = st
      ∧ (resolveTargetGroup cfg w st).trace = [.getChatById .memory id]
      ∧ (resolveTargetGroup cfg w (resolveTargetGroup cfg w st).st).ret = .value (some chat)
      ∧ (resolveTargetGroup cfg w (resolveTargetGroup cfg w st).st).st = st
      ∧ (resolveTargetGroup cfg w (resolveTargetGroup cfg w st).st).trace
          = [.getChatById .memory id]
      ∧ savedIds ((resolveTargetGroup cfg w st).trace
          ++ (resolveTargetGroup cfg w (resolveTargetGroup cfg w st).st).trace) = [] := by
  have hone := resolveTargetGroup_memory_hit cfg w st id chat hmem hid hfetch hgroup
  simp [hone, savedIds]

theorem resolveTargetGroup_idempotent_witness :
    (resolveTargetGroup { GROUP_ID := none, GROUP_NAME := some "Standup Team" }
        { client := standupClient, mongo := mongoUp }
        { cachedGroupId := some "120363@g.us", mongoClient := true,
          stored := some "120363@g.us" }).ret = .value (some standupTeam) :=
  (resolveTargetGroup_idempotent { GROUP_ID := none, GROUP_NAME := some "Standup Team" }
    { client := standupClient, mongo := mongoUp }
    { cachedGroupId := some "120363@g.us", mongoClient := true, stored := some "120363@g.us" }
    "120363@g.us" standupTeam rfl (by decide) rfl rfl).1

/-- C5: with no in-memory id, a configured `GROUP_ID` `X` that the client
resolves to a group, and a persisted id `Y` other than `X`,
`resolveTargetGroup` returns the conversation of `X`, sets the in-memory id to
`X` and hands `X` to `saveGroupIdToCache`, after which the store holds `X`
whenever the driver's connection and `updateOne` succeed; it neither reads the
store nor fetches `Y`. -/
theorem resolveTargetGroup_configured_first (cfg : Config) (w : World) (st : ResolverState)
    (X Y : String) (chat : Chat)
    (hmem : st.cachedGroupId = none) (hcfg : cfg.GROUP_ID = some X) (hX : X ≠ "")
    (hfetch : w.client.getChatById X = .value (some chat)) (hgroup : chat.isGroup = true)
    (hstored : st.stored = some Y) (hXY : Y ≠ X) :
    (resolveTargetGroup cfg w st).ret = .value (some chat)
      ∧ (resolveTargetGroup cfg w st).st.cachedGroupId = some X
      ∧ (resolveTargetGroup cfg w st).trace
          = [.getChatById .configured X, .saveGroupIdToCache X]
      ∧ Y ∉ fetchedIds (resolveTargetGroup cfg w st).trace
      ∧ ((getMongoClient w.mongo st).1 = .value () → w.mongo.updateOneOk = true →
          (resolveTargetGroup cfg w st).st.stored = some X)
      ∧ (¬ ((getMongoClient w.mongo st).1 = .value () ∧ w.mongo.updateOneOk = true) →
          (resolveTargetGroup cfg w st).st.stored = some Y) := by
  have hrun : resolveTargetGroup cfg w st
      = ⟨.value (some chat),
          saveGroupIdToCache w.mongo { st with cachedGroupId := some X } X,
          [.getChatById .configured X, .saveGroupIdToCache X]⟩ := by
    simp [resolveTargetGroup, resolveFromConfig, hmem, hcfg, truthy, hX, hfetch,
      isGroupChat, hgroup]
  rw [hrun]
  refine ⟨rfl, ?_, rfl, ?_, ?_, ?_⟩
  · rw [saveGroupIdToCache_cachedGroupId]
  · simp [fetchedIds, hXY]
  · intro hconn hupd
    rw [saveGroupIdToCache_stored, getMongoClient_cachedGroupId_irrelevant, if_pos ⟨hconn, hupd⟩]
  · intro hdown
    rw [saveGroupIdToCache_stored, getMongoClient_cachedGroupId_irrelevant, if_neg hdown]
    exact hstored

theorem resolveTargetGroup_configured_first_witness :
    (resolveTargetGroup { GROUP_ID := some "120363@g.us", GROUP_NAME := none }
        { client := standupClient, mongo := mongoUp }
        { cachedGroupId := none, mongoClient := false, stored := some "999@g.us" }).ret
      = .value (some standupTeam) :=
  (resolveTargetGroup_configured_first { GROUP_ID := some "120363@g.us", GROUP_NAME := none }
    { client := standupClient, mongo := mongoUp }
    { cachedGroupId := none, mongoClient := false, stored := some "999@g.us" }
    "120363@g.us" "999@g.us" standupTeam rfl rfl (by decide) rfl rfl rfl (by decide)).1

/-- C6, as stated, fails: with a configured id, a persisted id and a
configured name, none of which the client resolves to a group, one call makes
the round trips of three tiers (fetch by configured id, fetch by persisted id,
enumeration), not of at most one. -/
theorem resolveTargetGroup_three_round_trips :
    roundTripTiers
        (resolveTargetGroup { GROUP_ID := some "111@g.us", GROUP_NAME := some "Standup Team" }
          { client := emptyClient, mongo := mongoUp }
          { cachedGroupId := none, mongoClient := false, stored := some "222@g.us" }).trace
      = [.configured, .persisted, .byName]
    ∧ ¬ (roundTripTiers
        (resolveTargetGroup { GROUP_ID := some "111@g.us", GROUP_NAME := some "Standup Team" }
          { client := emptyClient, mongo := mongoUp }
          { cachedGroupId := none, mongoClient := false, stored := some "222@g.us" }).trace).length
        ≤ 1 := by
  decide

/-- C6, amended: for every configuration, store content and client behaviour,
one call of `resolveTargetGroup` makes the round trip of each tier beyond the
in-memory check at most once and in the order configured id, persisted id,
name enumeration (so at most three of them), and after a fetch by id that
yields a group it makes no further round trip. -/
theorem resolveTargetGroup_round_trips (cfg : Config) (w : World) (st : ResolverState) :
    (roundTripTiers (resolveTargetGroup cfg w st).trace).Sublist
        [Tier.configured, Tier.persisted, Tier.byName]
      ∧ (roundTripTiers (resolveTargetGroup cfg w st).trace).length ≤ 3
      ∧ ∀ (before : List Event) (tier : Tier) (id : String) (after : List Event),
          (resolveTargetGroup cfg w st).trace = before ++ Event.getChatById tier id :: after →
          yieldsGroup w id = true → roundTripTiers after = [] := by
  have hsub : (roundTripTiers (resolveTargetGroup cfg w st).trace).Sublist
      [Tier.configured, Tier.persisted, Tier.byName] := by
    simp only [resolveTargetGroup, resolveFromConfig, resolveFromStore, resolveByName]
    repeat' split
    all_goals simp [roundTripTiers]
  have hstop : stopsAtGroup w (resolveTargetGroup cfg w st).trace = true := by
    simp only [resolveTargetGroup, resolveFromConfig, resolveFromStore, resolveByName]
    repeat' split
    all_goals simp_all [roundTripTiers, stopsAtGroup, yieldsGroup]
  refine ⟨hsub, ?_, stopsAtGroup_sound w _ hstop⟩
  simpa using hsub.length_le

theorem resolveTargetGroup_round_trips_witness :
    roundTripTiers [Event.saveGroupIdToCache "120363@g.us"] = [] :=
  (resolveTargetGroup_round_trips { GROUP_ID := some "120363@g.us", GROUP_NAME := none }
    { client := standupClient, mongo := mongoUp } initialState).2.2
    [] .configured "120363@g.us" [Event.saveGroupIdToCache "120363@g.us"]
    (by decide) (by decide)

/-- C7 fails on the code: steps 1 and 4 call the client outside any `try`.
With an in-memory id and a client whose `getChatById` rejects, and with only a
configured name and a client whose `getChats` rejects, the promise of
`resolveTargetGroup` is rejected and no later tier runs; the same rejection
in step 2 or step 3 is caught and the call goes on to the next tier. -/
theorem resolveTargetGroup_raises :
    (resolveTargetGroup { GROUP_ID := some "111@g.us", GROUP_NAME := some "Standup Team" }
        { client := failingClient, mongo := mongoUp }
        { cachedGroupId := some "120363@g.us", mongoClient := false, stored := none }).ret
      = .raised "Evaluation failed"
    ∧ (resolveTargetGroup { GROUP_ID := some "111@g.us", GROUP_NAME := some "Standup Team" }
        { client := failingClient, mongo := mongoUp }
        { cachedGroupId := some "120363@g.us", mongoClient := false, stored := none }).trace
      = [.getChatById .memory "120363@g.us"]
    ∧ (resolveTargetGroup { GROUP_ID := none, GROUP_NAME := some "Standup Team" }
        { client := failingClient, mongo := mongoUp } initialState).ret
      = .raised "Evaluation failed"
    ∧ (resolveTargetGroup { GROUP_ID := some "111@g.us", GROUP_NAME := none }
        { client := failingClient, mongo := mongoUp }
        { cachedGroupId := none, mongoClient := false, stored := some "222@g.us" }).ret
      = .value none
    ∧ (resolveTargetGroup { GROUP_ID := some "111@g.us", GROUP_NAME := none }
        { client := failingClient, mongo := mongoUp }
        { cachedGroupId := none, mongoClient := false, stored := some "222@g.us" }).trace
      = [.getChatById .configured "111@g.us", .getGroupIdFromCache,
          .getChatById .persisted "222@g.us"] := by
  decide

/-- C8: with no in-memory id, no configured id, no persisted id and a
configured name `N`, when the enumeration lists a group named exactly `N`,
`resolveTargetGroup` returns the first listed conversation that is a group
named `N`, sets the in-memory id to its id and hands that id to
`saveGroupIdToCache` (the store holds it afterwards when the driver's client
exists and `updateOne` succeeds); the call right after it, the client resolving
that id to the same group, returns the same group from the in-memory path
alone, with no enumeration. -/
theorem resolveTargetGroup_by_name (cfg : Config) (w : World) (st : ResolverState)
    (N : String) (before after : List Chat) (c : Chat)
    (hmem : st.cachedGroupId = none) (hcfg : cfg.GROUP_ID = none)
    (hstore : st.stored = none)
    (hname : cfg.GROUP_NAME = some N) (hN : N ≠ "")
    (hchats : w.client.getChats = .value (before ++ c :: after))
    (hbefore : ∀ x ∈ before, ¬ (x.isGroup = true ∧ x.name = N))
    (hgroup : c.isGroup = true) (hcname : c.name = N)
    (hid : c.id ≠ "") (hfetch : w.client.getChatById c.id = .value (some c)) :
    (resolveTargetGroup cfg w st).ret = .value (some c)
      ∧ (resolveTargetGroup cfg w st).st.cachedGroupId = some c.id
      ∧ (resolveTargetGroup cfg w st).trace
          = [.getGroupIdFromCache, .getChats, .saveGroupIdToCache c.id]
      ∧ ((st.mongoClient = true ∨ w.mongo.constructOk = true) → w.mongo.updateOneOk = true →
          (resolveTargetGroup cfg w st).st.stored = some c.id)
      ∧ (resolveTargetGroup cfg w (resolveTargetGroup cfg w st).st).ret = .value (some c)
      ∧ (resolveTargetGroup cfg w (resolveTargetGroup cfg w st).st).trace
          = [.getChatById .memory c.id]
      ∧ (resolveTargetGroup cfg w (resolveTargetGroup cfg w st).st).st
          = (resolveTargetGroup cfg w st).st := by
  have hfind : (before ++ c :: after).find? (fun chat => chat.isGroup && chat.name == N)
      = some c := by
    rw [List.find?_append]
    have hnone : before.find? (fun chat => chat.isGroup && chat.name == N) = none := by
      rw [List.find?_eq_none]
      intro x hx
      simpa using hbefore x hx
    rw [hnone]
    simp [List.find?_cons, hgroup, hcname]
  have hrun : resolveTargetGroup cfg w st
      = ⟨.value (some c),
          saveGroupIdToCache w.mongo
            { (getGroupIdFromCache w.mongo st).2 with cachedGroupId := some c.id } c.id,
          [.getGroupIdFromCache, .getChats, .saveGroupIdToCache c.id]⟩ := by
    simp [resolveTargetGroup, resolveFromConfig, resolveFromStore, resolveByName, hmem, hcfg,
      getGroupIdFromCache_of_empty w.mongo st hstore, hname, truthy, hN, hchats, hfind]
  have hmem2 : (resolveTargetGroup cfg w st).st.cachedGroupId = some c.id := by
    rw [hrun]
    exact saveGroupIdToCache_cachedGroupId _ _ _
  have hsecond := resolveTargetGroup_memory_hit cfg w (resolveTargetGroup cfg w st).st c.id c
    hmem2 hid hfetch hgroup
  refine ⟨by rw [hrun], hmem2, by rw [hrun], ?_, by rw [hsecond], by rw [hsecond],
    by rw [hsecond]⟩
  intro hclient hupd
  rw [hrun]
  simp only
  rw [stored_after_read_then_save, if_pos ⟨hclient, hupd⟩]

theorem resolveTargetGroup_by_name_witness :
    (resolveTargetGroup { GROUP_ID := none, GROUP_NAME := some "Standup Team" }
        { client := standupClient, mongo := mongoUp } initialState).ret
      = .value (some standupTeam) :=
  (resolveTargetGroup_by_name { GROUP_ID := none, GROUP_NAME := some "Standup Team" }
    { client := standupClient, mongo := mongoUp } initialState
    "Standup Team" [standupContact] [] standupTeam rfl rfl rfl rfl (by decide) rfl
    (by decide) rfl rfl (by decide) rfl).1

/-- C9: with no in-memory id and no configured id, when the read of the
persisted cache gives the id `P`: if the client resolves `P` to a group,
`resolveTargetGroup` returns that group, sets the in-memory id to `P`, hands
nothing to `saveGroupIdToCache` and leaves the stored value as it was; if the
fetch of `P` fails or yields no group, the call goes on exactly as step 4 does
after the read and the one fetch of `P`, and `P` is the only id it fetches,
once. -/
theorem resolveTargetGroup_persisted (cfg : Config) (w : World) (st : ResolverState)
    (P : String)
    (hmem : st.cachedGroupId = none) (hcfg : cfg.GROUP_ID = none)
    (hread : (getGroupIdFromCache w.mongo st).1 = some P) :
    (∀ chat : Chat, w.client.getChatById P = .value (some chat) → chat.isGroup = true →
        (resolveTargetGroup cfg w st).ret = .value (some chat)
          ∧ (resolveTargetGroup cfg w st).st.cachedGroupId = some P
          ∧ (resolveTargetGroup cfg w st).trace
              = [.getGroupIdFromCache, .getChatById .persisted P]
          ∧ savedIds (resolveTargetGroup cfg w st).trace = []
          ∧ (resolveTargetGroup cfg w st).st.stored = st.stored)
      ∧ (yieldsGroup w P = false →
          resolveTargetGroup cfg w st
              = resolveByName cfg w (getGroupIdFromCache w.mongo st).2
                  [.getGroupIdFromCache, .getChatById .persisted P]
            ∧ fetchedIds (resolveTargetGroup cfg w st).trace = [P]) := by
  have htruthy : truthy (some P) = some P := by
    have h := getGroupIdFromCache_truthy w.mongo st
    rw [hread] at h
    exact h
  constructor
  · intro chat hfetch hgroup
    have hrun : resolveTargetGroup cfg w st
        = ⟨.value (some chat),
            { (getGroupIdFromCache w.mongo st).2 with cachedGroupId := some P },
            [.getGroupIdFromCache, .getChatById .persisted P]⟩ := by
      simp [resolveTargetGroup, resolveFromConfig, resolveFromStore, hmem, hcfg, hread,
        htruthy, hfetch, isGroupChat, hgroup, truthy_none]
    rw [hrun]
    exact ⟨rfl, rfl, rfl, rfl, (getGroupIdFromCache_state w.mongo st).2⟩
  · intro hno
    have hrun : resolveTargetGroup cfg w st
        = resolveByName cfg w (getGroupIdFromCache w.mongo st).2
            [.getGroupIdFromCache, .getChatById .persisted P] := by
      simp only [yieldsGroup] at hno
      simp only [resolveTargetGroup, resolveFromConfig, resolveFromStore, hmem, hcfg, hread,
        htruthy, truthy_none, List.nil_append, List.cons_append]
      split
      · next chat hfetch =>
        rw [hfetch] at hno
        simp only at hno
        simp [hno]
      · rfl
    refine ⟨hrun, ?_⟩
    rw [hrun, fetchedIds_resolveByName]
    rfl

theorem resolveTargetGroup_persisted_witness :
    (resolveTargetGroup { GROUP_ID := none, GROUP_NAME := some "Standup Team" }
        { client := standupClient, mongo := mongoUp }
        { cachedGroupId := none, mongoClient := false, stored := some "120363@g.us" }).ret
      = .value (some standupTeam) :=
  ((resolveTargetGroup_persisted { GROUP_ID := none, GROUP_NAME := some "Standup Team" }
    { client := standupClient, mongo := mongoUp }
    { cachedGroupId := none, mongoClient := false, stored := some "120363@g.us" }
    "120363@g.us" rfl rfl (by decide)).1 standupTeam rfl rfl).1

/-! ### The participant provider -/

/-- `endsWith jid suffix` holds exactly when `jid` is some string followed by
`suffix`. -/
theorem endsWith_iff (jid suffix : String) :
    endsWith jid suffix = true ↔ ∃ front : String, jid = front ++ suffix := by
  unfold endsWith
  rw [List.isSuffixOf_iff_suffix]
  constructor
  · rintro ⟨t, ht⟩
    exact ⟨String.mk t, String.ext (by simp [String.data_append, ht])⟩
  · rintro ⟨front, rfl⟩
    exact ⟨front.data, by simp [String.data_append]⟩

/-- When every id can be read, `participantIds` returns them in order. -/
theorem participantIds_of_readable :
    ∀ (ps : List Participant) (jids : List String),
      ps.map (fun p => p.id) = jids.map some → participantIds ps = some jids
  | [], [], _ => rfl
  | [], _ :: _, h => by simp at h
  | _ :: _, [], h => by simp at h
  | p :: ps, jid :: jids, h => by
    simp only [List.map_cons, List.cons.injEq] at h
    simp [participantIds, h.1, participantIds_of_readable ps jids h.2]

/-- The two ways a call of `getParticipants` ends: with the data of the entry
cached for the conversation, the cache untouched, or as the fresh fetch. -/
theorem getParticipants_cases (env : ParticipantsEnv) (cache : ParticipantsCache)
    (chat : Chat) (forceRefresh : Bool) :
    (∃ e, cache chat.id = some e
        ∧ getParticipants env cache chat forceRefresh = (e.data, cache))
      ∨ getParticipants env cache chat forceRefresh = fetchParticipants env cache chat := by
  unfold getParticipants
  simp only
  split
  · split
    · next cached hcached =>
      split
      · exact Or.inl ⟨cached, hcached, rfl⟩
      · exact Or.inr rfl
    · exact Or.inr rfl
  · exact Or.inr rfl

/-- A forced refresh, a missing entry and an expired entry all lead to the
fresh fetch. -/
theorem getParticipants_fresh (env : ParticipantsEnv) (cache : ParticipantsCache)
    (chat : Chat) (forceRefresh : Bool)
    (hfresh : forceRefresh = true ∨ cache chat.id = none
      ∨ ∃ e, cache chat.id = some e ∧ ¬ env.nowCheck - e.timestamp < CACHE_TTL) :
    getParticipants env cache chat forceRefresh = fetchParticipants env cache chat := by
  unfold getParticipants
  simp only
  rcases hfresh with hforce | hmiss | ⟨e, he, hold⟩
  · simp [hforce]
  · simp [hmiss]
  · simp [he, hold]

/-- The two ways a fresh fetch ends: the filtered live roster, stored under
the conversation id, or the empty roster with the cache untouched. -/
theorem fetchParticipants_cases (env : ParticipantsEnv) (cache : ParticipantsCache)
    (chat : Chat) :
    (∃ (bot : String) (jids : List String), env.botNumber = some bot
        ∧ fetchParticipants env cache chat
          = (jids.filter (fun jid => jid != bot && endsWith jid "@c.us"),
              cacheSet cache chat.id
                { data := jids.filter (fun jid => jid != bot && endsWith jid "@c.us"),
                  timestamp := env.nowStore }))
      ∨ fetchParticipants env cache chat = ([], cache) := by
  unfold fetchParticipants readRoster
  simp only
  cases hbot : env.botNumber with
  | none => exact Or.inr rfl
  | some bot =>
    cases hids : participantIds (chat.participants.getD []) with
    | none => exact Or.inr rfl
    | some jids => exact Or.inl ⟨bot, jids, rfl, rfl⟩

/-- The roster that a call returns, from a cache that owes its entries to the
earlier operations. -/
theorem getParticipants_returns (ops : List ParticipantsOp) (cache : ParticipantsCache)
    (c : ParticipantsCall) (hinv : CacheFromCalls ops cache) :
    (∀ jid ∈ (getParticipants c.env cache c.chat c.forceRefresh).1,
        endsWith jid "@c.us" = true)
      ∧ ((getParticipants c.env cache c.chat c.forceRefresh).1 = []
        ∨ ∃ d, ParticipantsOp.get d ∈ ops ++ [.get c] ∧ d.chat.id = c.chat.id
            ∧ ∃ bot, d.env.botNumber = some bot
              ∧ bot ∉ (getParticipants c.env cache c.chat c.forceRefresh).1) := by
  rcases getParticipants_cases c.env cache c.chat c.forceRefresh with ⟨e, he, hrun⟩ | hrun
  · rw [hrun]
    obtain ⟨hsuffix, d, hd, hid, bot, hbot, hnot⟩ := hinv c.chat.id e he
    exact ⟨hsuffix, Or.inr ⟨d, List.mem_append_left _ hd, hid, bot, hbot, hnot⟩⟩
  · rw [hrun]
    rcases fetchParticipants_cases c.env cache c.chat with ⟨bot, jids, hbot, hfetch⟩ | hfetch
    · rw [hfetch]
      refine ⟨?_, Or.inr ⟨c, by simp, rfl, bot, hbot, ?_⟩⟩
      · intro jid hjid
        have := (List.mem_filter.1 hjid).2
        simp only [Bool.and_eq_true] at this
        exact this.2
      · intro hmem
        have := (List.mem_filter.1 hmem).2
        simp at this
    · rw [hfetch]
      exact ⟨by simp, Or.inl rfl⟩

/-- A call keeps the cache owing its entries to the operations made. -/
theorem getParticipants_keeps (ops : List ParticipantsOp) (cache : ParticipantsCache)
    (c : ParticipantsCall) (hinv : CacheFromCalls ops cache) :
    CacheFromCalls (ops ++ [.get c])
      (getParticipants c.env cache c.chat c.forceRefresh).2 := by
  have hold : CacheFromCalls (ops ++ [.get c]) cache := by
    intro id e he
    obtain ⟨hsuffix, d, hd, hrest⟩ := hinv id e he
    exact ⟨hsuffix, d, List.mem_append_left _ hd, hrest⟩
  rcases getParticipants_cases c.env cache c.chat c.forceRefresh with ⟨e, _, hrun⟩ | hrun
  · rw [hrun]; exact hold
  · rw [hrun]
    rcases fetchParticipants_cases c.env cache c.chat with ⟨bot, jids, hbot, hfetch⟩ | hfetch
    · rw [hfetch]
      intro id e he
      simp only [cacheSet] at he
      by_cases hid : id = c.chat.id
      · rw [if_pos hid] at he
        cases he
        refine ⟨?_, c, by simp, hid.symm, bot, hbot, ?_⟩
        · intro jid hjid
          have := (List.mem_filter.1 hjid).2
          simp only [Bool.and_eq_true] at this
          exact this.2
        · intro hmem
          have := (List.mem_filter.1 hmem).2
          simp at this
      · rw [if_neg hid] at he
        exact hold id e he
    · rw [hfetch]; exact hold

/-- After any run of operations the cache owes its entries to the calls made. -/
theorem cacheAfter_keeps :
    ∀ (ops done : List ParticipantsOp) (cache : ParticipantsCache),
      CacheFromCalls done cache → CacheFromCalls (done ++ ops) (cacheAfter cache ops)
  | [], done, cache, hinv => by simpa [cacheAfter] using hinv
  | .get c :: rest, done, cache, hinv => by
    have hstep := getParticipants_keeps done cache c hinv
    have := cacheAfter_keeps rest (done ++ [.get c]) _ hstep
    simpa [cacheAfter] using this
  | .clear :: rest, done, cache, _ => by
    have hclear : CacheFromCalls (done ++ [.clear]) (clearParticipantsCache cache) := by
      intro id e he
      simp [clearParticipantsCache, emptyCache] at he
    have := cacheAfter_keeps rest (done ++ [.clear]) _ hclear
    simpa [cacheAfter] using this

/-- C10: on a cache miss, an expired entry or a forced refresh, when the
bot's address and every member id can be read, `getParticipants` returns the
live member ids in their order with the bot's address and every id not ending
in `@c.us` removed, and stores that list under the conversation id with the
time of the store, leaving the other entries alone.  And after every run of
`getParticipants` and `clearParticipantsCache` calls from the empty cache, each
roster that `getParticipants` returns, cached or fresh, holds only addresses
ending in `@c.us`, and is empty or lacks the bot's address of some call of the
run on the same conversation (the one that fetched it). -/
theorem getParticipants_roster :
    (∀ (env : ParticipantsEnv) (cache : ParticipantsCache) (chat : Chat)
        (forceRefresh : Bool) (bot : String) (jids : List String),
        (forceRefresh = true ∨ cache chat.id = none
          ∨ ∃ e, cache chat.id = some e ∧ ¬ env.nowCheck - e.timestamp < CACHE_TTL) →
        env.botNumber = some bot →
        (chat.participants.getD []).map (fun p => p.id) = jids.map some →
        (getParticipants env cache chat forceRefresh).1
            = jids.filter (fun jid => jid != bot && endsWith jid "@c.us")
          ∧ (getParticipants env cache chat forceRefresh).2 chat.id
            = some { data := jids.filter (fun jid => jid != bot && endsWith jid "@c.us"),
                     timestamp := env.nowStore }
          ∧ (∀ k, k ≠ chat.id → (getParticipants env cache chat forceRefresh).2 k = cache k)
          ∧ (∀ jid, jid ∈ (getParticipants env cache chat forceRefresh).1
              ↔ jid ∈ jids ∧ jid ≠ bot ∧ ∃ front : String, jid = front ++ "@c.us"))
      ∧ (∀ (ops : List ParticipantsOp) (c : ParticipantsCall),
          (∀ jid ∈ (getParticipants c.env (cacheAfter emptyCache ops) c.chat c.forceRefresh).1,
              ∃ front : String, jid = front ++ "@c.us")
            ∧ ((getParticipants c.env (cacheAfter emptyCache ops) c.chat c.forceRefresh).1 = []
              ∨ ∃ d, ParticipantsOp.get d ∈ ops ++ [.get c] ∧ d.chat.id = c.chat.id
                ∧ ∃ bot, d.env.botNumber = some bot
                  ∧ bot ∉ (getParticipants c.env (cacheAfter emptyCache ops) c.chat
                      c.forceRefresh).1)) := by
  constructor
  · intro env cache chat forceRefresh bot jids hfresh hbot hids
    have hrun : getParticipants env cache chat forceRefresh
        = (jids.filter (fun jid => jid != bot && endsWith jid "@c.us"),
            cacheSet cache chat.id
              { data := jids.filter (fun jid => jid != bot && endsWith jid "@c.us"),
                timestamp := env.nowStore }) := by
      rw [getParticipants_fresh env cache chat forceRefresh hfresh]
      simp [fetchParticipants, readRoster, hbot, participantIds_of_readable _ _ hids]
    rw [hrun]
    refine ⟨rfl, by simp [cacheSet], ?_, ?_⟩
    · intro k hk
      simp [cacheSet, hk]
    · intro jid
      simp only [List.mem_filter, Bool.and_eq_true, bne_iff_ne, ne_eq, endsWith_iff]
  · intro ops c
    have hinv : CacheFromCalls [] emptyCache := by
      intro id e he
      simp [emptyCache] at he
    have hcache := cacheAfter_keeps ops [] emptyCache hinv
    simp only [List.nil_append] at hcache
    obtain ⟨hsuffix, hbot⟩ := getParticipants_returns ops _ c hcache
    exact ⟨fun jid hjid => (endsWith_iff jid "@c.us").1 (hsuffix jid hjid), hbot⟩

theorem getParticipants_roster_witness :
    (getParticipants rosterEnv emptyCache rosterChat false).1
      = ["6281@c.us", "6299@c.us", "status@broadcast", "6282@c.us"].filter
          (fun jid => jid != "6299@c.us" && endsWith jid "@c.us") :=
  (getParticipants_roster.1 rosterEnv emptyCache rosterChat false "6299@c.us"
    ["6281@c.us", "6299@c.us", "status@broadcast", "6282@c.us"]
    (Or.inr (Or.inl rfl)) rfl rfl).1

/-- The fresh fetch with everything readable: the filtered live ids are
returned and stored under the conversation id with the time of the store. -/
theorem getParticipants_fresh_readable (env : ParticipantsEnv) (cache : ParticipantsCache)
    (chat : Chat) (forceRefresh : Bool) (bot : String) (jids : List String)
    (hfresh : forceRefresh = true ∨ cache chat.id = none
      ∨ ∃ e, cache chat.id = some e ∧ ¬ env.nowCheck - e.timestamp < CACHE_TTL)
    (hbot : env.botNumber = some bot)
    (hids : (chat.participants.getD []).map (fun p => p.id) = jids.map some) :
    getParticipants env cache chat forceRefresh
      = (jids.filter (fun jid => jid != bot && endsWith jid "@c.us"),
          cacheSet cache chat.id
            { data := jids.filter (fun jid => jid != bot && endsWith jid "@c.us"),
              timestamp := env.nowStore }) := by
  rw [getParticipants_fresh env cache chat forceRefresh hfresh]
  simp [fetchParticipants, readRoster, hbot, participantIds_of_readable _ _ hids]

/-- A call without forced refresh on an entry younger than `CACHE_TTL` returns
the entry's data and reads nothing else. -/
theorem getParticipants_hit (env : ParticipantsEnv) (cache : ParticipantsCache)
    (chat : Chat) (e : CacheEntry) (he : cache chat.id = some e)
    (hyoung : env.nowCheck - e.timestamp < CACHE_TTL) :
    getParticipants env cache chat false = (e.data, cache) := by
  simp [getParticipants, he, hyoung]

/-- When an id cannot be read, `participantIds` has no result. -/
theorem participantIds_of_unreadable :
    ∀ (ps : List Participant), (∃ p ∈ ps, p.id = none) → participantIds ps = none
  | [], h => by simp at h
  | p :: ps, h => by
    cases hp : p.id with
    | none => simp [participantIds, hp]
    | some jid =>
      have hrest : ∃ q ∈ ps, q.id = none := by
        obtain ⟨q, hq, hnone⟩ := h
        rcases List.mem_cons.1 hq with rfl | hq
        · rw [hp] at hnone; cases hnone
        · exact ⟨q, hq, hnone⟩
      simp [participantIds, hp, participantIds_of_unreadable ps hrest]

/-- C11: after a fetch for a conversation that stored its roster at time
`t0 = env0.nowStore`, a call without forced refresh at any time `t` with
`t - t0 < CACHE_TTL` (30 minutes), whatever the live membership and the bot's
address are by then, returns the list of that fetch and leaves the cache as it
is; a call at a time `t` with `t - t0 ≥ CACHE_TTL` is the fresh fetch, and
when its reads succeed it returns the new filtered live ids and replaces the
entry by them with the new store time. -/
theorem getParticipants_ttl (env0 : ParticipantsEnv) (cache : ParticipantsCache)
    (chat : Chat) (forceRefresh : Bool) (bot : String) (jids : List String)
    (hfresh : forceRefresh = true ∨ cache chat.id = none
      ∨ ∃ e, cache chat.id = some e ∧ ¬ env0.nowCheck - e.timestamp < CACHE_TTL)
    (hbot : env0.botNumber = some bot)
    (hids : (chat.participants.getD []).map (fun p => p.id) = jids.map some) :
    CACHE_TTL = 1800000
      ∧ (∀ (env1 : ParticipantsEnv) (chat1 : Chat), chat1.id = chat.id →
          env1.nowCheck - env0.nowStore < CACHE_TTL →
          getParticipants env1 (getParticipants env0 cache chat forceRefresh).2 chat1 false
            = ((getParticipants env0 cache chat forceRefresh).1,
                (getParticipants env0 cache chat forceRefresh).2))
      ∧ (∀ (env2 : ParticipantsEnv) (chat2 : Chat), chat2.id = chat.id →
          CACHE_TTL ≤ env2.nowCheck - env0.nowStore →
          getParticipants env2 (getParticipants env0 cache chat forceRefresh).2 chat2 false
              = fetchParticipants env2 (getParticipants env0 cache chat forceRefresh).2 chat2
            ∧ ∀ (bot2 : String) (jids2 : List String), env2.botNumber = some bot2 →
                (chat2.participants.getD []).map (fun p => p.id) = jids2.map some →
                (getParticipants env2 (getParticipants env0 cache chat forceRefresh).2
                    chat2 false).1
                  = jids2.filter (fun jid => jid != bot2 && endsWith jid "@c.us")
                ∧ (getParticipants env2 (getParticipants env0 cache chat forceRefresh).2
                    chat2 false).2 chat.id
                  = some { data := jids2.filter (fun jid => jid != bot2 && endsWith jid "@c.us"),
                           timestamp := env2.nowStore }) := by
  have hrun := getParticipants_fresh_readable env0 cache chat forceRefresh bot jids
    hfresh hbot hids
  have hentry : (getParticipants env0 cache chat forceRefresh).2 chat.id
      = some { data := jids.filter (fun jid => jid != bot && endsWith jid "@c.us"),
               timestamp := env0.nowStore } := by
    rw [hrun]; simp [cacheSet]
  refine ⟨by decide, ?_, ?_⟩
  · intro env1 chat1 hid hyoung
    rw [← hid] at hentry
    rw [getParticipants_hit env1 _ chat1 _ hentry hyoung, hrun]
  · intro env2 chat2 hid hold
    rw [← hid] at hentry
    have hstale : false = true ∨ (getParticipants env0 cache chat forceRefresh).2 chat2.id = none
        ∨ ∃ e, (getParticipants env0 cache chat forceRefresh).2 chat2.id = some e
          ∧ ¬ env2.nowCheck - e.timestamp < CACHE_TTL :=
      Or.inr (Or.inr ⟨_, hentry, by simpa using hold⟩)
    refine ⟨getParticipants_fresh env2 _ chat2 false hstale, ?_⟩
    intro bot2 jids2 hbot2 hids2
    rw [getParticipants_fresh_readable env2 _ chat2 false bot2 jids2 hstale hbot2 hids2]
    exact ⟨rfl, by simp [cacheSet, hid]⟩

theorem getParticipants_ttl_witness :
    getParticipants { nowCheck := 1001 + 1800000 - 1, nowStore := 1001 + 1800000 - 1,
                      botNumber := none }
        (getParticipants rosterEnv emptyCache rosterChat false).2
        { rosterChat with participants := some [] } false
      = ((getParticipants rosterEnv emptyCache rosterChat false).1,
          (getParticipants rosterEnv emptyCache rosterChat false).2) :=
  (getParticipants_ttl rosterEnv emptyCache rosterChat false "6299@c.us"
    ["6281@c.us", "6299@c.us", "status@broadcast", "6282@c.us"]
    (Or.inr (Or.inl rfl)) rfl rfl).2.1
    { nowCheck := 1001 + 1800000 - 1, nowStore := 1001 + 1800000 - 1, botNumber := none }
    { rosterChat with participants := some [] } rfl (by decide)

/-- C12: on the fresh-fetch path of `getParticipants` (forced refresh, no
entry, or an expired entry), if the bot's own address cannot be read or the id
of some live member cannot be read, the read raises inside the `try`, and
`getParticipants` returns the empty list, not an error, leaving the cache as
it was. -/
theorem getParticipants_read_failure (env : ParticipantsEnv) (cache : ParticipantsCache)
    (chat : Chat) (forceRefresh : Bool)
    (hfresh : forceRefresh = true ∨ cache chat.id = none
      ∨ ∃ e, cache chat.id = some e ∧ ¬ env.nowCheck - e.timestamp < CACHE_TTL)
    (hfail : env.botNumber = none ∨ ∃ p ∈ chat.participants.getD [], p.id = none) :
    (∃ error, readRoster env chat = .raised error)
      ∧ getParticipants env cache chat forceRefresh = ([], cache) := by
  have hread : ∃ error, readRoster env chat = .raised error := by
    unfold readRoster
    simp only
    cases hbot : env.botNumber with
    | none => exact ⟨_, rfl⟩
    | some bot =>
      rcases hfail with hnone | hbad
      · rw [hbot] at hnone; cases hnone
      · simp only [participantIds_of_unreadable _ hbad]
        exact ⟨_, rfl⟩
  refine ⟨hread, ?_⟩
  obtain ⟨error, herr⟩ := hread
  rw [getParticipants_fresh env cache chat forceRefresh hfresh]
  simp [fetchParticipants, herr]

theorem getParticipants_read_failure_witness :
    getParticipants { nowCheck := 5, nowStore := 6, botNumber := none } emptyCache
        rosterChat true = ([], emptyCache) :=
  (getParticipants_read_failure { nowCheck := 5, nowStore := 6, botNumber := none }
    emptyCache rosterChat true (Or.inl rfl) (Or.inl rfl)).2

/-! ### Group broadcast -/

theorem groupSends_append (a b : List DispatchEvent) :
    groupSends (a ++ b) = groupSends a ++ groupSends b := by
  induction a with
  | nil => rfl
  | cons e rest ih => cases e <;> simp [groupSends, ih]

/-- With every send succeeding the loop sends every chunk still to send, in
order, each with the chunk as its mentions, and returns. -/
theorem sendChunks_all_delivered (m : Messenger) (messageText : String) (total : Nat)
    (hok : ∀ k text mentions, m.sendMessage k text mentions = .value ()) :
    ∀ (rest : List (List String)) (i : Nat) (tr : List DispatchEvent),
      (sendChunks m messageText total i rest tr).1 = .value ()
        ∧ (groupSends (sendChunks m messageText total i rest tr).2).map Prod.snd
          = (groupSends tr).map Prod.snd ++ rest.map some := by
  intro rest
  induction rest with
  | nil => intro i tr; simp [sendChunks]
  | cons chunk rest ih =>
    intro i tr
    simp only [sendChunks, hok]
    split
    · obtain ⟨hret, hsends⟩ := ih (i + 1)
        (tr ++ [.sendMessage (fullMessage messageText total i chunk) (some chunk)] ++ [.delay 2000])
      refine ⟨hret, ?_⟩
      rw [hsends]
      simp [groupSends_append, groupSends]
    · obtain ⟨hret, hsends⟩ := ih (i + 1)
        (tr ++ [.sendMessage (fullMessage messageText total i chunk) (some chunk)])
      refine ⟨hret, ?_⟩
      rw [hsends]
      simp [groupSends_append, groupSends]

/-- When the sends before number `i` succeed and the send number `i` fails,
the loop sends the chunks up to number `i`, in order, and ends with the error
of that send. -/
theorem sendChunks_stops_at_failure (m : Messenger) (messageText : String) (total i : Nat)
    (error : String)
    (hbefore : ∀ k, k < i → ∀ text mentions, m.sendMessage k text mentions = .value ())
    (hfail : ∀ text mentions, m.sendMessage i text mentions = .raised error) :
    ∀ (rest : List (List String)) (j : Nat) (tr : List DispatchEvent),
      j ≤ i → i < j + rest.length →
      (sendChunks m messageText total j rest tr).1 = .raised error
        ∧ (groupSends (sendChunks m messageText total j rest tr).2).map Prod.snd
          = (groupSends tr).map Prod.snd ++ (rest.take (i - j + 1)).map some := by
  intro rest
  induction rest with
  | nil => intro j tr _ hlt; simp at hlt; omega
  | cons chunk rest ih =>
    intro j tr hle hlt
    by_cases hji : j = i
    · subst hji
      simp [sendChunks, hfail, groupSends_append, groupSends]
    · have hlt2 : j < i := by omega
      have hstep : i - j + 1 = (i - (j + 1) + 1) + 1 := by omega
      simp only [sendChunks, hbefore j hlt2]
      rw [hstep, List.take_succ_cons]
      have hlen : i < j + 1 + rest.length := by
        simp only [List.length_cons] at hlt; omega
      split
      · obtain ⟨hret, hsends⟩ := ih (j + 1)
          (tr ++ [.sendMessage (fullMessage messageText total j chunk) (some chunk)]
            ++ [.delay 2000]) (by omega) hlen
        refine ⟨hret, ?_⟩
        rw [hsends]
        simp [groupSends_append, groupSends]
      · obtain ⟨hret, hsends⟩ := ih (j + 1)
          (tr ++ [.sendMessage (fullMessage messageText total j chunk) (some chunk)])
          (by omega) hlen
        refine ⟨hret, ?_⟩
        rw [hsends]
        simp [groupSends_append, groupSends]

theorem length_flatten_of_full (front : List (List String)) (size : Nat)
    (hfull : ∀ c ∈ front, c.length = size) : front.flatten.length = front.length * size := by
  induction front with
  | nil => simp
  | cons c rest ih =>
    have hc := hfull c (List.mem_cons_self _ _)
    have hrest := ih (fun d hd => hfull d (List.mem_cons_of_mem _ hd))
    simp only [List.flatten_cons, List.length_append, List.length_cons, hc, hrest]
    rw [Nat.add_mul]; omega

/-- The chunks of a non-empty roster at 50 per chunk: they are `front ++
[last]`, the roster has `50 * |front| + |last|` members with `1 ≤ |last| ≤ 50`,
and every chunk of `front` has 50. -/
theorem chunkMentions_fifty (roster : List String) (hne : roster ≠ []) :
    ∃ front last, chunkMentions roster 50 = some (front ++ [last])
      ∧ (front ++ [last]).flatten = roster
      ∧ (∀ c ∈ front, c.length = 50)
      ∧ roster.length = front.length * 50 + last.length
      ∧ 1 ≤ last.length ∧ last.length ≤ 50 := by
  obtain ⟨chunks, hsome, hflat, hsize, hfull⟩ := chunkMentions_spec roster 50 (by decide)
  have hchunks : chunks ≠ [] := by
    rintro rfl
    exact hne (by simpa using hflat.symm)
  have hsplit := List.dropLast_append_getLast hchunks
  have hlast := hsize _ (List.getLast_mem hchunks)
  refine ⟨chunks.dropLast, chunks.getLast hchunks, by rw [hsplit]; exact hsome,
    by rw [hsplit]; exact hflat, hfull, ?_, hlast.1, hlast.2⟩
  have hlen : roster.length = (chunks.dropLast ++ [chunks.getLast hchunks]).flatten.length := by
    rw [hsplit, hflat]
  rw [hlen, List.flatten_append, List.length_append, length_flatten_of_full _ 50 hfull]
  simp

set_option maxRecDepth 100000 in
/-- C13, as stated, fails: on a roster of 120 members with every send
succeeding, `notifyGroup` makes three calls of `chat.sendMessage`, with 50, 50
and 20 mentions, and no fourth call: there is no summary send without
mentions. -/
theorem notifyGroup_no_summary :
    (notifyGroup rosterEnv delivering emptyCache (groupOf 120) "Standup").map
        (fun d => (groupSends d.trace).map (fun s => s.2.map List.length))
      = some [some 50, some 50, some 20]
    ∧ ¬ (notifyGroup rosterEnv delivering emptyCache (groupOf 120) "Standup").map
        (fun d => (groupSends d.trace).length) = some 4 := by
  decide

/-- C13, amended: for every roster of `n > 0` members with all sends
succeeding, `notifyGroup` returns after exactly `ceil(n/50)` calls of
`chat.sendMessage`, whose mentions are the successive chunks of the roster in
order, and it makes no other send (no summary); for `n = 120` these are three
sends with 50, 50 and 20 mentions, in that order. -/
theorem notifyGroup_sends (env : ParticipantsEnv) (m : Messenger) (cache : ParticipantsCache)
    (chat : Chat) (messageText : String)
    (hne : (getParticipants env cache chat false).1 ≠ [])
    (hok : ∀ k text mentions, m.sendMessage k text mentions = .value ()) :
    ∃ chunks d, chunkMentions (getParticipants env cache chat false).1 50 = some chunks
      ∧ chunks.flatten = (getParticipants env cache chat false).1
      ∧ notifyGroup env m cache chat messageText = some d
      ∧ d.ret = .value ()
      ∧ (groupSends d.trace).map Prod.snd = chunks.map some
      ∧ (groupSends d.trace).length = ((getParticipants env cache chat false).1.length + 49) / 50
      ∧ ((getParticipants env cache chat false).1.length = 120 →
          (groupSends d.trace).map (fun s => s.2.map List.length)
            = [some 50, some 50, some 20]) := by
  obtain ⟨front, last, hsome, hflat, hfull, hlen, hlast1, hlast2⟩ :=
    chunkMentions_fifty _ hne
  have hlen0 : (getParticipants env cache chat false).1.length ≠ 0 := by
    intro h0; exact hne (List.length_eq_zero.1 h0)
  obtain ⟨hret, hsends⟩ := sendChunks_all_delivered m messageText (front ++ [last]).length hok
    (front ++ [last]) 0 []
  simp only [groupSends, List.map_nil, List.nil_append] at hsends
  have hcount : (groupSends (sendChunks m messageText (front ++ [last]).length 0
      (front ++ [last]) []).2).length = front.length + 1 := by
    have := congrArg List.length hsends
    simpa using this
  refine ⟨front ++ [last],
    ⟨(sendChunks m messageText (front ++ [last]).length 0 (front ++ [last]) []).1,
      (getParticipants env cache chat false).2,
      (sendChunks m messageText (front ++ [last]).length 0 (front ++ [last]) []).2⟩,
    hsome, hflat, ?_, hret, hsends, ?_, ?_⟩
  · simp only [notifyGroup, hlen0, if_false, hsome]
  · rw [hcount, hlen]; omega
  · intro h120
    have hfront : front.length = 2 := by omega
    have hlast : last.length = 20 := by omega
    have hmap : (groupSends (sendChunks m messageText (front ++ [last]).length 0
        (front ++ [last]) []).2).map (fun s => s.2.map List.length)
        = (front ++ [last]).map (fun c => some c.length) := by
      have := congrArg (List.map (Option.map List.length)) hsends
      simpa [List.map_map, Function.comp_def] using this
    rw [hmap]
    match front, hfront, hfull with
    | [a, b], _, hfull =>
      have ha := hfull a (by simp)
      have hb := hfull b (by simp)
      simp [ha, hb, hlast]

theorem notifyGroup_sends_witness :
    ∃ chunks d, chunkMentions (getParticipants rosterEnv emptyCache (groupOf 3) false).1 50
        = some chunks
      ∧ chunks.flatten = (getParticipants rosterEnv emptyCache (groupOf 3) false).1
      ∧ notifyGroup rosterEnv delivering emptyCache (groupOf 3) "Standup" = some d
      ∧ d.ret = .value ()
      ∧ (groupSends d.trace).map Prod.snd = chunks.map some
      ∧ (groupSends d.trace).length
          = ((getParticipants rosterEnv emptyCache (groupOf 3) false).1.length + 49) / 50
      ∧ ((getParticipants rosterEnv emptyCache (groupOf 3) false).1.length = 120 →
          (groupSends d.trace).map (fun s => s.2.map List.length)
            = [some 50, some 50, some 20]) :=
  notifyGroup_sends rosterEnv delivering emptyCache (groupOf 3) "Standup" (by decide)
    (fun _ _ _ => rfl)

/-- C14, as stated, fails: on a roster of 51 members, two chunks, when the
send of the first chunk fails, `notifyGroup` makes no send for the second
chunk and is rejected with the error of the failed send. -/
theorem notifyGroup_failure_ends_loop :
    (notifyGroup rosterEnv (failingAt 0) emptyCache (groupOf 51) "Standup").map
        (fun d => (d.ret, (groupSends d.trace).map (fun s => s.2.map List.length)))
      = some (.raised "send failed", [some 50]) := by
  decide

/-- C14, amended: for every roster split into `k` chunks and every `i < k`,
if the sends of the chunks before `i` succeed and the send of chunk `i` fails,
`notifyGroup` has sent the chunks `0..i` in order, one send each (no retry),
attempts no later chunk, and is rejected with the error of that send. -/
theorem notifyGroup_stops_at_failure (env : ParticipantsEnv) (m : Messenger)
    (cache : ParticipantsCache) (chat : Chat) (messageText : String)
    (chunks : List (List String)) (i : Nat) (error : String)
    (hchunks : chunkMentions (getParticipants env cache chat false).1 50 = some chunks)
    (hi : i < chunks.length)
    (hbefore : ∀ k, k < i → ∀ text mentions, m.sendMessage k text mentions = .value ())
    (hfail : ∀ text mentions, m.sendMessage i text mentions = .raised error) :
    ∃ d, notifyGroup env m cache chat messageText = some d
      ∧ d.ret = .raised error
      ∧ (groupSends d.trace).map Prod.snd = (chunks.take (i + 1)).map some
      ∧ (groupSends d.trace).length = i + 1 := by
  have hlen0 : (getParticipants env cache chat false).1.length ≠ 0 := by
    intro h0
    rw [List.length_eq_zero.1 h0] at hchunks
    simp only [chunkMentions, chunkLoop, List.length_nil, Nat.lt_irrefl, if_false,
      Option.some.injEq] at hchunks
    rw [← hchunks] at hi
    simp at hi
  obtain ⟨hret, hsends⟩ := sendChunks_stops_at_failure m messageText chunks.length i error
    hbefore hfail chunks 0 [] (Nat.zero_le _) (by omega)
  simp only [groupSends, List.map_nil, List.nil_append, Nat.sub_zero] at hsends
  refine ⟨⟨(sendChunks m messageText chunks.length 0 chunks []).1,
      (getParticipants env cache chat false).2,
      (sendChunks m messageText chunks.length 0 chunks []).2⟩, ?_, hret, hsends, ?_⟩
  · simp only [notifyGroup, hlen0, if_false, hchunks]
  · have := congrArg List.length hsends
    simp only [List.length_map, List.length_take] at this
    show (groupSends (sendChunks m messageText chunks.length 0 chunks []).2).length = i + 1
    omega

theorem notifyGroup_stops_at_failure_witness :
    ∃ d, notifyGroup rosterEnv (failingAt 0) emptyCache (groupOf 51) "Standup" = some d
      ∧ d.ret = .raised "send failed"
      ∧ (groupSends d.trace).map Prod.snd
          = ([(memberIds 51).take 50, (memberIds 51).drop 50].take (0 + 1)).map some
      ∧ (groupSends d.trace).length = 0 + 1 :=
  notifyGroup_stops_at_failure rosterEnv (failingAt 0) emptyCache (groupOf 51) "Standup"
    [(memberIds 51).take 50, (memberIds 51).drop 50] 0 "send failed" (by decide) (by decide)
    (fun k hk => absurd hk (Nat.not_lt_zero k)) (fun _ _ => rfl)

/-! ### Direct fan-out -/

theorem contactLookups_append (a b : List DispatchEvent) :
    contactLookups (a ++ b) = contactLookups a ++ contactLookups b := by
  induction a with
  | nil => rfl
  | cons e rest ih => cases e <;> simp [contactLookups, ih]

theorem contactSends_append (a b : List DispatchEvent) :
    contactSends (a ++ b) = contactSends a ++ contactSends b := by
  induction a with
  | nil => rfl
  | cons e rest ih => cases e <;> simp [contactSends, ih]

/-- One task: it looks the member up once, sends to the member once if the
contact was found, sends nothing to the target, and adds one to exactly one of
the two counters, to `failCount` exactly when the task fails. -/
theorem dmTask_spec (m : Messenger) (messageText : String) (k : Nat) (jid : String)
    (counts : Nat × Nat) (tr : List DispatchEvent) :
    (dmTask m messageText k jid counts tr).1.1 + (dmTask m messageText k jid counts tr).1.2
        = counts.1 + counts.2 + 1
      ∧ (dmTask m messageText k jid counts tr).1.2
        = counts.2 + (if dmFails m messageText k jid then 1 else 0)
      ∧ contactLookups (dmTask m messageText k jid counts tr).2 = contactLookups tr ++ [jid]
      ∧ groupSends (dmTask m messageText k jid counts tr).2 = groupSends tr
      ∧ contactSends (dmTask m messageText k jid counts tr).2
        = contactSends tr ++ (if contactFound m k jid then [jid] else []) := by
  unfold dmTask dmFails contactFound
  cases m.getContactById k jid with
  | raised e =>
    simp [contactLookups_append, contactLookups, groupSends_append, groupSends,
      contactSends_append, contactSends]
    omega
  | value u =>
    cases m.contactSendMessage k jid messageText with
    | value v =>
      simp only [contactLookups_append, contactLookups, groupSends_append, groupSends,
        contactSends_append, contactSends, List.append_nil, Bool.false_eq_true, if_false,
        Nat.add_zero, if_true, and_true, true_and]
      omega
    | raised e =>
      simp only [contactLookups_append, contactLookups, groupSends_append, groupSends,
        contactSends_append, contactSends, List.append_nil, if_true, and_true,
        true_and]
      omega

/-- All the tasks: one lookup per member in roster order, one send to each
member whose contact was found, nothing sent to the target, and the counters
add up. -/
theorem dmTasks_spec (m : Messenger) (messageText : String) :
    ∀ (rest : List String) (k : Nat) (counts : Nat × Nat) (tr : List DispatchEvent),
      (dmTasks m messageText k rest counts tr).1.1 + (dmTasks m messageText k rest counts tr).1.2
          = counts.1 + counts.2 + rest.length
        ∧ (dmTasks m messageText k rest counts tr).1.2
          = counts.2 + failingCount m messageText k rest
        ∧ contactLookups (dmTasks m messageText k rest counts tr).2
          = contactLookups tr ++ rest
        ∧ groupSends (dmTasks m messageText k rest counts tr).2 = groupSends tr
        ∧ contactSends (dmTasks m messageText k rest counts tr).2
          = contactSends tr ++ foundContacts m k rest := by
  intro rest
  induction rest with
  | nil =>
    intro k counts tr
    simp [dmTasks, failingCount, foundContacts]
  | cons jid rest ih =>
    intro k counts tr
    obtain ⟨hsum, hfail, hlook, hgroup, hsend⟩ := dmTask_spec m messageText k jid counts tr
    obtain ⟨isum, ifail, ilook, igroup, isend⟩ :=
      ih (k + 1) (dmTask m messageText k jid counts tr).1 (dmTask m messageText k jid counts tr).2
    simp only [dmTasks, failingCount, foundContacts, List.length_cons]
    exact ⟨by omega, by omega, by rw [ilook, hlook]; simp, by rw [igroup, hgroup],
      by rw [isend, hsend]; simp⟩

/-- The members whose contact is found are members of the roster, in roster
order, each at most once per place in the roster. -/
theorem foundContacts_sublist (m : Messenger) :
    ∀ (rest : List String) (k : Nat), (foundContacts m k rest).Sublist rest
  | [], _ => by simp [foundContacts]
  | jid :: rest, k => by
    have ih := foundContacts_sublist m rest (k + 1)
    simp only [foundContacts]
    split
    · exact ih.cons₂ jid
    · exact ih.cons jid

/-- When every lookup returns a contact, every member's contact is found. -/
theorem foundContacts_of_all_found (m : Messenger)
    (hfound : ∀ k jid, m.getContactById k jid = .value ()) :
    ∀ (rest : List String) (k : Nat), foundContacts m k rest = rest
  | [], _ => by simp [foundContacts]
  | jid :: rest, k => by
    simp [foundContacts, contactFound, hfound, foundContacts_of_all_found m hfound rest (k + 1)]

/-- C15 (the claim fails): on the roster of three members with the contact
lookup of the second one failing, `notifyDM` looks up all three but attempts a
send to the first and the third only: no send to `628101@c.us` is attempted,
so the sends are two for a roster of three, not one per roster member.  The
summary counts 2 sent and 1 failed. -/
theorem notifyDM_no_send_without_contact :
    (getParticipants rosterEnv emptyCache (groupOf 3) false).1
        = ["628100@c.us", "628101@c.us", "628102@c.us"]
      ∧ contactLookups (notifyDM rosterEnv (failingAt 1) emptyCache (groupOf 3) "Standup").trace
        = ["628100@c.us", "628101@c.us", "628102@c.us"]
      ∧ contactSends (notifyDM rosterEnv (failingAt 1) emptyCache (groupOf 3) "Standup").trace
        = ["628100@c.us", "628102@c.us"]
      ∧ (contactSends
          (notifyDM rosterEnv (failingAt 1) emptyCache (groupOf 3) "Standup").trace).length
        ≠ (getParticipants rosterEnv emptyCache (groupOf 3) false).1.length
      ∧ groupSends (notifyDM rosterEnv (failingAt 1) emptyCache (groupOf 3) "Standup").trace
        = [("✅ Pengingat telah dikirim via DM ke 2 anggota.\n⚠️ 1 gagal terkirim.", none)] := by
  decide

/-- C15 (amended): for every non-empty roster and every way the contact
lookups and sends fail, `notifyDM` runs exactly one task per roster member, in
roster order: one contact lookup each, followed by one send to the member
exactly when the lookup returned a contact (so one send to every member when
every lookup succeeds, and none to a member whose lookup failed);
the counters end with `successCount + failCount` equal
to the roster length and `failCount` equal to the number of members whose
lookup or send fails; and its last call, the only `chat.sendMessage` of the
run, is the summary with those counts and without mentions, whose result is
the result of `notifyDM`. -/
theorem notifyDM_accounting (env : ParticipantsEnv) (m : Messenger)
    (cache : ParticipantsCache) (chat : Chat) (messageText : String)
    (hne : (getParticipants env cache chat false).1 ≠ []) :
    ∃ successCount failCount tasksTrace,
      dmTasks m messageText 0 (getParticipants env cache chat false).1 (0, 0) []
          = ((successCount, failCount), tasksTrace)
        ∧ successCount + failCount = (getParticipants env cache chat false).1.length
        ∧ failCount = failingCount m messageText 0 (getParticipants env cache chat false).1
        ∧ contactLookups tasksTrace = (getParticipants env cache chat false).1
        ∧ contactSends tasksTrace
          = foundContacts m 0 (getParticipants env cache chat false).1
        ∧ (contactSends tasksTrace).Sublist (getParticipants env cache chat false).1
        ∧ ((∀ k jid, m.getContactById k jid = .value ()) →
            contactSends tasksTrace = (getParticipants env cache chat false).1)
        ∧ groupSends tasksTrace = []
        ∧ (notifyDM env m cache chat messageText).trace
          = tasksTrace ++ [.sendMessage (dmSummary successCount failCount) none]
        ∧ groupSends (notifyDM env m cache chat messageText).trace
          = [(dmSummary successCount failCount, none)]
        ∧ (notifyDM env m cache chat messageText).ret
          = m.sendMessage 0 (dmSummary successCount failCount) none := by
  have hlen0 : (getParticipants env cache chat false).1.length ≠ 0 := by
    intro h0; exact hne (List.length_eq_zero.1 h0)
  obtain ⟨hsum, hfail, hlook, hgroup, hsend⟩ :=
    dmTasks_spec m messageText (getParticipants env cache chat false).1 0 (0, 0) []
  simp only [contactLookups, contactSends, groupSends, List.nil_append, Nat.zero_add]
    at hsum hfail hlook hgroup hsend
  refine ⟨_, _, _, rfl, hsum, hfail, hlook, hsend,
    by rw [hsend]; exact foundContacts_sublist m _ 0, ?_, hgroup, ?_, ?_, ?_⟩
  · intro hfound
    rw [hsend]
    exact foundContacts_of_all_found m hfound _ 0
  · simp only [notifyDM, hlen0, if_false]
  · simp only [notifyDM, hlen0, if_false, groupSends_append, hgroup, groupSends,
      List.nil_append]
  · simp only [notifyDM, hlen0, if_false]

theorem notifyDM_accounting_witness :
    (notifyDM rosterEnv (failingAt 1) emptyCache (groupOf 3) "Standup").trace
      = [.getContactById "628100@c.us", .contactSendMessage "628100@c.us" "Standup",
          .getContactById "628101@c.us",
          .getContactById "628102@c.us", .contactSendMessage "628102@c.us" "Standup",
          .sendMessage "✅ Pengingat telah dikirim via DM ke 2 anggota.\n⚠️ 1 gagal terkirim."
            none] := by
  obtain ⟨successCount, failCount, tasksTrace, hrun, _, _, _, _, _, _, _, htrace, _⟩ :=
    notifyDM_accounting rosterEnv (failingAt 1) emptyCache (groupOf 3) "Standup" (by decide)
  have hconcrete : dmTasks (failingAt 1) "Standup" 0
      (getParticipants rosterEnv emptyCache (groupOf 3) false).1 (0, 0) []
      = ((2, 1), [.getContactById "628100@c.us", .contactSendMessage "628100@c.us" "Standup",
          .getContactById "628101@c.us",
          .getContactById "628102@c.us", .contactSendMessage "628102@c.us" "Standup"]) := by
    decide
  rw [hconcrete] at hrun
  cases hrun
  rw [htrace]
  decide

/-! ### The cron tasks -/

theorem length_stopTask : ∀ (handle : Nat) (tasks : List CronTask),
    (stopTask handle tasks).length = tasks.length
  | 0, [] => rfl
  | _ + 1, [] => rfl
  | 0, _ :: _ => rfl
  | handle + 1, _ :: rest => by simp [stopTask, length_stopTask handle rest]

/-- Stopping a task does not start any. -/
theorem activeCount_stopTask_le : ∀ (handle : Nat) (tasks : List CronTask),
    activeCount (stopTask handle tasks) ≤ activeCount tasks
  | _, [] => by simp [stopTask]
  | 0, task :: rest => by
    simp only [stopTask, activeCount, List.countP_cons]
    simp
  | handle + 1, task :: rest => by
    have ih := activeCount_stopTask_le handle rest
    simp only [stopTask, activeCount, List.countP_cons] at ih ⊢
    omega

/-- Stopping a task stops at most one. -/
theorem activeCount_le_stopTask : ∀ (handle : Nat) (tasks : List CronTask),
    activeCount tasks ≤ activeCount (stopTask handle tasks) + 1
  | _, [] => by simp [stopTask]
  | 0, task :: rest => by
    simp only [stopTask, activeCount, List.countP_cons]
    split <;> simp
  | handle + 1, task :: rest => by
    have ih := activeCount_le_stopTask handle rest
    simp only [stopTask, activeCount, List.countP_cons] at ih ⊢
    omega

/-- Stopping the task created last, when no task before it runs, leaves no
task running. -/
theorem activeCount_stop_last (tasks : List CronTask) (task : CronTask)
    (hnone : activeCount tasks = 0) :
    activeCount (stopTask tasks.length (tasks ++ [task])) = 0 := by
  induction tasks with
  | nil => simp [stopTask, activeCount]
  | cons t rest ih =>
    simp only [activeCount, List.countP_cons] at hnone
    have hrest : activeCount rest = 0 := by simp only [activeCount]; omega
    have := ih hrest
    simp only [activeCount] at this
    simp only [List.length_cons, List.cons_append, stopTask, activeCount, List.countP_cons,
      List.append_eq]
    omega

/-- When no task runs, the running tasks after one more is created are that
one alone. -/
theorem filter_running_append (tasks : List CronTask) (expression : String)
    (hnone : activeCount tasks = 0) :
    (tasks ++ [({ expression := expression, running := true } : CronTask)]).filter
        (fun t => t.running)
      = [{ expression := expression, running := true }] := by
  have hnil : tasks.filter (fun t => t.running) = [] := by
    rw [List.filter_eq_nil_iff]
    exact List.countP_eq_zero.1 hnone
  simp [List.filter_append, hnil]

/-! ### `scheduler.js` -/

/-- What holds of the scheduler in every state it reaches: the only task that
can be running is the one whose handle `scheduledTask` holds. -/
theorem schedulerStep_keeps (cron : Cron) (st : SchedulerState) (op : SchedulerOp)
    (hinv : match st.scheduledTask with
      | none => activeCount st.cronTasks = 0
      | some handle => activeCount (stopTask handle st.cronTasks) = 0) :
    match (schedulerStep cron st op).scheduledTask with
    | none => activeCount (schedulerStep cron st op).cronTasks = 0
    | some handle => activeCount (stopTask handle (schedulerStep cron st op).cronTasks) = 0 := by
  obtain ⟨handle, tasks⟩ := st
  cases op with
  | stop =>
    cases handle with
    | none => simpa [schedulerStep, stopScheduler] using hinv
    | some h => simpa [schedulerStep, stopScheduler] using hinv
  | start dcfg =>
    cases handle with
    | some h => simpa [schedulerStep, startScheduler] using hinv
    | none =>
      simp only at hinv
      by_cases hvalid : cron.validate dcfg.CRON_EXPRESSION = true
      · simp only [schedulerStep, startScheduler, cronSchedule, hvalid, Option.isSome_none,
          Bool.false_eq_true, if_false, Bool.not_true, if_true]
        exact activeCount_stop_last tasks _ hinv
      · simp only [Bool.not_eq_true] at hvalid
        simpa [schedulerStep, startScheduler, hvalid] using hinv

theorem schedulerRun_keeps (cron : Cron) :
    ∀ (ops : List SchedulerOp) (st : SchedulerState),
      (match st.scheduledTask with
        | none => activeCount st.cronTasks = 0
        | some handle => activeCount (stopTask handle st.cronTasks) = 0) →
      match (schedulerRun cron st ops).scheduledTask with
      | none => activeCount (schedulerRun cron st ops).cronTasks = 0
      | some handle => activeCount (stopTask handle (schedulerRun cron st ops).cronTasks) = 0
  | [], st, hinv => by simpa [schedulerRun] using hinv
  | op :: ops, st, hinv => by
    have hstep := schedulerStep_keeps cron st op hinv
    have := schedulerRun_keeps cron ops (schedulerStep cron st op) hstep
    simpa [schedulerRun] using this

/-- C17: for every cadence expression that `cron.validate` rejects,
`startScheduler` called while `scheduledTask` is `null` returns without
raising, creates no task and leaves the state as it was, `scheduledTask` still
`null`. -/
theorem startScheduler_invalid (cron : Cron) (dcfg : DispatchConfig) (st : SchedulerState)
    (hstopped : st.scheduledTask = none)
    (hinvalid : cron.validate dcfg.CRON_EXPRESSION = false) :
    (startScheduler cron dcfg st).1 = .value ()
      ∧ (startScheduler cron dcfg st).2 = st
      ∧ (startScheduler cron dcfg st).2.scheduledTask = none
      ∧ (startScheduler cron dcfg st).2.cronTasks = st.cronTasks := by
  have hrun : startScheduler cron dcfg st = (.value (), st) := by
    simp [startScheduler, hstopped, hinvalid]
  rw [hrun]
  exact ⟨rfl, rfl, hstopped, rfl⟩

theorem startScheduler_invalid_witness :
    (startScheduler twoCadences
        { CRON_EXPRESSION := "not-a-cron", MENTION_MODE := "visible", MESSAGE_TEXT := "Standup" }
        initialScheduler).2 = initialScheduler :=
  (startScheduler_invalid twoCadences
    { CRON_EXPRESSION := "not-a-cron", MENTION_MODE := "visible", MESSAGE_TEXT := "Standup" }
    initialScheduler rfl (by decide)).2.1

/-- C18: when `scheduledTask` holds a task, `startScheduler` returns at once:
it creates no task and leaves the state, the handle included, as it was; a
second `startScheduler` right after a first changes nothing, so two starts
leave the state of one; and in every state reached from the initial one by
calls of `startScheduler` and `stopScheduler` at most one task is running. -/
theorem startScheduler_idempotent (cron : Cron) :
    (∀ (dcfg : DispatchConfig) (st : SchedulerState) (handle : Nat),
        st.scheduledTask = some handle → startScheduler cron dcfg st = (.value (), st))
      ∧ (∀ (dcfg : DispatchConfig) (st : SchedulerState),
          startScheduler cron dcfg (startScheduler cron dcfg st).2
            = (.value (), (startScheduler cron dcfg st).2))
      ∧ (∀ (ops : List SchedulerOp),
          activeCount (schedulerRun cron initialScheduler ops).cronTasks ≤ 1) := by
  refine ⟨?_, ?_, ?_⟩
  · intro dcfg st handle hactive
    simp [startScheduler, hactive]
  · intro dcfg st
    obtain ⟨handle, tasks⟩ := st
    cases handle with
    | some h => simp [startScheduler]
    | none =>
      by_cases hvalid : cron.validate dcfg.CRON_EXPRESSION = true
      · simp [startScheduler, cronSchedule, hvalid]
      · simp only [Bool.not_eq_true] at hvalid
        simp [startScheduler, hvalid]
  · intro ops
    have hinv := schedulerRun_keeps cron ops initialScheduler (by simp [initialScheduler, activeCount])
    cases hhandle : (schedulerRun cron initialScheduler ops).scheduledTask with
    | none =>
      rw [hhandle] at hinv
      simp only at hinv
      omega
    | some h =>
      rw [hhandle] at hinv
      simp only at hinv
      have := activeCount_le_stopTask h (schedulerRun cron initialScheduler ops).cronTasks
      omega

theorem startScheduler_idempotent_witness :
    startScheduler twoCadences weekdayConfig activeScheduler = (.value (), activeScheduler) :=
  (startScheduler_idempotent twoCadences).1 weekdayConfig activeScheduler 0 rfl

/-! ### `schedulerService.js` -/

/-- `startWeeklyNotification` stops the task of the entry before it creates
the new one: whether `cron.schedule` returns or throws, the state it leaves
satisfies `ServiceInv`; it changes nothing of `config`; and with a cadence
that `cron.validate` accepts it returns, and the one running task afterwards
is a task created with that cadence. -/
theorem startWeeklyNotification_spec (cron : Cron) (s : SchedulerService)
    (hinv : ServiceInv s) :
    ServiceInv (startWeeklyNotification cron s).2
      ∧ (startWeeklyNotification cron s).2.config = s.config
      ∧ (cron.validate s.config.schedule = true →
          (startWeeklyNotification cron s).1 = .value ()
            ∧ (startWeeklyNotification cron s).2.cronTasks.filter (fun t => t.running)
              = [{ expression := s.config.schedule, running := true }]) := by
  obtain ⟨config, tasks, ws, cronTasks⟩ := s
  rcases hinv with ⟨hempty, hnone⟩ | ⟨handle, hentry, hnone⟩
  · simp only at hempty hnone
    subst hempty
    by_cases hvalid : cron.validate config.schedule = true
    · refine ⟨Or.inr ⟨cronTasks.length, ?_, ?_⟩, ?_, ?_⟩
      · simp [startWeeklyNotification, cronSchedule, hvalid, List.lookup, mapSet]
      · simp only [startWeeklyNotification, cronSchedule, hvalid, List.lookup, if_true]
        exact activeCount_stop_last cronTasks _ hnone
      · simp [startWeeklyNotification, cronSchedule, hvalid, List.lookup]
      · intro _
        simp only [startWeeklyNotification, cronSchedule, hvalid, List.lookup, if_true,
          true_and]
        exact filter_running_append cronTasks config.schedule hnone
    · simp only [Bool.not_eq_true] at hvalid
      refine ⟨Or.inl ?_, ?_, ?_⟩
      · simpa [startWeeklyNotification, cronSchedule, hvalid, List.lookup] using hnone
      · simp [startWeeklyNotification, cronSchedule, hvalid, List.lookup]
      · intro h; rw [hvalid] at h; cases h
  · simp only at hentry hnone
    subst hentry
    have hlen := length_stopTask handle cronTasks
    by_cases hvalid : cron.validate config.schedule = true
    · refine ⟨Or.inr ⟨(stopTask handle cronTasks).length, ?_, ?_⟩, ?_, ?_⟩
      · simp [startWeeklyNotification, cronSchedule, hvalid, List.lookup, mapSet]
      · simp only [startWeeklyNotification, cronSchedule, hvalid, List.lookup, beq_self_eq_true,
          if_true]
        exact activeCount_stop_last (stopTask handle cronTasks) _ hnone
      · simp [startWeeklyNotification, cronSchedule, hvalid, List.lookup]
      · intro _
        simp only [startWeeklyNotification, cronSchedule, hvalid, List.lookup, beq_self_eq_true,
          if_true, true_and]
        exact filter_running_append (stopTask handle cronTasks) config.schedule hnone
    · simp only [Bool.not_eq_true] at hvalid
      refine ⟨Or.inr ⟨handle, ?_, ?_⟩, ?_, ?_⟩
      · simp [startWeeklyNotification, cronSchedule, hvalid, List.lookup]
      · simp only [startWeeklyNotification, cronSchedule, hvalid, List.lookup, beq_self_eq_true,
          Bool.false_eq_true, if_false]
        have := activeCount_stopTask_le handle (stopTask handle cronTasks)
        omega
      · simp [startWeeklyNotification, cronSchedule, hvalid, List.lookup]
      · intro h; rw [hvalid] at h; cases h

/-- Every call keeps `ServiceInv` and the flag `enabled`. -/
theorem serviceStep_keeps (cron : Cron) (s : SchedulerService) (op : ServiceOp)
    (hinv : ServiceInv s) :
    ServiceInv (serviceStep cron s op)
      ∧ (serviceStep cron s op).config.enabled = s.config.enabled := by
  cases op with
  | init =>
    simp only [serviceStep, serviceInitialize]
    split
    · have h := startWeeklyNotification_spec cron { s with whatsappService := true } hinv
      exact ⟨h.1, by rw [h.2.1]⟩
    · exact ⟨hinv, rfl⟩
  | updateSchedule c m g =>
    simp only [serviceStep, updateSchedule]
    have h := startWeeklyNotification_spec cron
      { s with config := { s.config with schedule := c, message := m, groupJid := g } } hinv
    exact ⟨h.1, by rw [h.2.1]⟩
  | stop =>
    refine ⟨Or.inl ?_, rfl⟩
    rcases hinv with ⟨hempty, hnone⟩ | ⟨handle, hentry, hnone⟩
    · simp [serviceStep, serviceStop, hempty, hnone]
    · simp [serviceStep, serviceStop, hentry, hnone]

theorem serviceRun_keeps (cron : Cron) :
    ∀ (ops : List ServiceOp) (s : SchedulerService), ServiceInv s →
      ServiceInv (serviceRun cron s ops)
        ∧ (serviceRun cron s ops).config.enabled = s.config.enabled
  | [], s, hinv => ⟨by simpa [serviceRun] using hinv, by simp [serviceRun]⟩
  | op :: ops, s, hinv => by
    have hstep := serviceStep_keeps cron s op hinv
    have hrest := serviceRun_keeps cron ops (serviceStep cron s op) hstep.1
    simp only [serviceRun, List.foldl_cons] at hrest ⊢
    exact ⟨hrest.1, by rw [hrest.2, hstep.2]⟩

/-- C19: for every sequence of `initialize`, `updateSchedule` and `stop` calls
on the service as the constructor builds it, whatever the cadences, at most
one cron task is created and not stopped; and after an `updateSchedule(c, m,
g)` with a cadence `c` that the library accepts, exactly one is, created with
the cadence `c`, and the configuration has `schedule = c`, `message = m` and
`groupJid = g`, its flag `enabled` being the constructor's. -/
theorem updateSchedule_single_task (cron : Cron) (config : ServiceConfig) :
    (∀ (ops : List ServiceOp),
        activeCount (serviceRun cron (newSchedulerService config) ops).cronTasks ≤ 1)
      ∧ (∀ (ops : List ServiceOp) (c m g : String), cron.validate c = true →
          activeCount (serviceRun cron (newSchedulerService config)
              (ops ++ [.updateSchedule c m g])).cronTasks = 1
            ∧ (serviceRun cron (newSchedulerService config)
                (ops ++ [.updateSchedule c m g])).cronTasks.filter (fun t => t.running)
              = [{ expression := c, running := true }]
            ∧ (serviceRun cron (newSchedulerService config)
                (ops ++ [.updateSchedule c m g])).config
              = { schedule := c, message := m, groupJid := g, enabled := config.enabled }) := by
  have hnew : ServiceInv (newSchedulerService config) :=
    Or.inl ⟨rfl, by simp [newSchedulerService, activeCount]⟩
  constructor
  · intro ops
    rcases (serviceRun_keeps cron ops _ hnew).1 with ⟨_, hnone⟩ | ⟨handle, _, hnone⟩
    · omega
    · have := activeCount_le_stopTask handle
        (serviceRun cron (newSchedulerService config) ops).cronTasks
      omega
  · intro ops c m g hvalid
    obtain ⟨hinv, henabled⟩ := serviceRun_keeps cron ops _ hnew
    have hspec := startWeeklyNotification_spec cron
      { serviceRun cron (newSchedulerService config) ops with config :=
        { (serviceRun cron (newSchedulerService config) ops).config with
          schedule := c, message := m, groupJid := g } } hinv
    obtain ⟨_, hconfig, hvalidrun⟩ := hspec
    have hrun : serviceRun cron (newSchedulerService config) (ops ++ [.updateSchedule c m g])
        = (startWeeklyNotification cron
            { serviceRun cron (newSchedulerService config) ops with config :=
              { (serviceRun cron (newSchedulerService config) ops).config with
                schedule := c, message := m, groupJid := g } }).2 := by
      simp [serviceRun, List.foldl_append, serviceStep, updateSchedule]
    have hfilter := (hvalidrun hvalid).2
    rw [hrun]
    refine ⟨?_, hfilter, ?_⟩
    · have hcount := congrArg List.length hfilter
      simpa [activeCount, List.countP_eq_length_filter] using hcount
    · rw [hconfig]
      show ({ groupJid := g, message := m, schedule := c,
              enabled := (serviceRun cron (newSchedulerService config) ops).config.enabled }
            : ServiceConfig) = _
      rw [henabled]
      rfl

theorem updateSchedule_single_task_witness :
    activeCount (serviceRun twoCadences (newSchedulerService defaultServiceConfig)
        ([.init, .stop, .init] ++ [.updateSchedule "0 8 * * 1-5" "Standup" "120363@g.us"])).cronTasks
      = 1 :=
  ((updateSchedule_single_task twoCadences defaultServiceConfig).2 [.init, .stop, .init]
    "0 8 * * 1-5" "Standup" "120363@g.us" (by decide)).1

/-! ### `runNotification` -/

/-- With 50 per chunk `chunkMentions` returns, so `notifyGroup` does. -/
theorem notifyGroup_returns (env : ParticipantsEnv) (m : Messenger) (cache : ParticipantsCache)
    (chat : Chat) (messageText : String) :
    ∃ d, notifyGroup env m cache chat messageText = some d := by
  obtain ⟨chunks, hsome, _⟩ :=
    chunkMentions_spec (getParticipants env cache chat false).1 50 (by decide)
  unfold notifyGroup
  simp only [hsome]
  split
  · exact ⟨_, rfl⟩
  · exact ⟨_, rfl⟩

/-- The part of a run after the resolution returns and leaves the scheduler's
state alone. -/
theorem dispatchResolved_returns (dcfg : DispatchConfig) (env : RunEnv) (st : AppState)
    (resolverTrace : List Event) (targetChat : Chat) :
    ∃ run, dispatchResolved dcfg env st resolverTrace targetChat = some run
      ∧ run.st.scheduler = st.scheduler := by
  unfold dispatchResolved
  cases env.timeVariables with
  | raised e => exact ⟨_, rfl, rfl⟩
  | value vars =>
    simp only
    split
    · obtain ⟨d, hd⟩ := notifyGroup_returns env.participants env.messenger st.participantsCache
        targetChat (fillMessageTemplate vars dcfg.MESSAGE_TEXT)
      rw [hd]
      exact ⟨_, rfl, rfl⟩
    · split
      · exact ⟨_, rfl, rfl⟩
      · exact ⟨_, rfl, rfl⟩

/-- The body of the `try` returns or raises and leaves the scheduler's state
alone. -/
theorem runNotificationBody_returns (cfg : Config) (dcfg : DispatchConfig) (env : RunEnv)
    (st : AppState) :
    ∃ run, runNotificationBody cfg dcfg env st = some run
      ∧ run.st.scheduler = st.scheduler := by
  unfold runNotificationBody
  split
  · exact ⟨_, rfl, rfl⟩
  · split
    · exact ⟨_, rfl, rfl⟩
    · next client _ =>
      simp only
      split
      · exact ⟨_, rfl, rfl⟩
      · exact ⟨_, rfl, rfl⟩
      · next targetChat _ =>
        exact dispatchResolved_returns dcfg env _ _ targetChat

/-- C20: for every readiness of the client, every behaviour of the messaging
client, of the MongoDB driver, of the date formatting and of the sends, any of
them raising included, `runNotification` returns without raising and leaves
the scheduler's state, the handle `scheduledTask` included, as it was. -/
theorem runNotification_never_raises (cfg : Config) (dcfg : DispatchConfig) (env : RunEnv)
    (st : AppState) :
    ∃ run, runNotification cfg dcfg env st = some run
      ∧ run.ret = .value ()
      ∧ run.st.scheduler = st.scheduler
      ∧ run.st.scheduler.scheduledTask = st.scheduler.scheduledTask := by
  obtain ⟨body, hbody, hsched⟩ := runNotificationBody_returns cfg dcfg env st
  unfold runNotification
  rw [hbody]
  simp only
  cases hret : body.ret with
  | value u => exact ⟨body, rfl, hret, hsched, by rw [hsched]⟩
  | raised e => exact ⟨{ body with ret := .value () }, rfl, rfl, hsched, by rw [hsched]⟩

/-- The `catch` of `runNotification` at work: with only a group name
configured and a client whose enumeration is rejected, the body of the `try`
raises that error, and `runNotification` returns. -/
theorem runNotification_catches :
    (runNotificationBody { GROUP_ID := none, GROUP_NAME := some "Standup Team" } weekdayConfig
        failingRunEnv scheduledApp).map (fun run => run.ret)
      = some (.raised "Evaluation failed")
    ∧ (runNotification { GROUP_ID := none, GROUP_NAME := some "Standup Team" } weekdayConfig
        failingRunEnv scheduledApp).map (fun run => (run.ret, run.st.scheduler))
      = some (.value (), activeScheduler) := by
  decide

/-! ### Template substitution -/

theorem replaceAllFrom_skip (p r : List Char) :
    ∀ (xs rest : List Char),
      replaceAllFrom p r xs.length (xs ++ rest) = replaceAllFrom p r 0 rest
  | [], rest => by cases rest <;> rfl
  | _ :: xs, rest => by
    simp only [List.length_cons, List.cons_append, replaceAllFrom]
    exact replaceAllFrom_skip p r xs rest

theorem replaceAllFrom_step (p r : List Char) (c : Char) (rest : List Char) :
    replaceAllFrom p r 0 (c :: rest)
      = if p.isPrefixOf (c :: rest) then r ++ replaceAllFrom p r (p.length - 1) rest
        else c :: replaceAllFrom p r 0 rest := by
  rw [replaceAllFrom]

/-- At an occurrence of the pattern the replacement is written and the pass
goes on behind the occurrence. -/
theorem replaceAllFrom_match (c : Char) (p r rest : List Char) :
    replaceAllFrom (c :: p) r 0 (c :: p ++ rest) = r ++ replaceAllFrom (c :: p) r 0 rest := by
  have hpre : (c :: p).isPrefixOf (c :: (p ++ rest)) = true := by
    rw [List.isPrefixOf_iff_prefix]
    exact ⟨rest, rfl⟩
  show replaceAllFrom (c :: p) r 0 (c :: (p ++ rest)) = _
  rw [replaceAllFrom_step, if_pos hpre]
  simp only [List.length_cons, Nat.add_sub_cancel]
  rw [replaceAllFrom_skip]

/-- A character at which the pattern does not occur is copied. -/
theorem replaceAllFrom_copy (p r : List Char) (c : Char) (rest : List Char)
    (hno : ¬ p <+: c :: rest) :
    replaceAllFrom p r 0 (c :: rest) = c :: replaceAllFrom p r 0 rest := by
  have hpre : p.isPrefixOf (c :: rest) = false := by
    rw [← Bool.not_eq_true, List.isPrefixOf_iff_prefix]
    exact hno
  simp [replaceAllFrom, hpre]

/-- Text without an opening brace passes unchanged through the replacement of
a pattern that begins with one. -/
theorem replaceAllFrom_plain (p r : List Char) :
    ∀ (text rest : List Char), (∀ c ∈ text, c ≠ '\x7b') →
      replaceAllFrom ('\x7b' :: p) r 0 (text ++ rest)
        = text ++ replaceAllFrom ('\x7b' :: p) r 0 rest
  | [], _, _ => rfl
  | c :: text, rest, hplain => by
    have hc : c ≠ '\x7b' := hplain c (List.mem_cons_self _ _)
    have hno : ¬ ('\x7b' :: p) <+: c :: (text ++ rest) := by
      rintro ⟨t, ht⟩
      simp only [List.cons_append, List.cons.injEq] at ht
      exact hc ht.1.symm
    rw [List.cons_append, replaceAllFrom_copy _ _ _ _ hno,
      replaceAllFrom_plain p r text rest (fun d hd => hplain d (List.mem_cons_of_mem _ hd))]
    rfl

/-- What begins the result of a replacement begins its input, when the
replacement begins with a character foreign to it. -/
theorem prefix_of_prefix_replaceAllFrom (c : Char) (p : List Char) (a : Char) (r : List Char) :
    ∀ (q x : List Char), a ∉ q → q <+: replaceAllFrom (c :: p) (a :: r) 0 x → q <+: x
  | [], x, _, _ => List.nil_prefix
  | b :: q, [], _, h => by simp [replaceAllFrom] at h
  | b :: q, d :: x, hq, h => by
    by_cases hocc : (c :: p) <+: d :: x
    · obtain ⟨rest, hrest⟩ := hocc
      rw [← hrest, replaceAllFrom_match] at h
      obtain ⟨t, ht⟩ := h
      simp only [List.cons_append, List.cons.injEq] at ht
      exact absurd (by rw [ht.1]; exact List.mem_cons_self _ _) hq
    · rw [replaceAllFrom_copy _ _ _ _ hocc] at h
      obtain ⟨t, ht⟩ := h
      simp only [List.cons_append, List.cons.injEq] at ht
      have hrec := prefix_of_prefix_replaceAllFrom c p a r q x
        (fun hmem => hq (List.mem_cons_of_mem _ hmem)) ⟨t, ht.2⟩
      obtain ⟨u, hu⟩ := hrec
      exact ⟨u, by rw [List.cons_append, hu, ht.1]⟩

theorem substituteFrom_skip (vars : TimeVariables) :
    ∀ (xs rest : List Char),
      substituteFrom vars xs.length (xs ++ rest) = substituteFrom vars 0 rest
  | [], rest => by cases rest <;> rfl
  | _ :: xs, rest => by
    simp only [List.length_cons, List.cons_append, substituteFrom]
    exact substituteFrom_skip vars xs rest

theorem substituteFrom_step (vars : TimeVariables) (c : Char) (rest : List Char) :
    substituteFrom vars 0 (c :: rest)
      = if "\x7b\x7bdate\x7d\x7d".data.isPrefixOf (c :: rest) then
          vars.date.data ++ substituteFrom vars 7 rest
        else if "\x7b\x7btime\x7d\x7d".data.isPrefixOf (c :: rest) then
          vars.time.data ++ substituteFrom vars 7 rest
        else if "\x7b\x7bweekday_id\x7d\x7d".data.isPrefixOf (c :: rest) then
          vars.weekday_id.data ++ substituteFrom vars 13 rest
        else
          c :: substituteFrom vars 0 rest := by
  rw [substituteFrom]

theorem datePlaceholder_data :
    "\x7b\x7bdate\x7d\x7d".data = ['\x7b', '\x7b', 'd', 'a', 't', 'e', '\x7d', '\x7d'] := rfl

theorem timePlaceholder_data :
    "\x7b\x7btime\x7d\x7d".data = ['\x7b', '\x7b', 't', 'i', 'm', 'e', '\x7d', '\x7d'] := rfl

theorem weekdayPlaceholder_data :
    "\x7b\x7bweekday_id\x7d\x7d".data
      = ['\x7b', '\x7b', 'w', 'e', 'e', 'k', 'd', 'a', 'y', '_', 'i', 'd', '\x7d', '\x7d'] := rfl

/-- The one pass at an occurrence of the date placeholder. -/
theorem substituteFrom_date (vars : TimeVariables) (rest : List Char) :
    substituteFrom vars 0 (['\x7b', '\x7b', 'd', 'a', 't', 'e', '\x7d', '\x7d'] ++ rest)
      = vars.date.data ++ substituteFrom vars 0 rest := by
  have hskip := substituteFrom_skip vars ['\x7b', 'd', 'a', 't', 'e', '\x7d', '\x7d'] rest
  simp only [List.cons_append, List.nil_append, List.length_cons, List.length_nil] at hskip
  simp [substituteFrom_step, datePlaceholder_data, List.isPrefixOf, hskip]

/-- The one pass at an occurrence of the time placeholder. -/
theorem substituteFrom_time (vars : TimeVariables) (rest : List Char) :
    substituteFrom vars 0 (['\x7b', '\x7b', 't', 'i', 'm', 'e', '\x7d', '\x7d'] ++ rest)
      = vars.time.data ++ substituteFrom vars 0 rest := by
  have hskip := substituteFrom_skip vars ['\x7b', 't', 'i', 'm', 'e', '\x7d', '\x7d'] rest
  simp only [List.cons_append, List.nil_append, List.length_cons, List.length_nil] at hskip
  simp [substituteFrom_step, datePlaceholder_data, timePlaceholder_data, List.isPrefixOf, hskip]

/-- The one pass at an occurrence of the weekday placeholder. -/
theorem substituteFrom_weekday (vars : TimeVariables) (rest : List Char) :
    substituteFrom vars 0
        (['\x7b', '\x7b', 'w', 'e', 'e', 'k', 'd', 'a', 'y', '_', 'i', 'd', '\x7d', '\x7d'] ++ rest)
      = vars.weekday_id.data ++ substituteFrom vars 0 rest := by
  have hskip := substituteFrom_skip vars
    ['\x7b', 'w', 'e', 'e', 'k', 'd', 'a', 'y', '_', 'i', 'd', '\x7d', '\x7d'] rest
  simp only [List.cons_append, List.nil_append, List.length_cons, List.length_nil] at hskip
  simp [substituteFrom_step, datePlaceholder_data, timePlaceholder_data,
    weekdayPlaceholder_data, List.isPrefixOf, hskip]

/-- The one pass at a character where no placeholder occurs. -/
theorem substituteFrom_copy (vars : TimeVariables) (c : Char) (rest : List Char)
    (hdate : ¬ ['\x7b', '\x7b', 'd', 'a', 't', 'e', '\x7d', '\x7d'] <+: c :: rest)
    (htime : ¬ ['\x7b', '\x7b', 't', 'i', 'm', 'e', '\x7d', '\x7d'] <+: c :: rest)
    (hweekday : ¬ ['\x7b', '\x7b', 'w', 'e', 'e', 'k', 'd', 'a', 'y', '_', 'i', 'd', '\x7d', '\x7d']
      <+: c :: rest) :
    substituteFrom vars 0 (c :: rest) = c :: substituteFrom vars 0 rest := by
  rw [← List.isPrefixOf_iff_prefix, Bool.not_eq_true] at hdate htime hweekday
  rw [substituteFrom_step, datePlaceholder_data, timePlaceholder_data, weekdayPlaceholder_data,
    hdate, htime, hweekday]
  simp

/-- The replacement of the date placeholder passes over the other two. -/
theorem replaceAllFrom_date_passes (r rest : List Char) :
    replaceAllFrom ['\x7b', '\x7b', 'd', 'a', 't', 'e', '\x7d', '\x7d'] r 0
        (['\x7b', '\x7b', 't', 'i', 'm', 'e', '\x7d', '\x7d'] ++ rest)
      = ['\x7b', '\x7b', 't', 'i', 'm', 'e', '\x7d', '\x7d']
        ++ replaceAllFrom ['\x7b', '\x7b', 'd', 'a', 't', 'e', '\x7d', '\x7d'] r 0 rest
    ∧ replaceAllFrom ['\x7b', '\x7b', 'd', 'a', 't', 'e', '\x7d', '\x7d'] r 0
        (['\x7b', '\x7b', 'w', 'e', 'e', 'k', 'd', 'a', 'y', '_', 'i', 'd', '\x7d', '\x7d'] ++ rest)
      = ['\x7b', '\x7b', 'w', 'e', 'e', 'k', 'd', 'a', 'y', '_', 'i', 'd', '\x7d', '\x7d']
        ++ replaceAllFrom ['\x7b', '\x7b', 'd', 'a', 't', 'e', '\x7d', '\x7d'] r 0 rest := by
  constructor <;> simp [replaceAllFrom_step, List.isPrefixOf]

/-- The replacement of the time placeholder passes over the weekday's. -/
theorem replaceAllFrom_time_passes (r rest : List Char) :
    replaceAllFrom ['\x7b', '\x7b', 't', 'i', 'm', 'e', '\x7d', '\x7d'] r 0
        (['\x7b', '\x7b', 'w', 'e', 'e', 'k', 'd', 'a', 'y', '_', 'i', 'd', '\x7d', '\x7d'] ++ rest)
      = ['\x7b', '\x7b', 'w', 'e', 'e', 'k', 'd', 'a', 'y', '_', 'i', 'd', '\x7d', '\x7d']
        ++ replaceAllFrom ['\x7b', '\x7b', 't', 'i', 'm', 'e', '\x7d', '\x7d'] r 0 rest := by
  simp [replaceAllFrom_step, List.isPrefixOf]

theorem digit_not_in_time {a : Char} (ha : a.isDigit = true) :
    a ∉ ['\x7b', 't', 'i', 'm', 'e', '\x7d', '\x7d'] := by
  intro hmem
  simp only [List.mem_cons, List.mem_singleton, List.not_mem_nil, or_false] at hmem
  rcases hmem with rfl | rfl | rfl | rfl | rfl | rfl | rfl <;> revert ha <;> decide

theorem digit_not_in_weekday {a : Char} (ha : a.isDigit = true) :
    a ∉ ['\x7b', 'w', 'e', 'e', 'k', 'd', 'a', 'y', '_', 'i', 'd', '\x7d', '\x7d'] := by
  intro hmem
  simp only [List.mem_cons, List.mem_singleton, List.not_mem_nil, or_false] at hmem
  rcases hmem with rfl | rfl | rfl | rfl | rfl | rfl | rfl | rfl | rfl | rfl | rfl | rfl | rfl <;>
    revert ha <;> decide

/-- The three replacements one after the other are the one pass, when the
date and the time begin with a digit and have no opening brace. -/
theorem replaceAllFrom_thrice (vars : TimeVariables) (a b : Char) (date time : List Char)
    (hdate : vars.date.data = a :: date) (ha : a.isDigit = true)
    (hdatePlain : ∀ c ∈ vars.date.data, c ≠ '\x7b')
    (htime : vars.time.data = b :: time) (hb : b.isDigit = true)
    (htimePlain : ∀ c ∈ vars.time.data, c ≠ '\x7b') :
    ∀ (n : Nat) (s : List Char), s.length ≤ n →
      replaceAllFrom ['\x7b', '\x7b', 'w', 'e', 'e', 'k', 'd', 'a', 'y', '_', 'i', 'd', '\x7d', '\x7d']
          vars.weekday_id.data 0
          (replaceAllFrom ['\x7b', '\x7b', 't', 'i', 'm', 'e', '\x7d', '\x7d'] vars.time.data 0
            (replaceAllFrom ['\x7b', '\x7b', 'd', 'a', 't', 'e', '\x7d', '\x7d'] vars.date.data 0 s))
        = substituteFrom vars 0 s := by
  intro n
  induction n with
  | zero =>
    intro s hs
    have : s = [] := List.length_eq_zero.1 (Nat.le_zero.1 hs)
    subst this
    simp [replaceAllFrom, substituteFrom]
  | succ n ih =>
    intro s hs
    cases s with
    | nil => simp [replaceAllFrom, substituteFrom]
    | cons c rest =>
      by_cases h1 : ['\x7b', '\x7b', 'd', 'a', 't', 'e', '\x7d', '\x7d'] <+: c :: rest
      · obtain ⟨x, hx⟩ := h1
        have hlen : x.length ≤ n := by
          have := congrArg List.length hx
          simp only [List.length_append, List.length_cons, List.length_nil] at this hs
          omega
        rw [← hx, replaceAllFrom_match, replaceAllFrom_plain _ _ _ _ hdatePlain,
          replaceAllFrom_plain _ _ _ _ hdatePlain, ih x hlen, substituteFrom_date]
      · by_cases h2 : ['\x7b', '\x7b', 't', 'i', 'm', 'e', '\x7d', '\x7d'] <+: c :: rest
        · obtain ⟨x, hx⟩ := h2
          have hlen : x.length ≤ n := by
            have := congrArg List.length hx
            simp only [List.length_append, List.length_cons, List.length_nil] at this hs
            omega
          rw [← hx, (replaceAllFrom_date_passes _ _).1, replaceAllFrom_match,
            replaceAllFrom_plain _ _ _ _ htimePlain, ih x hlen, substituteFrom_time]
        · by_cases h3 : ['\x7b', '\x7b', 'w', 'e', 'e', 'k', 'd', 'a', 'y', '_', 'i', 'd', '\x7d',
              '\x7d'] <+: c :: rest
          · obtain ⟨x, hx⟩ := h3
            have hlen : x.length ≤ n := by
              have := congrArg List.length hx
              simp only [List.length_append, List.length_cons, List.length_nil] at this hs
              omega
            rw [← hx, (replaceAllFrom_date_passes _ _).2, replaceAllFrom_time_passes,
              replaceAllFrom_match, ih x hlen, substituteFrom_weekday]
          · have hlen : rest.length ≤ n := by
              simp only [List.length_cons] at hs; omega
            have h2' : ¬ ['\x7b', '\x7b', 't', 'i', 'm', 'e', '\x7d', '\x7d'] <+: c ::
                replaceAllFrom ['\x7b', '\x7b', 'd', 'a', 't', 'e', '\x7d', '\x7d']
                  vars.date.data 0 rest := by
              rintro ⟨t, ht⟩
              simp only [List.cons_append, List.cons.injEq] at ht
              have hpre := prefix_of_prefix_replaceAllFrom '\x7b'
                ['\x7b', 'd', 'a', 't', 'e', '\x7d', '\x7d'] a date
                ['\x7b', 't', 'i', 'm', 'e', '\x7d', '\x7d'] rest (digit_not_in_time ha)
                ⟨t, by rw [← hdate]; simpa using ht.2⟩
              obtain ⟨u, hu⟩ := hpre
              exact h2 ⟨u, by rw [← ht.1, ← hu]; rfl⟩
            have h3' : ¬ ['\x7b', '\x7b', 'w', 'e', 'e', 'k', 'd', 'a', 'y', '_', 'i', 'd', '\x7d',
                '\x7d'] <+: c ::
                replaceAllFrom ['\x7b', '\x7b', 't', 'i', 'm', 'e', '\x7d', '\x7d'] vars.time.data 0
                  (replaceAllFrom ['\x7b', '\x7b', 'd', 'a', 't', 'e', '\x7d', '\x7d']
                    vars.date.data 0 rest) := by
              rintro ⟨t, ht⟩
              simp only [List.cons_append, List.cons.injEq] at ht
              have hpre1 := prefix_of_prefix_replaceAllFrom '\x7b'
                ['\x7b', 't', 'i', 'm', 'e', '\x7d', '\x7d'] b time
                ['\x7b', 'w', 'e', 'e', 'k', 'd', 'a', 'y', '_', 'i', 'd', '\x7d', '\x7d']
                (replaceAllFrom ['\x7b', '\x7b', 'd', 'a', 't', 'e', '\x7d', '\x7d']
                  vars.date.data 0 rest)
                (digit_not_in_weekday hb) ⟨t, by rw [← htime]; simpa using ht.2⟩
              have hpre2 := prefix_of_prefix_replaceAllFrom '\x7b'
                ['\x7b', 'd', 'a', 't', 'e', '\x7d', '\x7d'] a date
                ['\x7b', 'w', 'e', 'e', 'k', 'd', 'a', 'y', '_', 'i', 'd', '\x7d', '\x7d'] rest
                (digit_not_in_weekday ha) (by rw [← hdate]; exact hpre1)
              obtain ⟨u, hu⟩ := hpre2
              exact h3 ⟨u, by rw [← ht.1, ← hu]; rfl⟩
            rw [replaceAllFrom_copy _ _ _ _ h1, replaceAllFrom_copy _ _ _ _ h2',
              replaceAllFrom_copy _ _ _ _ h3', ih rest hlen,
              substituteFrom_copy vars c rest h1 h2 h3]

/-- The one pass on a template with the three placeholders and other text. -/
theorem substitutePlaceholders_example :
    substitutePlaceholders fridayMorning
        "\x7b\x7bweekday_id\x7d\x7d, \x7b\x7bdate\x7d\x7d (\x7b\x7btime\x7d\x7d) \x7bx\x7d"
      = "Jumat, 06 November 2026 (08.00) \x7bx\x7d" := by
  decide

/-- C21, as stated, fails: the placeholder `weekday` in double braces is not
one that `fillMessageTemplate` replaces (it replaces `weekday_id`); a template
with it comes back with that placeholder still in it, the date replaced. -/
theorem fillMessageTemplate_keeps_weekday :
    fillMessageTemplate fridayMorning
        "Hari \x7b\x7bweekday\x7d\x7d, \x7b\x7bdate\x7d\x7d pukul \x7b\x7btime\x7d\x7d"
      = "Hari \x7b\x7bweekday\x7d\x7d, 06 November 2026 pukul 08.00"
    ∧ fillMessageTemplate fridayMorning
        "Hari \x7b\x7bweekday\x7d\x7d, \x7b\x7bdate\x7d\x7d pukul \x7b\x7btime\x7d\x7d"
      ≠ "Hari Jumat, 06 November 2026 pukul 08.00" := by
  decide

/-- C21, amended: for every message template, with a formatted date and time
that begin with a digit and formatted values without an opening brace or `$`,
`fillMessageTemplate` gives the template with every occurrence of each of the
placeholders `date`, `time` and `weekday_id` (in double braces) replaced by
the date, the time and the weekday name, and all other text as it is; in
particular a template without an opening brace comes back unchanged. -/
theorem fillMessageTemplate_substitutes (vars : TimeVariables) (template : String)
    (hdate : startsWithDigit vars.date = true) (hdatePlain : plainValue vars.date = true)
    (htime : startsWithDigit vars.time = true) (htimePlain : plainValue vars.time = true)
    (_hweekday : plainValue vars.weekday_id = true) :
    fillMessageTemplate vars template = substitutePlaceholders vars template
      ∧ ((∀ c ∈ template.data, c ≠ '\x7b') → fillMessageTemplate vars template = template) := by
  have hfill : fillMessageTemplate vars template
      = String.mk
        (replaceAllFrom
          ['\x7b', '\x7b', 'w', 'e', 'e', 'k', 'd', 'a', 'y', '_', 'i', 'd', '\x7d', '\x7d']
          vars.weekday_id.data 0
          (replaceAllFrom ['\x7b', '\x7b', 't', 'i', 'm', 'e', '\x7d', '\x7d'] vars.time.data 0
            (replaceAllFrom ['\x7b', '\x7b', 'd', 'a', 't', 'e', '\x7d', '\x7d'] vars.date.data 0
              template.data))) := rfl
  constructor
  · have hbrace : ∀ value : String, plainValue value = true → ∀ c ∈ value.data, c ≠ '\x7b' := by
      intro value hplain c hc hbr
      subst hbr
      simp only [plainValue, Bool.and_eq_true, Bool.not_eq_true', List.contains_eq_any_beq,
        List.any_eq_false, beq_iff_eq] at hplain
      exact hplain.1 _ hc rfl
    have hhead : ∀ value : String, startsWithDigit value = true →
        ∃ a rest, value.data = a :: rest ∧ a.isDigit = true := by
      intro value hdigit
      unfold startsWithDigit at hdigit
      cases hdata : value.data with
      | nil => rw [hdata] at hdigit; cases hdigit
      | cons a rest => rw [hdata] at hdigit; exact ⟨a, rest, rfl, hdigit⟩
    obtain ⟨a, date, hdateData, ha⟩ := hhead vars.date hdate
    obtain ⟨b, time, htimeData, hb⟩ := hhead vars.time htime
    rw [hfill, substitutePlaceholders,
      replaceAllFrom_thrice vars a b date time hdateData ha (hbrace _ hdatePlain) htimeData hb
        (hbrace _ htimePlain) template.data.length template.data (Nat.le_refl _)]
  · intro hplain
    have hthrough := fun (p r : List Char) =>
      replaceAllFrom_plain p r template.data [] hplain
    simp only [List.append_nil, replaceAllFrom] at hthrough
    rw [hfill, hthrough, hthrough, hthrough]

theorem fillMessageTemplate_substitutes_witness :
    fillMessageTemplate fridayMorning "[PENGINGAT] Standup hari ini \x7b\x7bdate\x7d\x7d."
      = substitutePlaceholders fridayMorning
          "[PENGINGAT] Standup hari ini \x7b\x7bdate\x7d\x7d." :=
  (fillMessageTemplate_substitutes fridayMorning
    "[PENGINGAT] Standup hari ini \x7b\x7bdate\x7d\x7d." (by decide) (by decide) (by decide)
    (by decide) (by decide)).1

/-! ### The commands of `baileysService.js` -/

/-- With a cadence that the library rejects, `updateSchedule` has stored the
cadence and stopped the running task when `cron.schedule` throws, and the
confirmation is never sent. -/
theorem updateThenConfirm_rejected (env : BaileysEnv) (service : SchedulerService)
    (cronExpression message groupJid jid confirmation : String)
    (hinvalid : env.cron.validate cronExpression = false) :
    (updateThenConfirm env service cronExpression message groupJid jid confirmation).sends = []
      ∧ (updateThenConfirm env service cronExpression message groupJid jid confirmation).ret
        = .raised "invalid expression"
      ∧ (updateThenConfirm env service cronExpression message groupJid jid
          confirmation).service.config.schedule = cronExpression := by
  simp [updateThenConfirm, updateSchedule, startWeeklyNotification, cronSchedule, hinvalid]

/-- C22 fails on the code: the owner's `!settime not-a-cron`, sent to the bot
directly, is answered by no message at all.  `updateSchedule` stores the
rejected cadence and stops the running task, `cron.schedule` throws, and the
`catch` of `handleCommand` only logs: no rejection is sent, and no task is
left running. -/
theorem handleCommand_settime_silent :
    (handleCommand ownerEnv runningService ownerDirect "!settime not-a-cron").sends = []
      ∧ (handleCommand ownerEnv runningService ownerDirect "!settime not-a-cron").ret = .value ()
      ∧ (handleCommandBody ownerEnv runningService ownerDirect "!settime not-a-cron").ret
        = .raised "invalid expression"
      ∧ (handleCommand ownerEnv runningService ownerDirect
          "!settime not-a-cron").service.config.schedule = "not-a-cron"
      ∧ activeCount runningService.cronTasks = 1
      ∧ activeCount
          (handleCommand ownerEnv runningService ownerDirect
            "!settime not-a-cron").service.cronTasks = 0
      ∧ (handleCommand ownerEnv runningService ownerDirect "!settime 0 8 * * 1-5").sends
        = [{ jid := "6281234567890@s.whatsapp.net", text := "✅ Schedule updated: 0 8 * * 1-5",
             mentions := none }] := by
  decide

/-- In a group whose id does not begin with the owner's number, `!setgroup`
does nothing, whoever wrote it: the owner check reads the id of the
conversation, not the author of the message. -/
theorem handleCommand_setgroup_group (env : BaileysEnv) (service : SchedulerService)
    (msg : IncomingMessage)
    (hforeign : ∀ owner, truthy env.OWNER_NUMBER = some owner →
      beforeAt msg.remoteJid ≠ stripPlus owner) :
    (handleCommand env service msg "!setgroup").service = service
      ∧ (handleCommand env service msg "!setgroup").sends = [] := by
  have hcommand : toLowerCase (jsTrim "!setgroup") = "!setgroup" := by decide
  have hbody : handleCommandBody env service msg "!setgroup" = ⟨.value (), service, []⟩ := by
    unfold handleCommandBody
    simp only [hcommand]
    cases howner : truthy env.OWNER_NUMBER with
    | none => simp [startsWith]
    | some owner =>
      have hne := hforeign owner howner
      simp [startsWith, hne]
  simp [handleCommand, hbody]

/-- C23 fails on the code: the owner's `!setgroup`, written inside the group
`120363025246125708@g.us`, changes nothing of the service and gets no reply:
`handleCommand` takes the number before the `@` of the conversation id for the
sender's, so inside a group the sender is never the owner.  The same command
is obeyed only in a conversation whose own id begins with the owner's
number. -/
theorem handleCommand_setgroup_ignored :
    (handleCommand ownerEnv runningService ownerInGroup "!setgroup").service = runningService
      ∧ (handleCommand ownerEnv runningService ownerInGroup "!setgroup").sends = []
      ∧ (handleCommand ownerEnv runningService ownerInGroup "!setgroup").service.config.groupJid
        ≠ "120363025246125708@g.us"
      ∧ (handleCommand ownerEnv runningService
          { remoteJid := "6281234567890@g.us", participant := some "6289876543210@s.whatsapp.net" }
          "!setgroup").service.config.groupJid = "6281234567890@g.us" := by
  decide

/-! ### The flag `enabled` -/

/-- C25 fails on the code in its first part: on a service whose configuration
has `enabled` false and no target group, `initialize` creates no task, but a
following `updateSchedule` creates and runs one, `enabled` still false; and
`updateSchedule` with an empty `groupJid` runs one on an enabled service.
(`updateSchedule` never changes `enabled`: `serviceRun_keeps`.) -/
theorem updateSchedule_ignores_enabled :
    activeCount
        (serviceRun twoCadences (newSchedulerService disabledServiceConfig) [.init]).cronTasks = 0
      ∧ activeCount
          (serviceRun twoCadences (newSchedulerService disabledServiceConfig)
            [.init, .updateSchedule "0 8 * * 1-5" "Standup" "120363@g.us"]).cronTasks = 1
      ∧ (serviceRun twoCadences (newSchedulerService disabledServiceConfig)
          [.init, .updateSchedule "0 8 * * 1-5" "Standup" "120363@g.us"]).config.enabled = false
      ∧ activeCount
          (serviceRun twoCadences (newSchedulerService defaultServiceConfig)
            [.init, .updateSchedule "0 8 * * 1-5" "Standup" ""]).cronTasks = 1
      ∧ (serviceRun twoCadences (newSchedulerService defaultServiceConfig)
          [.init, .updateSchedule "0 8 * * 1-5" "Standup" ""]).config.groupJid = "" := by
  decide

/-- Every call that the loop of `notifyGroup` adds carries the message text it
was given. -/
theorem sendChunks_carries (m : Messenger) (messageText : String) (total : Nat) :
    ∀ (chunks : List (List String)) (i : Nat) (tr : List DispatchEvent),
      (∀ e ∈ tr, carries messageText e) →
      ∀ e ∈ (sendChunks m messageText total i chunks tr).2, carries messageText e := by
  intro chunks
  induction chunks with
  | nil => intro i tr h; simpa [sendChunks] using h
  | cons chunk rest ih =>
    intro i tr h
    have h1 : ∀ e ∈ tr ++ [DispatchEvent.sendMessage
        (fullMessage messageText total i chunk) (some chunk)], carries messageText e := by
      intro e he
      rcases List.mem_append.1 he with he | he
      · exact h e he
      · rw [List.mem_singleton] at he
        subst he
        exact ⟨total, i, rfl⟩
    simp only [sendChunks]
    cases hs : m.sendMessage i (fullMessage messageText total i chunk) (some chunk) with
    | value u =>
      simp only []
      split
      · apply ih
        intro e he
        rcases List.mem_append.1 he with he | he
        · exact h1 e he
        · rw [List.mem_singleton] at he
          subst he
          trivial
      · exact ih _ _ h1
    | raised err =>
      simp only []
      exact h1

/-- Every call that a task of `notifyDM` adds carries the message text it was
given. -/
theorem dmTask_carries (m : Messenger) (messageText : String) (k : Nat) (jid : String)
    (counts : Nat × Nat) (tr : List DispatchEvent) (h : ∀ e ∈ tr, carries messageText e) :
    ∀ e ∈ (dmTask m messageText k jid counts tr).2, carries messageText e := by
  intro e he
  unfold dmTask at he
  cases hc : m.getContactById k jid with
  | value u =>
    rw [hc] at he
    cases hs : m.contactSendMessage k jid messageText with
    | value v =>
      rw [hs] at he
      simp only [List.mem_append, List.mem_cons, List.mem_singleton, List.not_mem_nil,
        or_false] at he
      rcases he with he | he | he
      · exact h e he
      · subst he; trivial
      · subst he; rfl
    | raised err =>
      rw [hs] at he
      simp only [List.mem_append, List.mem_cons, List.mem_singleton, List.not_mem_nil,
        or_false] at he
      rcases he with he | he | he
      · exact h e he
      · subst he; trivial
      · subst he; rfl
  | raised err =>
    rw [hc] at he
    simp only [List.mem_append, List.mem_singleton] at he
    rcases he with he | he
    · exact h e he
    · subst he; trivial

/-- Every call that the tasks of `notifyDM` add carries the message text they
were given. -/
theorem dmTasks_carries (m : Messenger) (messageText : String) :
    ∀ (jids : List String) (k : Nat) (counts : Nat × Nat) (tr : List DispatchEvent),
      (∀ e ∈ tr, carries messageText e) →
      ∀ e ∈ (dmTasks m messageText k jids counts tr).2, carries messageText e := by
  intro jids
  induction jids with
  | nil => intro k counts tr h; simpa [dmTasks] using h
  | cons jid rest ih =>
    intro k counts tr h
    simp only [dmTasks]
    exact ih _ _ _ (dmTask_carries m messageText k jid counts tr h)

/-- Every call of a run of `notifyGroup` carries the message text it was
given. -/
theorem notifyGroup_carries (env : ParticipantsEnv) (m : Messenger) (cache : ParticipantsCache)
    (chat : Chat) (messageText : String) (d : Dispatch)
    (h : notifyGroup env m cache chat messageText = some d) :
    ∀ e ∈ d.trace, carries messageText e := by
  unfold notifyGroup at h
  simp only [] at h
  split at h
  · cases h
    intro e he
    cases he
  · split at h
    · cases h
    · cases h
      exact sendChunks_carries m messageText _ _ 0 [] (fun e he => by cases he)

/-- Every call of a run of `notifyDM` carries the message text it was given. -/
theorem notifyDM_carries (env : ParticipantsEnv) (m : Messenger) (cache : ParticipantsCache)
    (chat : Chat) (messageText : String) :
    ∀ e ∈ (notifyDM env m cache chat messageText).trace, carries messageText e := by
  unfold notifyDM
  simp only []
  split
  · intro e he
    cases he
  · intro e he
    rcases List.mem_append.1 he with he | he
    · exact dmTasks_carries m messageText _ 0 (0, 0) [] (fun e he => by cases he) e he
    · rw [List.mem_singleton] at he
      subst he
      exact ⟨_, _, rfl⟩

/-- Every call of a run of `runNotification` carries the text that
`fillMessageTemplate` builds from the template of the configuration the run
was given. -/
theorem runNotification_carries (cfg : Config) (dcfg : DispatchConfig) (env : RunEnv)
    (st : AppState) (vars : TimeVariables) (run : Run)
    (hvars : env.timeVariables = .value vars)
    (hrun : runNotification cfg dcfg env st = some run) :
    ∀ e ∈ run.dispatchTrace,
      carries (fillMessageTemplate vars dcfg.MESSAGE_TEXT) e := by
  have hbody : ∀ body, runNotificationBody cfg dcfg env st = some body →
      ∀ e ∈ body.dispatchTrace, carries (fillMessageTemplate vars dcfg.MESSAGE_TEXT) e := by
    intro body hb
    have hres : ∀ st1 tr chat, dispatchResolved dcfg env st1 tr chat = some body →
        ∀ e ∈ body.dispatchTrace, carries (fillMessageTemplate vars dcfg.MESSAGE_TEXT) e := by
      intro st1 tr chat hd
      unfold dispatchResolved at hd
      rw [hvars] at hd
      simp only [] at hd
      split at hd
      · cases hn : notifyGroup env.participants env.messenger st1.participantsCache chat
            (fillMessageTemplate vars dcfg.MESSAGE_TEXT) with
        | none => rw [hn] at hd; cases hd
        | some d =>
          rw [hn] at hd
          cases hd
          exact notifyGroup_carries _ _ _ _ _ d hn
      · split at hd
        · cases hd
          exact notifyDM_carries _ _ _ _ _
        · cases hd
          intro e he
          cases he
    unfold runNotificationBody at hb
    split at hb
    · cases hb
      intro e he
      cases he
    · split at hb
      · cases hb
        intro e he
        cases he
      · simp only [] at hb
        split at hb
        · cases hb
          intro e he
          cases he
        · cases hb
          intro e he
          cases he
        · exact hres _ _ _ hb
  unfold runNotification at hrun
  cases hb : runNotificationBody cfg dcfg env st with
  | none => rw [hb] at hrun; cases hrun
  | some body =>
    rw [hb] at hrun
    simp only [] at hrun
    split at hrun
    · rw [← Option.some.inj hrun]
      exact hbody body hb
    · rw [← Option.some.inj hrun]
      exact hbody body hb

/-- A run of `runNotification` returns. -/
theorem runNotification_returns (cfg : Config) (dcfg : DispatchConfig) (env : RunEnv)
    (st : AppState) : ∃ run, runNotification cfg dcfg env st = some run := by
  obtain ⟨body, hbody, _⟩ := runNotificationBody_returns cfg dcfg env st
  unfold runNotification
  rw [hbody]
  simp only
  cases body.ret with
  | value u => exact ⟨_, rfl⟩
  | raised e => exact ⟨_, rfl⟩

/-- C24 (the claim fails): the owner's `!setmsg Rapat {{date}}`, handled
while the run of a tick awaits the resolution of its target, changes the
template from `Standup` to `Rapat {{date}}`, and that same run then sends
`Rapat 06 November 2026` with the mentions, not the text built from the
template in effect when the tick started, which is what the run sends when no
message arrives. -/
theorem tick_uses_new_template :
    weekdayConfig.MESSAGE_TEXT = "Standup"
    ∧ (handleAdminCommands teamByName teamAdminEnv weekdayConfig scheduledApp
        setMessageCommand).dcfg.MESSAGE_TEXT = "Rapat \x7b\x7bdate\x7d\x7d"
    ∧ (tick teamByName teamRunEnv teamAdminEnv weekdayConfig scheduledApp
        [setMessageCommand] []).1.map (fun run => run.dispatchTrace)
      = some [.sendMessage "Rapat 06 November 2026\n\n@628100 @628101 @628102"
          (some ["628100@c.us", "628101@c.us", "628102@c.us"])]
    ∧ (tick teamByName teamRunEnv teamAdminEnv weekdayConfig scheduledApp
        [] []).1.map (fun run => run.dispatchTrace)
      = some [.sendMessage "Standup\n\n@628100 @628101 @628102"
          (some ["628100@c.us", "628101@c.us", "628102@c.us"])] := by
  decide

/-- C24 (amended): a run of `runNotification` reads the message template and
the delivery mode once, after the resolution of its target.  Whatever the
admin messages handled while the run awaits the resolution and while it awaits
the notifier, the run returns, every call it makes carries the text built from
the template as the messages handled during the resolution left it, the
messages handled during the dispatch change nothing of the run, and the next
tick runs with the configuration as all of them left it. -/
theorem tick_reads_after_resolution (cfg : Config) (env : RunEnv) (aenv : AdminEnv)
    (dcfg : DispatchConfig) (st : AppState)
    (duringResolution duringDispatch : List AdminMessage) (vars : TimeVariables)
    (hvars : env.timeVariables = .value vars) :
    ∃ run, (tick cfg env aenv dcfg st duringResolution duringDispatch).1 = some run
      ∧ (∀ e ∈ run.dispatchTrace, carries (fillMessageTemplate vars
          (reconfigured cfg aenv st dcfg duringResolution).MESSAGE_TEXT) e)
      ∧ (tick cfg env aenv dcfg st duringResolution []).1 = some run
      ∧ ∀ (env2 : RunEnv) (st2 : AppState),
          (tick cfg env2 aenv
            (tick cfg env aenv dcfg st duringResolution duringDispatch).2 st2 [] []).1
          = runNotification cfg (reconfigured cfg aenv st
              (reconfigured cfg aenv st dcfg duringResolution) duringDispatch) env2 st2 := by
  obtain ⟨run, hrun⟩ := runNotification_returns cfg
    (reconfigured cfg aenv st dcfg duringResolution) env st
  exact ⟨run, hrun, runNotification_carries cfg _ env st vars run hvars hrun, hrun,
    fun _ _ => rfl⟩

/-- The amended C24 at the owner's `!setmsg Rapat {{date}}`: handled during
the dispatch it leaves the run's text built from `Standup`, handled during the
resolution it is the template the run uses. -/
theorem tick_reads_after_resolution_witness :
    teamRunEnv.timeVariables = .value fridayMorning
    ∧ (reconfigured teamByName teamAdminEnv scheduledApp weekdayConfig
        [setMessageCommand]).MESSAGE_TEXT = "Rapat \x7b\x7bdate\x7d\x7d"
    ∧ (reconfigured teamByName teamAdminEnv scheduledApp weekdayConfig []).MESSAGE_TEXT
        = "Standup"
    ∧ (∃ run, (tick teamByName teamRunEnv teamAdminEnv weekdayConfig scheduledApp []
          [setMessageCommand]).1 = some run
        ∧ (∀ e ∈ run.dispatchTrace, carries (fillMessageTemplate fridayMorning
            (reconfigured teamByName teamAdminEnv scheduledApp weekdayConfig
              []).MESSAGE_TEXT) e)
        ∧ (tick teamByName teamRunEnv teamAdminEnv weekdayConfig scheduledApp [] []).1
            = some run
        ∧ ∀ (env2 : RunEnv) (st2 : AppState),
            (tick teamByName env2 teamAdminEnv
              (tick teamByName teamRunEnv teamAdminEnv weekdayConfig scheduledApp []
                [setMessageCommand]).2 st2 [] []).1
            = runNotification teamByName (reconfigured teamByName teamAdminEnv scheduledApp
                (reconfigured teamByName teamAdminEnv scheduledApp weekdayConfig [])
                [setMessageCommand]) env2 st2) :=
  ⟨rfl, by decide, by decide,
    tick_reads_after_resolution teamByName teamRunEnv teamAdminEnv weekdayConfig scheduledApp
      [] [setMessageCommand] fridayMorning rfl⟩

end WaNotifier
